import Mathlib

/-!
Shallow embedding of `src/projects/lib/src/pgngame.cpp` (PGN game reading and
writing).  The chess rules engine `Chess::Board` is an external collaborator
(declared outside this repository's sources); it is abstracted as a record of
operations, following the interface listed in the specification.  `QTextStream`
is modelled as a character list with a cursor position and an ok/fail status,
`QString` values are Lean `String`s (lists of characters), and the `qDebug`
diagnostic calls are modelled as an explicit list of emitted diagnostics.
-/

namespace Chess

/-- The chess variants referenced by `pgngame.cpp` (`Chess::StandardChess`,
`Chess::CapablancaChess`). -/
inductive Variant where
  | StandardChess
  | CapablancaChess
deriving DecidableEq

/-- The members of `Chess::Result` referenced by `pgngame.cpp`. -/
inductive Result where
  | WhiteMates
  | BlackMates
  | WhiteResigns
  | BlackResigns
  | Stalemate
  | DrawByMaterial
  | DrawByRepetition
  | DrawByFiftyMoves
  | DrawByAgreement
  | NoResult
  | ResultError
deriving DecidableEq

/-- Modelled from the spec: `Chess::standardFen`, the canonical standard-chess
starting position.  The chessboard module defining this constant is not among
the repository sources; only its role as a distinguished position string
matters here. -/
def standardFen : String :=
  "rnbqkbnr/pppppppp/8/8/8/8/PPPPPPPP/RNBQKBNR w KQkq - 0 1"

/-- Modelled from the spec: `Chess::capablancaFen`, the alternate variant's
canonical "capablanca" starting position (defined outside the sources). -/
def capablancaFen : String :=
  "rnabqkbcnr/pppppppppp/10/10/10/10/PPPPPPPPPP/RNABQKBCNR w KQkq - 0 1"

/-- Modelled from the spec: `Chess::gothicFen`, the alternate variant's
canonical "gothic" starting position (defined outside the sources). -/
def gothicFen : String :=
  "rnbqckabnr/pppppppppp/10/10/10/10/PPPPPPPPPP/RNBQCKABNR w KQkq - 0 1"

end Chess

/-- The item kinds of `PgnGame::PgnItem`. -/
inductive PgnItem where
  | PgnMove
  | PgnMoveNumber
  | PgnTag
  | PgnComment
  | PgnNag
  | PgnResult
  | PgnError
deriving DecidableEq

/-- One diagnostic message, modelling the `qDebug(...)` calls in
`pgngame.cpp`. -/
inductive Diag where
  | noTerminationMarker
  | terminationMarkerDiffers
  | invalidResult
  | invalidFen
  | noTagsFound
  | illegalMove
  | invalidNag
deriving DecidableEq

/-- Modelled from the spec: the interface of the out-of-scope board/rules
collaborator `Chess::Board` (construction from a variant, `setBoard`,
`fenString`, `moveFromString`, `isLegalMove`, `makeMove`, and `moveString`
in standard-algebraic style).  `setBoard` returns its success flag together
with the updated board state; all other operations are as in the spec's
collaborator interface.  `B` is the board-state type and `M` the opaque move
type. -/
structure BoardOps (B M : Type) where
  mkBoard : Chess.Variant → B
  setBoard : B → String → Bool × B
  fenString : B → String
  moveFromString : B → String → M
  isLegalMove : B → M → Bool
  makeMove : B → M → B
  moveString : B → M → String

/-- The `PgnGame` record: players, result, starting position, variant data,
move sequence, round number and the `m_isEmpty` flag. -/
structure PgnGame (M : Type) where
  m_whitePlayer : String
  m_blackPlayer : String
  m_result : Chess.Result
  m_fen : String
  m_variant : Chess.Variant
  m_isRandomVariant : Bool
  m_moves : List M
  m_round : Nat
  m_isEmpty : Bool

/-- `static QString resultToString(Chess::Result result)`. -/
def resultToString (result : Chess.Result) : String :=
  match result with
  | .WhiteMates => "1-0"
  | .BlackResigns => "1-0"
  | .BlackMates => "0-1"
  | .WhiteResigns => "0-1"
  | .Stalemate => "1/2-1/2"
  | .DrawByMaterial => "1/2-1/2"
  | .DrawByRepetition => "1/2-1/2"
  | .DrawByFiftyMoves => "1/2-1/2"
  | .DrawByAgreement => "1/2-1/2"
  | _ => "*"

/-- `static Chess::Result resultFromString(const QString& str)`. -/
def resultFromString (str : String) : Chess.Result :=
  if str = "*" then .NoResult
  else if str = "1-0" then .WhiteMates
  else if str = "0-1" then .BlackMates
  else if str = "1/2-1/2" then .DrawByAgreement
  else .ResultError

/-- `QChar::isSpace` restricted to the ASCII range (space and the control
characters `\t`, `\n`, `\v`, `\f`, `\r`). -/
def qIsSpace (c : Char) : Bool :=
  c = ' ' || c = '\t' || c = '\n' || c = '\x0b' || c = '\x0c' || c = '\r'

/-- `QString::trimmed` on a character list: strip leading and trailing
whitespace. -/
def qtrim (l : List Char) : List Char :=
  ((l.dropWhile qIsSpace).reverse.dropWhile qIsSpace).reverse

/-- Decimal value of a digit list (helper for the `QString::toInt` model). -/
def digitsToNat (l : List Char) : Nat :=
  l.foldl (fun a c => a * 10 + (c.toNat - 48)) 0

/-- `QString::toInt` on a whitespace-free character list (the only shape it is
applied to in `pgngame.cpp`, since the scanned token is already trimmed and
numeric-annotation accumulation stops at whitespace): an optional sign
followed by at least one decimal digit parses; anything else fails. -/
def qtoInt (l : List Char) : Option Int :=
  match l with
  | [] => none
  | '-' :: rest =>
      if rest ≠ [] ∧ rest.all Char.isDigit then some (-(digitsToNat rest : Int))
      else none
  | '+' :: rest =>
      if rest ≠ [] ∧ rest.all Char.isDigit then some ((digitsToNat rest : Int))
      else none
  | _ =>
      if l.all Char.isDigit then some ((digitsToNat l : Int)) else none

/-- A `QTextStream` over in-memory text: the character data, the read cursor,
and whether the status is still `QTextStream::Ok` (a read past the end sets
the status to `ReadPastEnd`, modelled as `ok := false`). -/
structure TextStream where
  data : List Char
  pos : Nat
  ok : Bool
deriving DecidableEq

/-- `in >> c` for a `QChar`: read the character at the cursor; at the end of
the data the status becomes `ReadPastEnd` and the null character is
produced. -/
def TextStream.readChar (s : TextStream) : Char × TextStream :=
  match s.data[s.pos]? with
  | some c => (c, { s with pos := s.pos + 1 })
  | none => ('\x00', { s with ok := false })

/-- `QTextStream::skipWhiteSpace`: advance the cursor past consecutive
whitespace. -/
def TextStream.skipWhiteSpace (s : TextStream) : TextStream :=
  { s with pos := s.pos + ((s.data.drop s.pos).takeWhile qIsSpace).length }

/-- `QTextStream::readLine`: the text up to the next line break, consuming the
line break as well. -/
def TextStream.readLine (s : TextStream) : String × TextStream :=
  let rest := s.data.drop s.pos
  let line := rest.takeWhile (fun c => c ≠ '\n')
  (String.mk line, { s with pos := s.pos + min (line.length + 1) rest.length })

/-- Termination measure for the character-reading loops: any successful read
advances the cursor, and a failed read clears `ok`. -/
def TextStream.measure (s : TextStream) : Nat :=
  (if s.ok then 1 else 0) + (s.data.length - s.pos)

/-- The mutable local state of the `while` loop in `PgnGame::readItem`:
the current item classification, the opening/closing bracket characters
(null `QChar` modelled as `'\x00'`), the bracket nesting level and the
accumulated token text. -/
structure ScanState where
  itemType : PgnItem
  openingBracket : Char
  closingBracket : Char
  bracketLevel : Int
  str : List Char
deriving DecidableEq

/-- The scan state at entry of `PgnGame::readItem`'s loop. -/
def ScanState.start : ScanState :=
  ⟨.PgnMove, '\x00', '\x00', 0, []⟩

/-- Outcome of one iteration of the `readItem` loop: continue looping, leave
the loop (`break`), or the early `return PgnError` taken when a tag opening
is seen after moves have been read (with the stream rewound one character). -/
inductive StepOut where
  | cont (st : ScanState) (s : TextStream)
  | brk (st : ScanState) (s : TextStream)
  | earlyError (s : TextStream)
deriving DecidableEq

/-- The digit reclassification step of the loop body: inside the
`openingBracket.isNull()` and `str.isEmpty()` block, a digit while the item is
still a move reclassifies it as a move number. -/
def digitReclass (st : ScanState) (c : Char) : ScanState :=
  if st.openingBracket = '\x00' ∧ st.str = [] ∧ c.isDigit = true ∧
      st.itemType = PgnItem.PgnMove then
    { st with itemType := .PgnMoveNumber }
  else st

/-- The bracket-classification step of the loop body: when no bracket is
active, `[`, `(` and `\x7b` select the item type and the closing bracket, and
a non-null closing bracket records the opening character. -/
def bracketClassify (st1 : ScanState) (c : Char) : ScanState :=
  if st1.openingBracket = '\x00' ∧ c = '[' then
    { st1 with itemType := .PgnTag, closingBracket := ']',
               openingBracket := c }
  else if st1.openingBracket = '\x00' ∧ c = '(' then
    { st1 with itemType := .PgnComment, closingBracket := ')',
               openingBracket := c }
  else if st1.openingBracket = '\x00' ∧ c = '\x7b' then
    { st1 with itemType := .PgnComment, closingBracket := '\x7d',
               openingBracket := c }
  else if st1.openingBracket = '\x00' ∧ st1.closingBracket ≠ '\x00' then
    { st1 with openingBracket := c }
  else st1

/-- The tail of the loop body: bracket-level bookkeeping, the
whitespace/period stopping conditions, and accumulation of the character. -/
def scanTail (st3 : ScanState) (c : Char) (s : TextStream) : StepOut :=
  if c = st3.openingBracket then
    .cont { st3 with bracketLevel := st3.bracketLevel + 1 } s
  else if c = st3.closingBracket then
    if st3.bracketLevel - 1 ≤ 0 then
      .brk { st3 with bracketLevel := st3.bracketLevel - 1 } s
    else
      .cont { st3 with bracketLevel := st3.bracketLevel - 1 } s
  else if st3.itemType = PgnItem.PgnMove ∧ qIsSpace c = true then
    .brk st3 s
  else if st3.itemType = PgnItem.PgnMoveNumber ∧
      (qIsSpace c = true ∨ c = '.') then
    .brk st3 s
  else if st3.itemType = PgnItem.PgnNag ∧ qIsSpace c = true then
    .brk st3 s
  else
    .cont { st3 with str := st3.str ++ [c] } s

/-- One iteration of the `while (in.status() == QTextStream::Ok)` loop of
`PgnGame::readItem`, including the `in >> c` read.  `mIsEmpty` is the record's
`m_isEmpty` flag and `hasMoves` is `m_moves.size() > 0`; neither changes while
the loop runs. -/
def scanIter (mIsEmpty hasMoves : Bool) (st : ScanState) (s0 : TextStream) :
    StepOut :=
  if mIsEmpty = true ∧ st.itemType ≠ PgnItem.PgnTag ∧ s0.readChar.1 ≠ '[' then
    .cont st s0.readChar.2
  else if (s0.readChar.1 = '\n' ∨ s0.readChar.1 = '\r') ∧
      st.itemType ≠ PgnItem.PgnComment then
    .brk st s0.readChar.2
  else if st.openingBracket = '\x00' ∧ st.str = [] ∧ s0.readChar.1 = ';' then
    .brk { st with itemType := .PgnComment,
                   str := (s0.readChar.2.readLine.1).data }
      s0.readChar.2.readLine.2
  else if st.openingBracket = '\x00' ∧ st.str = [] ∧ s0.readChar.1 = '%' then
    .cont st s0.readChar.2.readLine.2
  else if st.openingBracket = '\x00' ∧ st.str = [] ∧ s0.readChar.1 = '.' then
    .cont st s0.readChar.2.skipWhiteSpace
  else if st.openingBracket = '\x00' ∧ st.str = [] ∧ s0.readChar.1 = '$' then
    .cont { st with itemType := .PgnNag } s0.readChar.2
  else if (digitReclass st s0.readChar.1).openingBracket = '\x00' ∧
      s0.readChar.1 = '[' ∧ hasMoves = true then
    .earlyError { s0.readChar.2 with pos := s0.readChar.2.pos - 1 }
  else
    scanTail (bracketClassify (digitReclass st s0.readChar.1) s0.readChar.1)
      s0.readChar.1 s0.readChar.2

/-- Reading a character preserves the data. -/
theorem TextStream.readChar_data (s : TextStream) : s.readChar.2.data = s.data := by
  unfold TextStream.readChar
  cases h : s.data[s.pos]? <;> simp

/-- Reading a character never moves the cursor backwards. -/
theorem TextStream.readChar_pos_ge (s : TextStream) : s.pos ≤ s.readChar.2.pos := by
  unfold TextStream.readChar
  cases h : s.data[s.pos]? <;> simp

/-- Reading a character never clears and then restores the status. -/
theorem TextStream.readChar_ok (s : TextStream) :
    s.readChar.2.ok = s.ok ∨ s.readChar.2.ok = false := by
  unfold TextStream.readChar
  cases h : s.data[s.pos]? <;> simp

/-- A successful read advances the cursor by one inside the data. -/
theorem TextStream.readChar_success (s : TextStream) (c : Char)
    (h : s.data[s.pos]? = some c) :
    s.readChar = (c, { s with pos := s.pos + 1 }) := by
  unfold TextStream.readChar
  rw [h]

/-- A failed read clears the status and keeps the cursor. -/
theorem TextStream.readChar_fail (s : TextStream)
    (h : s.data[s.pos]? = none) :
    s.readChar = ('\x00', { s with ok := false }) := by
  unfold TextStream.readChar
  rw [h]

/-- `skipWhiteSpace` changes only the cursor, never moving it backwards nor
past the end of the data. -/
theorem TextStream.skipWhiteSpace_spec (s : TextStream) :
    s.skipWhiteSpace.data = s.data ∧ s.skipWhiteSpace.ok = s.ok ∧
    s.pos ≤ s.skipWhiteSpace.pos ∧
    s.skipWhiteSpace.pos ≤ max s.pos s.data.length := by
  refine ⟨rfl, rfl, by simp [TextStream.skipWhiteSpace], ?_⟩
  show s.pos + ((s.data.drop s.pos).takeWhile qIsSpace).length ≤ _
  have h1 : ((s.data.drop s.pos).takeWhile qIsSpace).length ≤
      (s.data.drop s.pos).length := (List.takeWhile_sublist _).length_le
  have h2 : (s.data.drop s.pos).length = s.data.length - s.pos := by
    simp [List.length_drop]
  omega

/-- `readLine` changes only the cursor, never moving it backwards nor past the
end of the data. -/
theorem TextStream.readLine_spec (s : TextStream) :
    s.readLine.2.data = s.data ∧ s.readLine.2.ok = s.ok ∧
    s.pos ≤ s.readLine.2.pos ∧
    s.readLine.2.pos ≤ max s.pos s.data.length := by
  refine ⟨rfl, rfl, by simp [TextStream.readLine], ?_⟩
  show s.pos + min _ (s.data.drop s.pos).length ≤ _
  have h2 : (s.data.drop s.pos).length = s.data.length - s.pos := by
    simp [List.length_drop]
  omega


/-- The loop-body tail never changes the stream: it only decides whether to
continue, stop, and what state to keep. -/
theorem scanTail_stream (st3 st' : ScanState) (c : Char) (s s' : TextStream)
    (h : scanTail st3 c s = .cont st' s') : s' = s := by
  unfold scanTail at h
  repeat' split at h
  all_goals cases h
  all_goals rfl

/-- Any `.cont` outcome of one loop iteration strictly decreases the stream
measure. -/
theorem scanIter_cont_measure (mIsEmpty hasMoves : Bool) (st st' : ScanState)
    (s0 s' : TextStream) (hok : s0.ok = true)
    (h : scanIter mIsEmpty hasMoves st s0 = .cont st' s') :
    s'.measure < s0.measure := by
  have hbase : ∀ t : TextStream, t.data = s0.readChar.2.data →
      t.ok = s0.readChar.2.ok → s0.readChar.2.pos ≤ t.pos →
      t.pos ≤ max s0.readChar.2.pos s0.data.length →
      t.measure < s0.measure := by
    intro t hd hko hp1 hp2
    unfold TextStream.measure
    cases hc : s0.data[s0.pos]? with
    | some c =>
        have hr := TextStream.readChar_success s0 c hc
        have hlt : s0.pos < s0.data.length :=
          (List.getElem?_eq_some_iff.mp hc).1
        rw [hr] at hd hko hp1 hp2
        simp at hd hko hp1 hp2
        rw [hd, hko, hok]
        simp
        omega
    | none =>
        have hr := TextStream.readChar_fail s0 hc
        have hlen : s0.data.length ≤ s0.pos := List.getElem?_eq_none_iff.mp hc
        rw [hr] at hd hko hp1 hp2
        simp at hd hko hp1 hp2
        rw [hd, hko, hok]
        simp
        omega
  have hrl := TextStream.readLine_spec s0.readChar.2
  have hsw := TextStream.skipWhiteSpace_spec s0.readChar.2
  have hrdata := TextStream.readChar_data s0
  unfold scanIter at h
  repeat' split at h
  all_goals first
    | (cases h <;> first
        | exact hbase _ rfl rfl (le_refl _) (le_max_left _ _)
        | exact hbase _ hrl.1 hrl.2.1 hrl.2.2.1 (by rw [hrdata] at hrl; exact hrl.2.2.2)
        | exact hbase _ hsw.1 hsw.2.1 hsw.2.2.1 (by rw [hrdata] at hsw; exact hsw.2.2.2))
    | (rw [scanTail_stream _ _ _ _ _ h];
       exact hbase _ rfl rfl (le_refl _) (le_max_left _ _))

/-- Result of running `readItem`'s loop to completion: either the loop left
normally (`break` or status no longer `Ok`) with the final scan state, or the
early `return PgnError` for a tag met after moves was taken. -/
inductive ScanResult where
  | finished (st : ScanState) (s : TextStream)
  | tagAfterMoves (s : TextStream)
deriving DecidableEq

/-- The `while (in.status() == QTextStream::Ok)` loop of `PgnGame::readItem`,
iterated to completion. -/
def scanLoop (mIsEmpty hasMoves : Bool) (st : ScanState) (s : TextStream) :
    ScanResult :=
  if h : s.ok = true then
    match h2 : scanIter mIsEmpty hasMoves st s with
    | .cont st' s' => scanLoop mIsEmpty hasMoves st' s'
    | .brk st' s' => .finished st' s'
    | .earlyError s' => .tagAfterMoves s'
  else .finished st s
termination_by s.measure
decreasing_by exact scanIter_cont_measure _ _ _ _ _ _ h h2

/-- The result of one `PgnGame::readItem` call: the returned item kind
together with the updated record, board collaborator, stream, and the
diagnostics printed via `qDebug`. -/
structure ReadItemResult (B M : Type) where
  item : PgnItem
  game : PgnGame M
  board : B
  stream : TextStream
  diags : List Diag

/-- The tag name taken by `str.section(' ', 0, 0)`: the text before the first
space. -/
def tagName (str : List Char) : List Char :=
  str.takeWhile (fun c => c ≠ ' ')

/-- The tag parameter taken by `str.section(' ', 1).replace('\x22', "")`: the
text after the first space, with every double-quote character removed. -/
def tagParam (str : List Char) : List Char :=
  ((str.dropWhile (fun c => c ≠ ' ')).drop 1).filter (fun c => c ≠ '"')

/-- The code of `PgnGame::readItem` after its loop: trim the token, handle the
empty token, reclassify result tokens, and dispatch on the item type (tag
handling including `FEN` validation, move decoding and legality checking, and
numeric-annotation validation). -/
def readItemAfterLoop {B M : Type} (bi : BoardOps B M) (g : PgnGame M) (b : B)
    (st : ScanState) (s : TextStream) : ReadItemResult B M :=
  if qtrim st.str = [] then ⟨.PgnError, g, b, s, []⟩
  else if (st.itemType = PgnItem.PgnMove ∨ st.itemType = PgnItem.PgnMoveNumber) ∧
      (qtrim st.str = "*".data ∨ qtrim st.str = "1/2-1/2".data ∨
        qtrim st.str = "1-0".data ∨ qtrim st.str = "0-1".data) then
    ⟨.PgnResult,
      { g with m_result := resultFromString (String.mk (qtrim st.str)) }, b, s,
      if resultFromString (String.mk (qtrim st.str)) ≠ g.m_result then
        [.terminationMarkerDiffers] else []⟩
  else if st.itemType = PgnItem.PgnTag then
    if tagName (qtrim st.str) = "White".data then
      ⟨.PgnTag,
        { g with m_whitePlayer := String.mk (tagParam (qtrim st.str)) }, b, s,
        []⟩
    else if tagName (qtrim st.str) = "Black".data then
      ⟨.PgnTag,
        { g with m_blackPlayer := String.mk (tagParam (qtrim st.str)) }, b, s,
        []⟩
    else if tagName (qtrim st.str) = "Result".data then
      ⟨.PgnTag,
        { g with m_result := resultFromString (String.mk (tagParam (qtrim st.str))) },
        b, s,
        if resultFromString (String.mk (tagParam (qtrim st.str))) =
            Chess.Result.ResultError then [.invalidResult] else []⟩
    else if tagName (qtrim st.str) = "FEN".data then
      if (bi.setBoard b (String.mk (tagParam (qtrim st.str)))).1 = true then
        ⟨.PgnTag, { g with m_fen := String.mk (tagParam (qtrim st.str)) },
          (bi.setBoard b (String.mk (tagParam (qtrim st.str)))).2, s, []⟩
      else
        ⟨.PgnError, { g with m_fen := String.mk (tagParam (qtrim st.str)) },
          (bi.setBoard b (String.mk (tagParam (qtrim st.str)))).2, s,
          [.invalidFen]⟩
    else ⟨.PgnTag, g, b, s, []⟩
  else if st.itemType = PgnItem.PgnMove then
    if g.m_isEmpty = true then ⟨.PgnError, g, b, s, [.noTagsFound]⟩
    else
      if bi.isLegalMove b (bi.moveFromString b (String.mk (qtrim st.str))) =
          true then
        ⟨.PgnMove,
          { g with m_moves :=
              g.m_moves ++ [bi.moveFromString b (String.mk (qtrim st.str))] },
          bi.makeMove b (bi.moveFromString b (String.mk (qtrim st.str))), s,
          []⟩
      else ⟨.PgnError, g, b, s, [.illegalMove]⟩
  else if st.itemType = PgnItem.PgnNag then
    if (qtoInt (qtrim st.str)).isSome = false ∨
        (qtoInt (qtrim st.str)).getD 0 < 0 ∨
        (qtoInt (qtrim st.str)).getD 0 > 255 then
      ⟨.PgnError, g, b, s, [.invalidNag]⟩
    else ⟨.PgnNag, g, b, s, []⟩
  else ⟨st.itemType, g, b, s, []⟩

/-- `PgnGame::readItem(QTextStream& in, Chess::Board& board)`: skip leading
whitespace, run the scanning loop, then classify and apply the scanned
item. -/
def PgnGame.readItem {B M : Type} (bi : BoardOps B M) (g : PgnGame M) (b : B)
    (s0 : TextStream) : ReadItemResult B M :=
  let s1 := s0.skipWhiteSpace
  match scanLoop g.m_isEmpty (decide (0 < g.m_moves.length)) ScanState.start
      s1 with
  | .tagAfterMoves s2 => ⟨.PgnError, g, b, s2, [.noTerminationMarker]⟩
  | .finished st s2 => readItemAfterLoop bi g b st s2

/-- The invariant tying the two bracket registers of the scan state together:
they are null simultaneously (they are only ever assigned together). -/
def ScanState.bracketsTied (st : ScanState) : Prop :=
  st.openingBracket = '\x00' ↔ st.closingBracket = '\x00'

/-- The null character is not a decimal digit. -/
theorem nullChar_not_digit : Char.isDigit '\x00' = false := by decide

/-- The null character is not whitespace. -/
theorem nullChar_not_space : qIsSpace '\x00' = false := by decide

/-- Digit reclassification does not touch the bracket registers. -/
theorem digitReclass_brackets (st : ScanState) (c : Char) :
    (digitReclass st c).openingBracket = st.openingBracket ∧
    (digitReclass st c).closingBracket = st.closingBracket := by
  unfold digitReclass
  split <;> simp

/-- Digit reclassification does not touch the accumulated text. -/
theorem digitReclass_str (st : ScanState) (c : Char) :
    (digitReclass st c).str = st.str := by
  unfold digitReclass
  split <;> simp

/-- Bracket classification preserves the bracket invariant. -/
theorem bracketClassify_tied (st1 : ScanState) (c : Char)
    (h : st1.bracketsTied) : (bracketClassify st1 c).bracketsTied := by
  unfold bracketClassify
  unfold ScanState.bracketsTied at h ⊢
  split
  · next hcond => simp [hcond.2]
  · split
    · next hcond => simp [hcond.2]
    · split
      · next hcond => simp [hcond.2]
      · split
        · next hcond => exact absurd (h.mp hcond.1) hcond.2
        · exact h

/-- Bracket classification does nothing on the null character when the
invariant holds. -/
theorem bracketClassify_null (st1 : ScanState) (h : st1.bracketsTied) :
    bracketClassify st1 '\x00' = st1 := by
  unfold bracketClassify
  split
  · next hcond => exact absurd hcond.2 (by decide)
  · split
    · next hcond => exact absurd hcond.2 (by decide)
    · split
      · next hcond => exact absurd hcond.2 (by decide)
      · split
        · next hcond => exact absurd (h.mp hcond.1) hcond.2
        · rfl

/-- The loop tail never changes the stream when it stops the loop either. -/
theorem scanTail_brk_stream (st3 st' : ScanState) (c : Char)
    (s s' : TextStream) (h : scanTail st3 c s = .brk st' s') : s' = s := by
  unfold scanTail at h
  repeat' split at h
  all_goals cases h
  all_goals rfl

/-- The loop tail does not touch the bracket registers of the state it
keeps for a continuing iteration. -/
theorem scanTail_cont_brackets (st3 st' : ScanState) (c : Char)
    (s s' : TextStream) (h : scanTail st3 c s = .cont st' s') :
    st'.openingBracket = st3.openingBracket ∧
    st'.closingBracket = st3.closingBracket := by
  unfold scanTail at h
  repeat' split at h
  all_goals cases h
  all_goals simp

/-- On the null character the loop tail always continues (given the bracket
invariant): the null character compares equal to an inactive opening bracket
and is neither whitespace nor a period. -/
theorem scanTail_null_no_brk (st3 st' : ScanState) (s s' : TextStream)
    (hInv : st3.bracketsTied) : scanTail st3 '\x00' s ≠ .brk st' s' := by
  intro h
  unfold scanTail at h
  by_cases ho : st3.openingBracket = '\x00'
  · rw [if_pos (by rw [ho])] at h
    cases h
  · have hc : st3.closingBracket ≠ '\x00' := fun hcl => ho (hInv.mpr hcl)
    rw [if_neg (by intro hh; exact ho hh.symm)] at h
    rw [if_neg (by intro hh; exact hc hh.symm)] at h
    rw [if_neg (by simp [nullChar_not_space])] at h
    rw [if_neg (by simp [nullChar_not_space])] at h
    rw [if_neg (by simp [nullChar_not_space])] at h
    cases h

/-- A continuing iteration preserves the bracket invariant and the stream
data, and never moves the cursor backwards. -/
theorem scanIter_cont_facts (e hm : Bool) (st st' : ScanState)
    (s0 s' : TextStream) (hInv : st.bracketsTied)
    (h : scanIter e hm st s0 = .cont st' s') :
    st'.bracketsTied ∧ s'.data = s0.data ∧ s0.pos ≤ s'.pos := by
  have hrdata := TextStream.readChar_data s0
  have hrpos := TextStream.readChar_pos_ge s0
  have hrl := TextStream.readLine_spec s0.readChar.2
  have hsw := TextStream.skipWhiteSpace_spec s0.readChar.2
  unfold scanIter at h
  repeat' split at h
  all_goals first
    | (cases h <;> first
        | exact ⟨hInv, hrdata, hrpos⟩
        | exact ⟨hInv, hrl.1.trans hrdata, hrpos.trans hrl.2.2.1⟩
        | exact ⟨hInv, hsw.1.trans hrdata, hrpos.trans hsw.2.2.1⟩)
    | (refine ⟨?_, (scanTail_stream _ _ _ _ _ h) ▸ hrdata,
          (scanTail_stream _ _ _ _ _ h) ▸ hrpos⟩
       have hb := scanTail_cont_brackets _ _ _ _ _ h
       have ht := bracketClassify_tied (digitReclass st s0.readChar.1)
         s0.readChar.1
         (by unfold ScanState.bracketsTied
             rw [(digitReclass_brackets st s0.readChar.1).1,
               (digitReclass_brackets st s0.readChar.1).2]
             exact hInv)
       unfold ScanState.bracketsTied at ht ⊢
       rw [hb.1, hb.2]
       exact ht)

/-- An iteration that stops the loop read a character successfully: the
cursor strictly advanced and stays inside the data, and the status is still
`Ok`. -/
theorem scanIter_brk_facts (e hm : Bool) (st st' : ScanState)
    (s0 s' : TextStream) (hInv : st.bracketsTied) (hok : s0.ok = true)
    (h : scanIter e hm st s0 = .brk st' s') :
    s'.data = s0.data ∧ s0.pos < s'.pos ∧ s'.pos ≤ s0.data.length ∧
    s'.ok = true := by
  cases hc : s0.data[s0.pos]? with
  | some c =>
      have hr := TextStream.readChar_success s0 c hc
      have hlt : s0.pos < s0.data.length := (List.getElem?_eq_some_iff.mp hc).1
      have hrl := TextStream.readLine_spec s0.readChar.2
      rw [hr] at hrl
      unfold scanIter at h
      rw [hr] at h
      simp only at h
      repeat' split at h
      all_goals first
        | (rw [scanTail_brk_stream _ _ _ _ _ h]
           exact ⟨rfl, Nat.lt_succ_self _, hlt, hok⟩)
        | (cases h <;> first
            | exact ⟨rfl, Nat.lt_succ_self _, hlt, hok⟩
            | exact ⟨hrl.1, lt_of_lt_of_le (Nat.lt_succ_self _) hrl.2.2.1,
                le_trans hrl.2.2.2 (max_le hlt (le_refl _)),
                hrl.2.1.trans hok⟩)
  | none =>
      have hr := TextStream.readChar_fail s0 hc
      unfold scanIter at h
      rw [hr] at h
      simp only at h
      have hdr : digitReclass st '\x00' = st := by
        unfold digitReclass
        rw [if_neg (by simp [nullChar_not_digit])]
      rw [hdr] at h
      rw [bracketClassify_null st hInv] at h
      repeat' split at h
      all_goals first
        | (exact absurd h (scanTail_null_no_brk _ _ _ _ hInv))
        | simp_all

/-- Running the loop to a normal end preserves the data and never moves the
cursor backwards; moreover either the status was exhausted, or the cursor
strictly advanced and stays inside the data with the status still `Ok`. -/
theorem scanLoop_finished_stream (e hm : Bool) (st : ScanState)
    (s : TextStream) (hInv : st.bracketsTied) :
    ∀ st' s', scanLoop e hm st s = .finished st' s' →
      s'.data = s.data ∧ s.pos ≤ s'.pos ∧
      (s'.ok = false ∨
        (s'.ok = true ∧ s.pos < s'.pos ∧ s'.pos ≤ s.data.length)) := by
  induction st, s using scanLoop.induct e hm with
  | case1 st s hok st1 s1 hiter ih =>
      intro st' s' h
      rw [scanLoop] at h
      rw [dif_pos hok, hiter] at h
      have hf := scanIter_cont_facts e hm st st1 s s1 hInv hiter
      have hrec := ih hf.1 st' s' h
      refine ⟨hrec.1.trans hf.2.1, hf.2.2.trans hrec.2.1, ?_⟩
      rcases hrec.2.2 with hcase | hcase
      · exact Or.inl hcase
      · exact Or.inr ⟨hcase.1, lt_of_le_of_lt hf.2.2 hcase.2.1,
          by rw [← hf.2.1]; exact hcase.2.2⟩
  | case2 st s hok st1 s1 hiter =>
      intro st' s' h
      rw [scanLoop] at h
      rw [dif_pos hok, hiter] at h
      cases h
      have hf := scanIter_brk_facts e hm st st1 s s1 hInv hok hiter
      exact ⟨hf.1, le_of_lt hf.2.1, Or.inr ⟨hf.2.2.2, hf.2.1, hf.2.2.1⟩⟩
  | case3 st s hok s1 hiter =>
      intro st' s' h
      rw [scanLoop] at h
      rw [dif_pos hok, hiter] at h
      cases h
  | case4 st s hok =>
      intro st' s' h
      rw [scanLoop] at h
      rw [dif_neg hok] at h
      cases h
      exact ⟨rfl, le_refl _, Or.inl (by simpa using hok)⟩

/-- The code after the loop never touches the stream. -/
theorem readItemAfterLoop_stream {B M : Type} (bi : BoardOps B M)
    (g : PgnGame M) (b : B) (st : ScanState) (s : TextStream) :
    (readItemAfterLoop bi g b st s).stream = s := by
  unfold readItemAfterLoop
  repeat' split
  all_goals rfl

/-- `readItem` keeps the stream data, never rewinds below the entry position,
and, unless it returns `PgnError`, strictly decreases the stream measure (it
either consumed characters with the status still `Ok`, or exhausted the
status). -/
theorem readItem_progress {B M : Type} (bi : BoardOps B M) (g : PgnGame M)
    (b : B) (s0 : TextStream) (hok : s0.ok = true)
    (hne : (PgnGame.readItem bi g b s0).item ≠ PgnItem.PgnError) :
    (PgnGame.readItem bi g b s0).stream.measure < s0.measure := by
  simp only [PgnGame.readItem] at hne ⊢
  have hsw := TextStream.skipWhiteSpace_spec s0
  cases hscan : scanLoop g.m_isEmpty (decide (0 < g.m_moves.length))
      ScanState.start s0.skipWhiteSpace with
  | tagAfterMoves s2 =>
      rw [hscan] at hne
      simp at hne
  | finished st s2 =>
      show (readItemAfterLoop bi g b st s2).stream.measure < s0.measure
      simp only [readItemAfterLoop_stream]
      have hf := scanLoop_finished_stream g.m_isEmpty
        (decide (0 < g.m_moves.length)) ScanState.start s0.skipWhiteSpace
        (by unfold ScanState.bracketsTied ScanState.start; simp) st s2 hscan
      unfold TextStream.measure
      rw [hf.1, hsw.1]
      rcases hf.2.2 with hcase | hcase
      · rw [hcase, hok]
        simp
        have := hsw.2.2.1
        have := hf.2.1
        omega
      · rw [hcase.1, hok]
        simp
        have h1 := hsw.2.2.1
        have h2 := hsw.2.2.2
        have h3 := hcase.2.1
        have h4 := hcase.2.2
        rw [hsw.1] at h4
        omega

/-- The `while` loop of the parsing constructor
`PgnGame::PgnGame(QTextStream& in, int maxMoves)`: read items while the
stream status is `Ok` and fewer than `maxMoves` moves have accumulated;
`PgnError` and `PgnResult` leave the loop, a `PgnTag` clears `m_isEmpty`.
Returns the record together with the stream as left by the loop. -/
def parseLoop {B M : Type} (bi : BoardOps B M) (g : PgnGame M) (b : B)
    (s : TextStream) (maxMoves : Nat) : PgnGame M × TextStream :=
  if h : s.ok = true ∧ g.m_moves.length < maxMoves then
    match h2 : PgnGame.readItem bi g b s with
    | ⟨.PgnError, g', _, s', _⟩ => (g', s')
    | ⟨.PgnResult, g', _, s', _⟩ => (g', s')
    | ⟨.PgnTag, g', b', s', _⟩ =>
        parseLoop bi { g' with m_isEmpty := false } b' s' maxMoves
    | ⟨.PgnMove, g', b', s', _⟩ => parseLoop bi g' b' s' maxMoves
    | ⟨.PgnMoveNumber, g', b', s', _⟩ => parseLoop bi g' b' s' maxMoves
    | ⟨.PgnComment, g', b', s', _⟩ => parseLoop bi g' b' s' maxMoves
    | ⟨.PgnNag, g', b', s', _⟩ => parseLoop bi g' b' s' maxMoves
  else (g, s)
termination_by s.measure
decreasing_by
  all_goals
    refine lt_of_eq_of_lt ?_ (readItem_progress bi g b s h.1 ?_) <;> rw [h2]
  all_goals simp

/-- The parsing constructor `PgnGame::PgnGame(QTextStream& in, int maxMoves)`:
initialize the record (standard variant, empty, no result, round 0), create a
board collaborator on the standard variant, set it to the standard starting
position, take `m_fen` from the board's `fenString`, then run the item
loop.  `parseInitBoard` is the board collaborator it owns, already set to the
standard starting position. -/
def parseInitBoard {B M : Type} (bi : BoardOps B M) : B :=
  (bi.setBoard (bi.mkBoard Chess.Variant.StandardChess) Chess.standardFen).2

/-- The record as initialized by the parsing constructor before its loop:
empty, standard variant, no result, round 0, and `m_fen` read back from the
freshly set up board. -/
def parseInitGame {B M : Type} (bi : BoardOps B M) : PgnGame M :=
  { m_whitePlayer := "", m_blackPlayer := "",
    m_result := Chess.Result.NoResult,
    m_fen := bi.fenString (parseInitBoard bi),
    m_variant := Chess.Variant.StandardChess, m_isRandomVariant := false,
    m_moves := [], m_round := 0, m_isEmpty := true }

def PgnGame.parse {B M : Type} (bi : BoardOps B M) (s : TextStream)
    (maxMoves : Nat) : PgnGame M :=
  (parseLoop bi (parseInitGame bi) (parseInitBoard bi) s maxMoves).1

/-- The move-text loop of `PgnGame::write`: for each ply at zero-based index
`i`, a line break when `i` is a multiple of 8, a move-number prefix when `i`
is even, then the standard-algebraic string of the move on the current board
followed by a space, after which the move is applied. -/
def writeMoveLoop {B M : Type} (bi : BoardOps B M) (b : B) (ms : List M)
    (i : Nat) : String :=
  match ms with
  | [] => ""
  | m :: rest =>
      (if i % 8 = 0 then "\n" else "") ++
      (if i % 2 = 0 then Nat.repr (i / 2 + 1) ++ ". " else "") ++
      bi.moveString b m ++ " " ++
      writeMoveLoop bi (bi.makeMove b m) rest (i + 1)

/-- The `variantString` computed by `PgnGame::write`: `Fischerandom` for a
random standard-variant record, the named Capablanca/Gothic tags when the
starting position matches the respective canonical position, and the
`Capablancarandom` override for random alternate-variant records. -/
def PgnGame.variantString {M : Type} (g : PgnGame M) : String :=
  match g.m_variant with
  | .StandardChess => if g.m_isRandomVariant = true then "Fischerandom" else ""
  | .CapablancaChess =>
      if g.m_isRandomVariant = true then "Capablancarandom"
      else if g.m_fen = Chess.capablancaFen then "Capablanca"
      else if g.m_fen = Chess.gothicFen then "Gothic"
      else ""

/-- The `useFen` flag computed by `PgnGame::write`: emit a raw `FEN` tag when
the starting position is not the canonical position of the record's
variant. -/
def PgnGame.useFen {M : Type} (g : PgnGame M) : Bool :=
  match g.m_variant with
  | .StandardChess => decide (g.m_fen ≠ Chess.standardFen)
  | .CapablancaChess =>
      decide (g.m_fen ≠ Chess.capablancaFen ∧ g.m_fen ≠ Chess.gothicFen)

/-- `PgnGame::write(const QString& filename)`: the text appended to the sink.
A record with `m_isEmpty` set writes nothing.  Otherwise the `Date`, `White`,
`Black` and `Result` tags are emitted, then conditionally `Variant` and `FEN`
tags, then the move text produced by replaying the moves on a fresh board
built from the record's variant and starting position, then the result token
and a blank line.  The current date read by the implementation is passed in
as `date`. -/
def PgnGame.write {B M : Type} (bi : BoardOps B M) (date : String)
    (g : PgnGame M) : String :=
  if g.m_isEmpty = true then ""
  else
    "[Date \"" ++ date ++ "\"]\n" ++
    "[White \"" ++ g.m_whitePlayer ++ "\"]\n" ++
    "[Black \"" ++ g.m_blackPlayer ++ "\"]\n" ++
    "[Result \"" ++ resultToString g.m_result ++ "\"]\n" ++
    (if g.variantString ≠ "" then
      "[Variant \"" ++ g.variantString ++ "\"]\n" else "") ++
    (if g.useFen = true then "[FEN \"" ++ g.m_fen ++ "\"]\n" else "") ++
    writeMoveLoop bi (bi.setBoard (bi.mkBoard g.m_variant) g.m_fen).2
      g.m_moves 0 ++
    resultToString g.m_result ++ "\n\n"

/-- The board double used to instantiate witnesses: trivial board and move
state, every position accepted, every move legal, a fixed token as move
text. -/
def unitBoard : BoardOps Unit Unit where
  mkBoard := fun _ => ()
  setBoard := fun _ _ => (true, ())
  fenString := fun _ => Chess.standardFen
  moveFromString := fun _ _ => ()
  isLegalMove := fun _ _ => true
  makeMove := fun _ _ => ()
  moveString := fun _ _ => "Z"

/-- A concrete empty record over the trivial move type. -/
def emptyGameU : PgnGame Unit :=
  ⟨"", "", Chess.Result.NoResult, Chess.standardFen,
    Chess.Variant.StandardChess, false, [], 0, true⟩

/-- The dispatch after the loop appends at most one move to the record. -/
theorem readItemAfterLoop_moves {B M : Type} (bi : BoardOps B M)
    (g : PgnGame M) (b : B) (st : ScanState) (s : TextStream) :
    (readItemAfterLoop bi g b st s).game.m_moves = g.m_moves ∨
    ∃ mv, (readItemAfterLoop bi g b st s).game.m_moves = g.m_moves ++ [mv] := by
  have key : ∀ r : ReadItemResult B M, readItemAfterLoop bi g b st s = r →
      r.game.m_moves = g.m_moves ∨
      ∃ mv, r.game.m_moves = g.m_moves ++ [mv] := by
    intro r h
    unfold readItemAfterLoop at h
    repeat' split at h
    all_goals rw [← h]
    all_goals first
      | (left; rfl)
      | (right; exact ⟨_, rfl⟩)
  exact key _ rfl

/-- The dispatch after the loop never changes the variant fields or the
round number or the `m_isEmpty` flag of the record. -/
theorem readItemAfterLoop_frame {B M : Type} (bi : BoardOps B M)
    (g : PgnGame M) (b : B) (st : ScanState) (s : TextStream) :
    (readItemAfterLoop bi g b st s).game.m_variant = g.m_variant ∧
    (readItemAfterLoop bi g b st s).game.m_isRandomVariant =
      g.m_isRandomVariant ∧
    (readItemAfterLoop bi g b st s).game.m_round = g.m_round ∧
    (readItemAfterLoop bi g b st s).game.m_isEmpty = g.m_isEmpty := by
  unfold readItemAfterLoop
  repeat' split
  all_goals simp

/-- `readItem` appends at most one move to the record. -/
theorem readItem_moves {B M : Type} (bi : BoardOps B M) (g : PgnGame M)
    (b : B) (s : TextStream) :
    (PgnGame.readItem bi g b s).game.m_moves = g.m_moves ∨
    ∃ mv, (PgnGame.readItem bi g b s).game.m_moves = g.m_moves ++ [mv] := by
  simp only [PgnGame.readItem]
  cases hscan : scanLoop g.m_isEmpty (decide (0 < g.m_moves.length))
      ScanState.start s.skipWhiteSpace with
  | tagAfterMoves s2 => simp
  | finished st s2 => exact readItemAfterLoop_moves bi g b st s2

/-- `readItem` never changes the variant fields of the record. -/
theorem readItem_variant {B M : Type} (bi : BoardOps B M) (g : PgnGame M)
    (b : B) (s : TextStream) :
    (PgnGame.readItem bi g b s).game.m_variant = g.m_variant ∧
    (PgnGame.readItem bi g b s).game.m_isRandomVariant =
      g.m_isRandomVariant := by
  simp only [PgnGame.readItem]
  cases hscan : scanLoop g.m_isEmpty (decide (0 < g.m_moves.length))
      ScanState.start s.skipWhiteSpace with
  | tagAfterMoves s2 => simp
  | finished st s2 =>
      exact ⟨(readItemAfterLoop_frame bi g b st s2).1,
        (readItemAfterLoop_frame bi g b st s2).2.1⟩

/-- The parse loop keeps the move count at or below `maxMoves` whenever it
starts at or below it: the count is checked before each `readItem` call and
each call appends at most one move. -/
theorem parseLoop_moves_le {B M : Type} (bi : BoardOps B M) (g : PgnGame M)
    (b : B) (s : TextStream) (maxMoves : Nat)
    (hle : g.m_moves.length ≤ maxMoves) :
    (parseLoop bi g b s maxMoves).1.m_moves.length ≤ maxMoves := by
  induction g, b, s, maxMoves using parseLoop.induct bi with
  | case1 g b s mm hcond g' b' s' d h2 =>
      rw [parseLoop, dif_pos hcond, h2]
      have hmv := readItem_moves bi g b s
      rw [h2] at hmv
      rcases hmv with hh | ⟨mv, hh⟩ <;> simp at hh <;> simp [hh] <;> omega
  | case2 g b s mm hcond g' b' s' d h2 =>
      rw [parseLoop, dif_pos hcond, h2]
      have hmv := readItem_moves bi g b s
      rw [h2] at hmv
      rcases hmv with hh | ⟨mv, hh⟩ <;> simp at hh <;> simp [hh] <;> omega
  | case3 g b s mm hcond g' b' s' d h2 ih =>
      rw [parseLoop, dif_pos hcond, h2]
      refine ih ?_
      have hmv := readItem_moves bi g b s
      rw [h2] at hmv
      rcases hmv with hh | ⟨mv, hh⟩ <;> simp at hh <;> simp [hh] <;> omega
  | case4 g b s mm hcond g' b' s' d h2 ih =>
      rw [parseLoop, dif_pos hcond, h2]
      refine ih ?_
      have hmv := readItem_moves bi g b s
      rw [h2] at hmv
      rcases hmv with hh | ⟨mv, hh⟩ <;> simp at hh <;> simp [hh] <;> omega
  | case5 g b s mm hcond g' b' s' d h2 ih =>
      rw [parseLoop, dif_pos hcond, h2]
      refine ih ?_
      have hmv := readItem_moves bi g b s
      rw [h2] at hmv
      rcases hmv with hh | ⟨mv, hh⟩ <;> simp at hh <;> simp [hh] <;> omega
  | case6 g b s mm hcond g' b' s' d h2 ih =>
      rw [parseLoop, dif_pos hcond, h2]
      refine ih ?_
      have hmv := readItem_moves bi g b s
      rw [h2] at hmv
      rcases hmv with hh | ⟨mv, hh⟩ <;> simp at hh <;> simp [hh] <;> omega
  | case7 g b s mm hcond g' b' s' d h2 ih =>
      rw [parseLoop, dif_pos hcond, h2]
      refine ih ?_
      have hmv := readItem_moves bi g b s
      rw [h2] at hmv
      rcases hmv with hh | ⟨mv, hh⟩ <;> simp at hh <;> simp [hh] <;> omega
  | case8 g b s mm hcond =>
      rw [parseLoop, dif_neg hcond]
      exact hle


/-- The parse loop never assigns the variant field: no dispatch branch of
`readItem` touches `m_variant`. -/
theorem parseLoop_variant {B M : Type} (bi : BoardOps B M) (g : PgnGame M)
    (b : B) (s : TextStream) (maxMoves : Nat) :
    (parseLoop bi g b s maxMoves).1.m_variant = g.m_variant := by
  induction g, b, s, maxMoves using parseLoop.induct bi with
  | case1 g b s mm hcond g' b' s' d h2 =>
      rw [parseLoop, dif_pos hcond, h2]
      have hv := readItem_variant bi g b s
      rw [h2] at hv
      simpa using hv.1
  | case2 g b s mm hcond g' b' s' d h2 =>
      rw [parseLoop, dif_pos hcond, h2]
      have hv := readItem_variant bi g b s
      rw [h2] at hv
      simpa using hv.1
  | case3 g b s mm hcond g' b' s' d h2 ih =>
      rw [parseLoop, dif_pos hcond, h2]
      have hv := readItem_variant bi g b s
      rw [h2] at hv
      simp at hv
      simpa [hv.1] using ih
  | case4 g b s mm hcond g' b' s' d h2 ih =>
      rw [parseLoop, dif_pos hcond, h2]
      have hv := readItem_variant bi g b s
      rw [h2] at hv
      simp at hv
      simpa [hv.1] using ih
  | case5 g b s mm hcond g' b' s' d h2 ih =>
      rw [parseLoop, dif_pos hcond, h2]
      have hv := readItem_variant bi g b s
      rw [h2] at hv
      simp at hv
      simpa [hv.1] using ih
  | case6 g b s mm hcond g' b' s' d h2 ih =>
      rw [parseLoop, dif_pos hcond, h2]
      have hv := readItem_variant bi g b s
      rw [h2] at hv
      simp at hv
      simpa [hv.1] using ih
  | case7 g b s mm hcond g' b' s' d h2 ih =>
      rw [parseLoop, dif_pos hcond, h2]
      have hv := readItem_variant bi g b s
      rw [h2] at hv
      simp at hv
      simpa [hv.1] using ih
  | case8 g b s mm hcond =>
      rw [parseLoop, dif_neg hcond]

/-- A record produced by the parsing constructor always carries the standard
variant: the constructor initializes `m_variant` to `Chess::StandardChess`
and no later code assigns it (the `Variant` tag is not among the recognized
tag names). -/
theorem parse_variant_standard {B M : Type} (bi : BoardOps B M)
    (s : TextStream) (maxMoves : Nat) :
    (PgnGame.parse bi s maxMoves).m_variant = Chess.Variant.StandardChess := by
  unfold PgnGame.parse
  rw [parseLoop_variant]
  rfl

/-- Claim C2: for every input stream and caller-supplied `maxMoves`, the move
sequence never exceeds `maxMoves`: each `readItem` call appends at most one
move, the loop checks the count before each call (so any state within the
bound stays within the bound), and the parsed record's move count is at most
`maxMoves`. -/
theorem c2_move_count_never_exceeds_max :
    (∀ (B M : Type) (bi : BoardOps B M) (g : PgnGame M) (b : B)
      (s : TextStream),
      (PgnGame.readItem bi g b s).game.m_moves.length ≤
        g.m_moves.length + 1) ∧
    (∀ (B M : Type) (bi : BoardOps B M) (g : PgnGame M) (b : B)
      (s : TextStream) (maxMoves : Nat), g.m_moves.length ≤ maxMoves →
      (parseLoop bi g b s maxMoves).1.m_moves.length ≤ maxMoves) ∧
    (∀ (B M : Type) (bi : BoardOps B M) (s : TextStream) (maxMoves : Nat),
      (PgnGame.parse bi s maxMoves).m_moves.length ≤ maxMoves) := by
  refine ⟨?_, ?_, ?_⟩
  · intro B M bi g b s
    rcases readItem_moves bi g b s with hh | ⟨mv, hh⟩ <;> rw [hh] <;> simp
  · intro B M bi g b s maxMoves hle
    exact parseLoop_moves_le bi g b s maxMoves hle
  · intro B M bi s maxMoves
    unfold PgnGame.parse
    exact parseLoop_moves_le bi _ _ s maxMoves (by rw [show (parseInitGame bi : PgnGame M).m_moves = [] from rfl]; simp)

/-- Witness for C2's loop-invariant conjunct at a concrete input. -/
theorem c2_witness :
    emptyGameU.m_moves.length ≤ 3 ∧
    (parseLoop unitBoard emptyGameU () ⟨"e4 e5".data, 0, true⟩
      3).1.m_moves.length ≤ 3 :=
  ⟨by decide,
    c2_move_count_never_exceeds_max.2.1 Unit Unit unitBoard emptyGameU ()
      ⟨"e4 e5".data, 0, true⟩ 3 (by decide)⟩

/-- Claim C6: for every record with `m_isEmpty = true`, `write` produces no
bytes at the sink (the function returns before opening the file). -/
theorem c6_write_empty_is_noop {B M : Type} (bi : BoardOps B M)
    (date : String) (g : PgnGame M) (h : g.m_isEmpty = true) :
    PgnGame.write bi date g = "" := by
  unfold PgnGame.write
  rw [if_pos h]

/-- Witness for C6 at a concrete empty record. -/
theorem c6_witness :
    emptyGameU.m_isEmpty = true ∧
    PgnGame.write unitBoard "2026.10.11" emptyGameU = "" :=
  ⟨rfl, c6_write_empty_is_noop unitBoard "2026.10.11" emptyGameU rfl⟩

/-- Dropping to a valid position exposes the character there. -/
theorem drop_cons_of_getElem (l : List Char) (i : Nat) (c : Char)
    (h : l[i]? = some c) : l.drop i = c :: l.drop (i + 1) := by
  have hi : i < l.length := (List.getElem?_eq_some_iff.mp h).1
  rw [List.drop_eq_getElem_cons hi]
  have hg := List.getElem?_eq_getElem hi
  rw [hg] at h
  simp at h
  rw [h]

/-- `skipWhiteSpace` does nothing when the character at the cursor is not
whitespace. -/
theorem skipWhiteSpace_id (s : TextStream) (c : Char)
    (hc : s.data[s.pos]? = some c) (hns : qIsSpace c = false) :
    s.skipWhiteSpace = s := by
  unfold TextStream.skipWhiteSpace
  rw [drop_cons_of_getElem _ _ _ hc]
  rw [List.takeWhile_cons_of_neg (by simp [hns])]
  simp

/-- Claim C3: whenever the record already holds at least one move and
`readItem` is called on a stream whose next character is `[`, it returns
`PgnError`, rewinds the stream by exactly one character (the cursor, data and
status are as at entry, so the next read yields that same `[` byte), leaves
the record and the board untouched, and prints the "no termination marker"
diagnostic. -/
theorem c3_tag_after_moves_rewinds {B M : Type} (bi : BoardOps B M)
    (g : PgnGame M) (b : B) (s : TextStream) (hok : s.ok = true)
    (hc : s.data[s.pos]? = some '[') (hmv : g.m_moves ≠ []) :
    (PgnGame.readItem bi g b s).item = PgnItem.PgnError ∧
    (PgnGame.readItem bi g b s).game = g ∧
    (PgnGame.readItem bi g b s).board = b ∧
    (PgnGame.readItem bi g b s).stream = s ∧
    (PgnGame.readItem bi g b s).stream.readChar.1 = '[' ∧
    (PgnGame.readItem bi g b s).diags = [Diag.noTerminationMarker] := by
  have hpos : 0 < g.m_moves.length := List.length_pos.mpr hmv
  have hiter : scanIter g.m_isEmpty (decide (0 < g.m_moves.length))
      ScanState.start s = .earlyError ⟨s.data, s.pos, s.ok⟩ := by
    unfold scanIter
    rw [TextStream.readChar_success s '[' hc]
    simp [ScanState.start, digitReclass, hpos]
  have hscan : scanLoop g.m_isEmpty (decide (0 < g.m_moves.length))
      ScanState.start s = .tagAfterMoves ⟨s.data, s.pos, s.ok⟩ := by
    rw [scanLoop, dif_pos hok, hiter]
  simp only [PgnGame.readItem]
  rw [skipWhiteSpace_id s '[' hc (by decide)]
  rw [hscan]
  refine ⟨rfl, rfl, rfl, ?_, ?_, rfl⟩
  · simp
  · simp only []
    unfold TextStream.readChar
    rw [show (⟨s.data, s.pos, s.ok⟩ : TextStream).data[
        (⟨s.data, s.pos, s.ok⟩ : TextStream).pos]? = some '[' from hc]

/-- A concrete record that already holds one move. -/
def gameOneMoveU : PgnGame Unit :=
  ⟨"A", "B", Chess.Result.NoResult, Chess.standardFen,
    Chess.Variant.StandardChess, false, [()], 0, false⟩

/-- Witness for C3 at a concrete record and stream. -/
theorem c3_witness :
    ((⟨"[Date".data, 0, true⟩ : TextStream).ok = true ∧
      (⟨"[Date".data, 0, true⟩ : TextStream).data[
        (⟨"[Date".data, 0, true⟩ : TextStream).pos]? = some '[' ∧
      gameOneMoveU.m_moves ≠ []) ∧
    (PgnGame.readItem unitBoard gameOneMoveU ()
        ⟨"[Date".data, 0, true⟩).item = PgnItem.PgnError ∧
    (PgnGame.readItem unitBoard gameOneMoveU ()
        ⟨"[Date".data, 0, true⟩).stream = ⟨"[Date".data, 0, true⟩ :=
  ⟨⟨rfl, by decide, by decide⟩,
    (c3_tag_after_moves_rewinds unitBoard gameOneMoveU ()
      ⟨"[Date".data, 0, true⟩ rfl (by decide) (by decide)).1,
    (c3_tag_after_moves_rewinds unitBoard gameOneMoveU ()
      ⟨"[Date".data, 0, true⟩ rfl (by decide) (by decide)).2.2.2.1⟩

/-- The shape of the scan state while the record is still empty: characters
are discarded until a `[` arrives, so the state is either still the pristine
move-classified state with nothing accumulated, or a tag state opened by
`[`. -/
def ScanState.emptyPhase (st : ScanState) : Prop :=
  (st.itemType = PgnItem.PgnTag ∧ st.openingBracket = '[') ∨
  (st.itemType = PgnItem.PgnMove ∧ st.str = [] ∧
    st.openingBracket = '\x00' ∧ st.closingBracket = '\x00')

/-- The loop tail keeps the item classification and the bracket registers. -/
theorem scanTail_state (st3 st' : ScanState) (c : Char) (s s' : TextStream)
    (h : scanTail st3 c s = .cont st' s' ∨ scanTail st3 c s = .brk st' s') :
    st'.itemType = st3.itemType ∧
    st'.openingBracket = st3.openingBracket ∧
    st'.closingBracket = st3.closingBracket := by
  rcases h with h | h <;>
    (unfold scanTail at h; repeat' split at h) <;> cases h <;> simp

/-- While the record is empty, one loop iteration preserves the
empty-phase shape of the scan state. -/
theorem scanIter_emptyPhase (hm : Bool) (st st' : ScanState)
    (s0 s' : TextStream) (hI : st.emptyPhase)
    (h : scanIter true hm st s0 = .cont st' s' ∨
      scanIter true hm st s0 = .brk st' s') :
    st'.emptyPhase := by
  rcases hI with hTag | hMove
  · have hop : st.openingBracket ≠ '\x00' := by rw [hTag.2]; decide
    have hdr : digitReclass st s0.readChar.1 = st := by
      unfold digitReclass
      exact if_neg (fun hcond => hop hcond.1)
    have hbc : bracketClassify st s0.readChar.1 = st := by
      unfold bracketClassify
      rw [if_neg (fun hcond => hop hcond.1), if_neg (fun hcond => hop hcond.1),
        if_neg (fun hcond => hop hcond.1), if_neg (fun hcond => hop hcond.1)]
    by_cases hnl : (s0.readChar.1 = '\n' ∨ s0.readChar.1 = '\x0d') ∧
        st.itemType ≠ PgnItem.PgnComment
    · rcases h with h | h <;>
        (unfold scanIter at h
         rw [if_neg (fun hcond => hcond.2.1 hTag.1), if_pos hnl] at h) <;>
        cases h
      exact Or.inl hTag
    · rcases h with h | h <;>
        (unfold scanIter at h
         rw [if_neg (fun hcond => hcond.2.1 hTag.1), if_neg hnl,
           if_neg (fun hcond => hop hcond.1),
           if_neg (fun hcond => hop hcond.1),
           if_neg (fun hcond => hop hcond.1),
           if_neg (fun hcond => hop hcond.1), hdr,
           if_neg (fun hcond => hop hcond.1), hbc] at h) <;>
        [skip; skip] <;>
        (have hts := scanTail_state st st' s0.readChar.1 s0.readChar.2 s'
          (by first | exact Or.inl h | exact Or.inr h)
         exact Or.inl ⟨hts.1.trans hTag.1, hts.2.1.trans hTag.2⟩)
  · have hop : st.openingBracket = '\x00' := hMove.2.2.1
    have hit : st.itemType = PgnItem.PgnMove := hMove.1
    by_cases hc : s0.readChar.1 = '['
    · have hdr : digitReclass st s0.readChar.1 = st := by
        unfold digitReclass
        refine if_neg (fun hcond => ?_)
        rw [hc] at hcond
        exact absurd hcond.2.2.1 (by decide)
      have hbc : bracketClassify st s0.readChar.1 =
          { st with itemType := .PgnTag, closingBracket := ']',
                    openingBracket := s0.readChar.1 } := by
        unfold bracketClassify
        rw [if_pos ⟨hop, hc⟩]
      by_cases hhm : hm = true
      · rcases h with h | h <;>
          (unfold scanIter at h
           rw [if_neg (fun hcond => hcond.2.2 hc),
             if_neg (by rw [hc]; simp), if_neg (by rw [hc]; simp),
             if_neg (by rw [hc]; simp), if_neg (by rw [hc]; simp),
             if_neg (by rw [hc]; simp), hdr,
             if_pos ⟨hop, hc, hhm⟩] at h) <;>
          cases h
      · rcases h with h | h <;>
          (unfold scanIter at h
           rw [if_neg (fun hcond => hcond.2.2 hc),
             if_neg (by rw [hc]; simp), if_neg (by rw [hc]; simp),
             if_neg (by rw [hc]; simp), if_neg (by rw [hc]; simp),
             if_neg (by rw [hc]; simp), hdr,
             if_neg (fun hcond => hhm hcond.2.2), hbc] at h
           unfold scanTail at h
           rw [if_pos rfl] at h) <;>
          cases h
        exact Or.inl ⟨rfl, hc⟩
    · rcases h with h | h <;>
        (unfold scanIter at h
         rw [if_pos ⟨rfl, by rw [hit]; simp, hc⟩] at h) <;>
        cases h
      exact Or.inr hMove

/-- While the record is empty, the loop only ever finishes in an empty-phase
state. -/
theorem scanLoop_emptyPhase (hm : Bool) (st : ScanState) (s : TextStream)
    (hI : st.emptyPhase) :
    ∀ st' s', scanLoop true hm st s = .finished st' s' → st'.emptyPhase := by
  induction st, s using scanLoop.induct true hm with
  | case1 st s hok st1 s1 hiter ih =>
      intro st' s' h
      rw [scanLoop, dif_pos hok, hiter] at h
      exact ih (scanIter_emptyPhase hm st st1 s s1 hI (Or.inl hiter)) st' s' h
  | case2 st s hok st1 s1 hiter =>
      intro st' s' h
      rw [scanLoop, dif_pos hok, hiter] at h
      cases h
      exact scanIter_emptyPhase hm st st1 s s1 hI (Or.inr hiter)
  | case3 st s hok s1 hiter =>
      intro st' s' h
      rw [scanLoop, dif_pos hok, hiter] at h
      cases h
  | case4 st s hok =>
      intro st' s' h
      rw [scanLoop, dif_neg hok] at h
      cases h
      exact hI

/-- From an empty-phase scan state the dispatch can only produce a tag item
or an error, and never prints the premature-move diagnostic. -/
theorem readItemAfterLoop_emptyPhase {B M : Type} (bi : BoardOps B M)
    (g : PgnGame M) (b : B) (st : ScanState) (s : TextStream)
    (hI : st.emptyPhase) :
    ((readItemAfterLoop bi g b st s).item = PgnItem.PgnTag ∨
      (readItemAfterLoop bi g b st s).item = PgnItem.PgnError) ∧
    Diag.noTagsFound ∉ (readItemAfterLoop bi g b st s).diags := by
  rcases hI with hTag | hMove
  · unfold readItemAfterLoop
    by_cases hstr : qtrim st.str = []
    · rw [if_pos hstr]
      simp
    · rw [if_neg hstr]
      rw [if_neg (fun hcond => by
        rcases hcond.1 with hx | hx <;> rw [hTag.1] at hx <;> cases hx)]
      rw [if_pos hTag.1]
      repeat' split
      all_goals simp
  · unfold readItemAfterLoop
    rw [if_pos (by rw [hMove.2.1]; rfl)]
    simp

/-- Claim C10: while the record's `m_isEmpty` flag is still true, `readItem`
only ever returns a `PgnTag` or a `PgnError` item (never a move, move number,
comment, annotation or result), and the premature-move branch is unreachable:
the "no tags found" diagnostic is never printed. -/
theorem c10_empty_record_tag_or_error {B M : Type} (bi : BoardOps B M)
    (g : PgnGame M) (b : B) (s : TextStream) (hE : g.m_isEmpty = true) :
    ((PgnGame.readItem bi g b s).item = PgnItem.PgnTag ∨
      (PgnGame.readItem bi g b s).item = PgnItem.PgnError) ∧
    Diag.noTagsFound ∉ (PgnGame.readItem bi g b s).diags := by
  simp only [PgnGame.readItem, hE]
  cases hscan : scanLoop true (decide (0 < g.m_moves.length)) ScanState.start
      s.skipWhiteSpace with
  | tagAfterMoves s2 => simp
  | finished st s2 =>
      have hI : st.emptyPhase := scanLoop_emptyPhase _ ScanState.start _
        (Or.inr ⟨rfl, rfl, rfl, rfl⟩) st s2 hscan
      simpa using readItemAfterLoop_emptyPhase bi g b st s2 hI

/-- Witness for C10 at a concrete empty record and stream. -/
theorem c10_witness :
    emptyGameU.m_isEmpty = true ∧
    ((PgnGame.readItem unitBoard emptyGameU ()
        ⟨"e4 e5".data, 0, true⟩).item = PgnItem.PgnTag ∨
      (PgnGame.readItem unitBoard emptyGameU ()
        ⟨"e4 e5".data, 0, true⟩).item = PgnItem.PgnError) :=
  ⟨rfl, (c10_empty_record_tag_or_error unitBoard emptyGameU ()
    ⟨"e4 e5".data, 0, true⟩ rfl).1⟩

/-- A successfully indexed character is a member of the list. -/
theorem mem_of_getElem_eq (l : List Char) (i : Nat) (c : Char)
    (h : l[i]? = some c) : c ∈ l := by
  have hi : i < l.length := (List.getElem?_eq_some_iff.mp h).1
  have hg := List.getElem?_eq_getElem hi
  rw [hg] at h
  simp at h
  rw [← h]
  exact List.getElem_mem hi

/-- While the record is empty and the stream holds no `[` character, every
iteration discards the character and leaves the scan state untouched, so the
loop finishes in its entry state. -/
theorem scanLoop_all_skipped (hm : Bool) (st : ScanState) (s : TextStream)
    (hit : st.itemType ≠ PgnItem.PgnTag) (hnb : ∀ c ∈ s.data, c ≠ '[') :
    ∃ s', scanLoop true hm st s = .finished st s' := by
  induction st, s using scanLoop.induct true hm with
  | case1 st s hok st1 s1 hiter ih =>
      have hread : s.readChar.1 ≠ '[' := by
        cases hc : s.data[s.pos]? with
        | some c =>
            rw [TextStream.readChar_success s c hc]
            exact hnb c (mem_of_getElem_eq _ _ _ hc)
        | none =>
            rw [TextStream.readChar_fail s hc]
            exact (by decide : ('\x00' : Char) ≠ '[')
      have hiter' : scanIter true hm st s = .cont st s.readChar.2 := by
        unfold scanIter
        rw [if_pos ⟨rfl, hit, hread⟩]
      rw [hiter] at hiter'
      have heq : st1 = st ∧ s1 = s.readChar.2 := by
        cases hiter'
        exact ⟨rfl, rfl⟩
      obtain ⟨hst1, hs1⟩ := heq
      subst hst1
      subst hs1
      obtain ⟨s', hrec⟩ := ih hit
        (by rw [TextStream.readChar_data]; exact hnb)
      refine ⟨s', ?_⟩
      rw [scanLoop, dif_pos hok, hiter]
      exact hrec
  | case2 st s hok st1 s1 hiter =>
      have hread : s.readChar.1 ≠ '[' := by
        cases hc : s.data[s.pos]? with
        | some c =>
            rw [TextStream.readChar_success s c hc]
            exact hnb c (mem_of_getElem_eq _ _ _ hc)
        | none =>
            rw [TextStream.readChar_fail s hc]
            exact (by decide : ('\x00' : Char) ≠ '[')
      have hiter' : scanIter true hm st s = .cont st s.readChar.2 := by
        unfold scanIter
        rw [if_pos ⟨rfl, hit, hread⟩]
      rw [hiter] at hiter'
      cases hiter'
  | case3 st s hok s1 hiter =>
      have hread : s.readChar.1 ≠ '[' := by
        cases hc : s.data[s.pos]? with
        | some c =>
            rw [TextStream.readChar_success s c hc]
            exact hnb c (mem_of_getElem_eq _ _ _ hc)
        | none =>
            rw [TextStream.readChar_fail s hc]
            exact (by decide : ('\x00' : Char) ≠ '[')
      have hiter' : scanIter true hm st s = .cont st s.readChar.2 := by
        unfold scanIter
        rw [if_pos ⟨rfl, hit, hread⟩]
      rw [hiter] at hiter'
      cases hiter'
  | case4 st s hok =>
      refine ⟨s, ?_⟩
      rw [scanLoop, dif_neg hok]

/-- On an empty record and a bracket-free stream, `readItem` consumes
characters without accumulating anything and returns `PgnError` with the
record and board untouched. -/
theorem readItem_no_bracket {B M : Type} (bi : BoardOps B M) (g : PgnGame M)
    (b : B) (s : TextStream) (hE : g.m_isEmpty = true)
    (hnb : ∀ c ∈ s.data, c ≠ '[') :
    ∃ s2, PgnGame.readItem bi g b s =
      ⟨PgnItem.PgnError, g, b, s2, []⟩ := by
  obtain ⟨s2, hscan⟩ := scanLoop_all_skipped
    (decide (0 < g.m_moves.length)) ScanState.start s.skipWhiteSpace
    (by rw [show ScanState.start.itemType = PgnItem.PgnMove from rfl]; simp)
    hnb
  refine ⟨s2, ?_⟩
  simp only [PgnGame.readItem, hE]
  rw [hscan]
  show readItemAfterLoop bi g b ScanState.start s2 = _
  unfold readItemAfterLoop
  rw [if_pos (by rfl)]

/-- Claim C5: for every input stream containing no `[` character, the parsing
constructor yields a record with `m_isEmpty = true` and an empty move
sequence: all characters before a first `[` are discarded while the record is
empty. -/
theorem c5_no_bracket_empty_record {B M : Type} (bi : BoardOps B M)
    (s : TextStream) (maxMoves : Nat) (hnb : ∀ c ∈ s.data, c ≠ '[') :
    (PgnGame.parse bi s maxMoves : PgnGame M).m_isEmpty = true ∧
    (PgnGame.parse bi s maxMoves : PgnGame M).m_moves = [] := by
  unfold PgnGame.parse
  rw [parseLoop]
  split
  · next hcond =>
      obtain ⟨s2, hread⟩ := readItem_no_bracket bi
        (parseInitGame bi : PgnGame M) (parseInitBoard bi) s rfl hnb
      rw [hread]
      exact ⟨rfl, rfl⟩
  · exact ⟨rfl, rfl⟩

/-- Witness for C5 at a concrete bracket-free stream. -/
theorem c5_witness :
    (∀ c ∈ ("hello 1. e4 e5".data : List Char), c ≠ '[') ∧
    (PgnGame.parse unitBoard ⟨"hello 1. e4 e5".data, 0, true⟩ 10 :
      PgnGame Unit).m_isEmpty = true :=
  ⟨by decide,
    (c5_no_bracket_empty_record unitBoard ⟨"hello 1. e4 e5".data, 0, true⟩ 10
      (by decide)).1⟩

/-- Reading at the junction of an append exposes the next character. -/
theorem getElem_append_cons (done l2 : List Char) (c : Char) :
    (done ++ c :: l2)[done.length]? = some c := by
  rw [List.getElem?_append_right (le_refl done.length)]
  simp

/-- `dropWhile` does nothing on a list whose members all refute the
predicate. -/
theorem dropWhile_eq_self_of_none (p : Char → Bool) (l : List Char)
    (h : ∀ c ∈ l, p c = false) : l.dropWhile p = l := by
  cases l with
  | nil => rfl
  | cons c t =>
      rw [List.dropWhile_cons_of_neg (by simp [h c (List.mem_cons_self c t)])]

/-- Trimming does nothing on a token without whitespace. -/
theorem qtrim_eq_self (l : List Char) (h : ∀ c ∈ l, qIsSpace c = false) :
    qtrim l = l := by
  unfold qtrim
  rw [dropWhile_eq_self_of_none _ _ h,
    dropWhile_eq_self_of_none _ _ (fun c hc => h c (List.mem_reverse.mp hc)),
    List.reverse_reverse]

/-- The character class that accumulates freely inside an unbracketed token:
not whitespace, not a bracket opener, not the null character, and not a
period. -/
def tokenChar (c : Char) : Prop :=
  qIsSpace c = false ∧ c ≠ '[' ∧ c ≠ '(' ∧ c ≠ '\x7b' ∧ c ≠ '\x00' ∧
  c ≠ '.'

instance (c : Char) : Decidable (tokenChar c) := by
  unfold tokenChar
  infer_instance

/-- One iteration over a token character from an unbracketed scan state with
a nonempty accumulator: the character is appended and nothing else
changes. -/
theorem scanIter_token_step (hm : Bool) (ty : PgnItem) (lvl : Int)
    (acc : List Char) (done l2 : List Char) (c : Char) (hacc : acc ≠ [])
    (hc : tokenChar c) :
    scanIter false hm ⟨ty, '\x00', '\x00', lvl, acc⟩
      ⟨done ++ c :: l2, done.length, true⟩ =
    .cont ⟨ty, '\x00', '\x00', lvl, acc ++ [c]⟩
      ⟨done ++ c :: l2, done.length + 1, true⟩ := by
  obtain ⟨hsp, hbr1, hbr2, hbr3, hnull, hdot⟩ := hc
  have hrc : (⟨done ++ c :: l2, done.length, true⟩ : TextStream).readChar =
      (c, ⟨done ++ c :: l2, done.length + 1, true⟩) := by
    unfold TextStream.readChar
    rw [show (⟨done ++ c :: l2, done.length, true⟩ : TextStream).data[
        (⟨done ++ c :: l2, done.length, true⟩ : TextStream).pos]? = some c
      from getElem_append_cons done l2 c]
  have hnl : c ≠ '\n' := by
    intro hh
    rw [hh] at hsp
    exact absurd hsp (by decide)
  have hcr : c ≠ '\x0d' := by
    intro hh
    rw [hh] at hsp
    exact absurd hsp (by decide)
  unfold scanIter
  rw [hrc]
  simp only []
  rw [if_neg (by simp)]
  rw [if_neg (by simp [hnl, hcr])]
  rw [if_neg (by simp [hacc])]
  rw [if_neg (by simp [hacc])]
  rw [if_neg (by simp [hacc])]
  rw [if_neg (by simp [hacc])]
  have hdr : digitReclass ⟨ty, '\x00', '\x00', lvl, acc⟩ c =
      ⟨ty, '\x00', '\x00', lvl, acc⟩ := by
    unfold digitReclass
    rw [if_neg (by simp [hacc])]
  rw [hdr]
  rw [if_neg (by simp [hbr1])]
  have hbc : bracketClassify ⟨ty, '\x00', '\x00', lvl, acc⟩ c =
      ⟨ty, '\x00', '\x00', lvl, acc⟩ := by
    unfold bracketClassify
    rw [if_neg (by simp [hbr1]), if_neg (by simp [hbr2]),
      if_neg (by simp [hbr3]), if_neg (by simp)]
  rw [hbc]
  unfold scanTail
  rw [if_neg (by simp; exact hnull)]
  rw [if_neg (by simp; exact hnull)]
  rw [if_neg (by simp [hsp])]
  rw [if_neg (by simp [hsp, hdot])]
  rw [if_neg (by simp [hsp])]

/-- Whitespace characters differ from non-whitespace characters. -/
theorem ne_of_space_mismatch {t c : Char} (hsp : qIsSpace t = true)
    (hc : qIsSpace c = false) : t ≠ c := by
  intro h
  subst h
  rw [hsp] at hc
  cases hc

/-- Token characters accumulate one after the other: running the loop over a
token-character block appends it to the accumulator and advances the cursor
past it. -/
theorem scanLoop_token_accum (hm : Bool) (ty : PgnItem) (lvl : Int)
    (tok : List Char) (htok : ∀ c ∈ tok, tokenChar c) :
    ∀ (done acc l2 : List Char), acc ≠ [] →
    scanLoop false hm ⟨ty, '\x00', '\x00', lvl, acc⟩
      ⟨done ++ tok ++ l2, done.length, true⟩ =
    scanLoop false hm ⟨ty, '\x00', '\x00', lvl, acc ++ tok⟩
      ⟨done ++ tok ++ l2, (done ++ tok).length, true⟩ := by
  induction tok with
  | nil =>
      intro done acc l2 hacc
      simp
  | cons c tok' ih =>
      intro done acc l2 hacc
      have hl : done ++ (c :: tok') ++ l2 = done ++ c :: (tok' ++ l2) := by
        simp
      have hstep := scanIter_token_step hm ty lvl acc done (tok' ++ l2) c hacc
        (htok c (by simp))
      rw [hl]
      rw [scanLoop, dif_pos rfl, hstep]
      have hih := ih (fun d hd => htok d (by simp [hd])) (done ++ [c])
        (acc ++ [c]) l2 (by simp)
      simp only [List.append_assoc, List.cons_append, List.nil_append,
        List.length_append, List.length_cons, List.length_nil] at hih ⊢
      convert hih using 2

/-- A terminator (whitespace, or a period for a move number) stops the loop,
consuming the terminator and keeping the accumulated state. -/
theorem scanLoop_token_end (hm : Bool) (ty : PgnItem) (lvl : Int)
    (acc done l2 : List Char) (t : Char) (hacc : acc ≠ [])
    (hty : ty = PgnItem.PgnMove ∨ ty = PgnItem.PgnMoveNumber ∨
      ty = PgnItem.PgnNag)
    (ht : qIsSpace t = true ∨ (t = '.' ∧ ty = PgnItem.PgnMoveNumber)) :
    scanLoop false hm ⟨ty, '\x00', '\x00', lvl, acc⟩
      ⟨done ++ t :: l2, done.length, true⟩ =
    .finished ⟨ty, '\x00', '\x00', lvl, acc⟩
      ⟨done ++ t :: l2, done.length + 1, true⟩ := by
  have hrc : (⟨done ++ t :: l2, done.length, true⟩ : TextStream).readChar =
      (t, ⟨done ++ t :: l2, done.length + 1, true⟩) := by
    unfold TextStream.readChar
    rw [show (⟨done ++ t :: l2, done.length, true⟩ : TextStream).data[
        (⟨done ++ t :: l2, done.length, true⟩ : TextStream).pos]? = some t
      from getElem_append_cons done l2 t]
  have htyC : ty ≠ PgnItem.PgnComment := by
    rcases hty with h | h | h <;> rw [h] <;> simp
  have hiter : scanIter false hm ⟨ty, '\x00', '\x00', lvl, acc⟩
      ⟨done ++ t :: l2, done.length, true⟩ =
      .brk ⟨ty, '\x00', '\x00', lvl, acc⟩
        ⟨done ++ t :: l2, done.length + 1, true⟩ := by
    unfold scanIter
    rw [hrc]
    simp only []
    rw [if_neg (by simp)]
    by_cases hnl : t = '\n' ∨ t = '\x0d'
    · rw [if_pos ⟨hnl, htyC⟩]
    · rw [if_neg (fun hcond => hnl hcond.1)]
      rw [if_neg (by simp [hacc]), if_neg (by simp [hacc]),
        if_neg (by simp [hacc]), if_neg (by simp [hacc])]
      have hdr : digitReclass ⟨ty, '\x00', '\x00', lvl, acc⟩ t =
          ⟨ty, '\x00', '\x00', lvl, acc⟩ := by
        unfold digitReclass
        rw [if_neg (by simp [hacc])]
      rw [hdr]
      have htne : t ≠ '[' ∧ t ≠ '(' ∧ t ≠ '\x7b' ∧ t ≠ '\x00' := by
        rcases ht with hsp | ⟨hdot, hmn⟩
        · exact ⟨ne_of_space_mismatch hsp (by decide),
            ne_of_space_mismatch hsp (by decide),
            ne_of_space_mismatch hsp (by decide),
            ne_of_space_mismatch hsp (by decide)⟩
        · subst hdot
          exact ⟨by decide, by decide, by decide, by decide⟩
      rw [if_neg (by simp [htne.1])]
      have hbc : bracketClassify ⟨ty, '\x00', '\x00', lvl, acc⟩ t =
          ⟨ty, '\x00', '\x00', lvl, acc⟩ := by
        unfold bracketClassify
        rw [if_neg (by simp [htne.1]), if_neg (by simp [htne.2.1]),
          if_neg (by simp [htne.2.2.1]), if_neg (by simp)]
      rw [hbc]
      unfold scanTail
      rw [if_neg (by simp; exact htne.2.2.2),
        if_neg (by simp; exact htne.2.2.2)]
      rcases hty with hMove | hMN | hNag
      · subst hMove
        rcases ht with hsp | ⟨hdot, hbad⟩
        · rw [if_pos ⟨rfl, hsp⟩]
        · cases hbad
      · subst hMN
        rw [if_neg (by simp)]
        rcases ht with hsp | ⟨hdot, hmn⟩
        · rw [if_pos ⟨rfl, Or.inl hsp⟩]
        · rw [if_pos ⟨rfl, Or.inr hdot⟩]
      · subst hNag
        rw [if_neg (by simp), if_neg (by simp)]
        rcases ht with hsp | ⟨hdot, hbad⟩
        · rw [if_pos ⟨rfl, hsp⟩]
        · cases hbad
  rw [scanLoop, dif_pos rfl, hiter]

/-- The first character of an unbracketed token: with nothing accumulated and
no bracket active, a plain character is classified (a digit turns a move into
a move number) and accumulated. -/
theorem scanIter_first_char (hm : Bool) (ty0 : PgnItem) (done l2 : List Char)
    (c : Char) (hc : tokenChar c) (hh : c ≠ ';' ∧ c ≠ '%' ∧ c ≠ '$') :
    scanIter false hm ⟨ty0, '\x00', '\x00', 0, []⟩
      ⟨done ++ c :: l2, done.length, true⟩ =
    .cont ⟨if c.isDigit = true ∧ ty0 = PgnItem.PgnMove then
        PgnItem.PgnMoveNumber else ty0, '\x00', '\x00', 0, [c]⟩
      ⟨done ++ c :: l2, done.length + 1, true⟩ := by
  obtain ⟨hsp, hbr1, hbr2, hbr3, hnull, hdot⟩ := hc
  have hrc : (⟨done ++ c :: l2, done.length, true⟩ : TextStream).readChar =
      (c, ⟨done ++ c :: l2, done.length + 1, true⟩) := by
    unfold TextStream.readChar
    rw [show (⟨done ++ c :: l2, done.length, true⟩ : TextStream).data[
        (⟨done ++ c :: l2, done.length, true⟩ : TextStream).pos]? = some c
      from getElem_append_cons done l2 c]
  have hnl : c ≠ '\n' := (ne_of_space_mismatch (by decide) hsp).symm
  have hcr : c ≠ '\x0d' := (ne_of_space_mismatch (by decide) hsp).symm
  unfold scanIter
  rw [hrc]
  simp only []
  rw [if_neg (by simp)]
  rw [if_neg (by simp [hnl, hcr])]
  rw [if_neg (by simp [hh.1])]
  rw [if_neg (by simp [hh.2.1])]
  rw [if_neg (by simp [hdot])]
  rw [if_neg (by simp [hh.2.2])]
  have hdr : digitReclass ⟨ty0, '\x00', '\x00', 0, []⟩ c =
      ⟨if c.isDigit = true ∧ ty0 = PgnItem.PgnMove then
        PgnItem.PgnMoveNumber else ty0, '\x00', '\x00', 0, []⟩ := by
    unfold digitReclass
    by_cases hd : c.isDigit = true ∧ ty0 = PgnItem.PgnMove
    · rw [if_pos ⟨rfl, rfl, hd.1, hd.2⟩, if_pos hd]
    · rw [if_neg (fun hcond => hd ⟨hcond.2.2.1, hcond.2.2.2⟩), if_neg hd]
  rw [hdr]
  rw [if_neg (by simp [hbr1])]
  have hbc : bracketClassify
      ⟨if c.isDigit = true ∧ ty0 = PgnItem.PgnMove then
        PgnItem.PgnMoveNumber else ty0, '\x00', '\x00', 0, []⟩ c =
      ⟨if c.isDigit = true ∧ ty0 = PgnItem.PgnMove then
        PgnItem.PgnMoveNumber else ty0, '\x00', '\x00', 0, []⟩ := by
    unfold bracketClassify
    rw [if_neg (by simp [hbr1]), if_neg (by simp [hbr2]),
      if_neg (by simp [hbr3]), if_neg (by simp)]
  rw [hbc]
  unfold scanTail
  rw [if_neg (by simp; exact hnull)]
  rw [if_neg (by simp; exact hnull)]
  rw [if_neg (by simp [hsp])]
  rw [if_neg (by simp [hsp, hdot])]
  rw [if_neg (by simp [hsp])]
  rfl

/-- The `$` character starts a numeric annotation: the item is reclassified
and nothing is accumulated. -/
theorem scanIter_dollar (hm : Bool) (done l2 : List Char) :
    scanIter false hm ScanState.start
      ⟨done ++ '$' :: l2, done.length, true⟩ =
    .cont ⟨PgnItem.PgnNag, '\x00', '\x00', 0, []⟩
      ⟨done ++ '$' :: l2, done.length + 1, true⟩ := by
  have hrc : (⟨done ++ '$' :: l2, done.length, true⟩ : TextStream).readChar =
      ('$', ⟨done ++ '$' :: l2, done.length + 1, true⟩) := by
    unfold TextStream.readChar
    rw [show (⟨done ++ '$' :: l2, done.length, true⟩ : TextStream).data[
        (⟨done ++ '$' :: l2, done.length, true⟩ : TextStream).pos]? = some '$'
      from getElem_append_cons done l2 '$']
  show scanIter false hm ⟨PgnItem.PgnMove, '\x00', '\x00', 0, []⟩
      ⟨done ++ '$' :: l2, done.length, true⟩ = _
  unfold scanIter
  rw [hrc]
  simp only []
  rw [if_neg (by simp)]
  rw [if_neg (by simp)]
  rw [if_neg (by simp)]
  rw [if_neg (by simp)]
  rw [if_neg (by simp)]
  rw [if_pos (by simp)]

/-- Scanning one full unbracketed token from a pristine (or `$`-reclassified)
state: the first character classifies, the rest accumulate, and the
terminator stops the loop having consumed exactly the token and the
terminator. -/
theorem scanLoop_plain_token (hm : Bool) (ty0 : PgnItem) (D0 : List Char)
    (c1 : Char) (tok' l2 : List Char) (t : Char)
    (hty : ty0 = PgnItem.PgnMove ∨ ty0 = PgnItem.PgnMoveNumber ∨
      ty0 = PgnItem.PgnNag)
    (hc1 : tokenChar c1) (hc1h : c1 ≠ ';' ∧ c1 ≠ '%' ∧ c1 ≠ '$')
    (htok : ∀ c ∈ tok', tokenChar c)
    (ht : qIsSpace t = true ∨ (t = '.' ∧
      (if c1.isDigit = true ∧ ty0 = PgnItem.PgnMove then
        PgnItem.PgnMoveNumber else ty0) = PgnItem.PgnMoveNumber)) :
    scanLoop false hm ⟨ty0, '\x00', '\x00', 0, []⟩
      ⟨D0 ++ c1 :: (tok' ++ t :: l2), D0.length, true⟩ =
    .finished ⟨if c1.isDigit = true ∧ ty0 = PgnItem.PgnMove then
        PgnItem.PgnMoveNumber else ty0, '\x00', '\x00', 0, c1 :: tok'⟩
      ⟨D0 ++ c1 :: (tok' ++ t :: l2),
        D0.length + 1 + tok'.length + 1, true⟩ := by
  have hty1 : (if c1.isDigit = true ∧ ty0 = PgnItem.PgnMove then
      PgnItem.PgnMoveNumber else ty0) = PgnItem.PgnMove ∨
      (if c1.isDigit = true ∧ ty0 = PgnItem.PgnMove then
      PgnItem.PgnMoveNumber else ty0) = PgnItem.PgnMoveNumber ∨
      (if c1.isDigit = true ∧ ty0 = PgnItem.PgnMove then
      PgnItem.PgnMoveNumber else ty0) = PgnItem.PgnNag := by
    split
    · exact Or.inr (Or.inl rfl)
    · exact hty
  rw [scanLoop, dif_pos rfl, scanIter_first_char hm ty0 D0 (tok' ++ t :: l2)
    c1 hc1 hc1h]
  show scanLoop false hm ⟨if c1.isDigit = true ∧ ty0 = PgnItem.PgnMove then
      PgnItem.PgnMoveNumber else ty0, '\x00', '\x00', 0, [c1]⟩
    ⟨D0 ++ c1 :: (tok' ++ t :: l2), D0.length + 1, true⟩ = _
  have haccum := scanLoop_token_accum hm
    (if c1.isDigit = true ∧ ty0 = PgnItem.PgnMove then
      PgnItem.PgnMoveNumber else ty0) 0 tok' htok (D0 ++ [c1]) [c1]
    (t :: l2) (by simp)
  have hstream1 : (⟨D0 ++ c1 :: (tok' ++ t :: l2), D0.length + 1, true⟩ :
      TextStream) =
      ⟨(D0 ++ [c1]) ++ tok' ++ (t :: l2), (D0 ++ [c1]).length, true⟩ := by
    simp
  rw [hstream1, haccum]
  have hend := scanLoop_token_end hm
    (if c1.isDigit = true ∧ ty0 = PgnItem.PgnMove then
      PgnItem.PgnMoveNumber else ty0) 0 ([c1] ++ tok')
    ((D0 ++ [c1]) ++ tok') l2 t (by simp) hty1 ht
  have hstream2 : (⟨(D0 ++ [c1]) ++ tok' ++ (t :: l2),
      ((D0 ++ [c1]) ++ tok').length, true⟩ : TextStream) =
      ⟨((D0 ++ [c1]) ++ tok') ++ t :: l2,
        ((D0 ++ [c1]) ++ tok').length, true⟩ := by
    simp
  rw [hstream2, hend]
  have hstream3 : (⟨((D0 ++ [c1]) ++ tok') ++ t :: l2,
      ((D0 ++ [c1]) ++ tok').length + 1, true⟩ : TextStream) =
      ⟨D0 ++ c1 :: (tok' ++ t :: l2),
        D0.length + 1 + tok'.length + 1, true⟩ := by
    simp
    omega
  rw [hstream3]
  rfl

/-- `takeWhile` stops exactly at the first refuting character. -/
theorem takeWhile_prefix_all (p : Char → Bool) (ws : List Char) (c : Char)
    (rest : List Char) (hws : ∀ x ∈ ws, p x = true) (hc : p c = false) :
    (ws ++ c :: rest).takeWhile p = ws := by
  induction ws with
  | nil =>
      simp only [List.nil_append]
      rw [List.takeWhile_cons_of_neg (by simp [hc])]
  | cons w ws' ih =>
      simp only [List.cons_append]
      rw [List.takeWhile_cons_of_pos (by simp [hws w (by simp)])]
      rw [ih (fun x hx => hws x (by simp [hx]))]

/-- `skipWhiteSpace` consumes exactly a whitespace block followed by a
non-whitespace character. -/
theorem skipWhiteSpace_block (s : TextStream) (done ws rest : List Char)
    (c : Char) (hdata : s.data = done ++ ws ++ c :: rest)
    (hpos : s.pos = done.length) (hws : ∀ x ∈ ws, qIsSpace x = true)
    (hc : qIsSpace c = false) :
    s.skipWhiteSpace = ⟨s.data, done.length + ws.length, s.ok⟩ := by
  unfold TextStream.skipWhiteSpace
  have hdrop : s.data.drop s.pos = ws ++ c :: rest := by
    rw [hdata, hpos, List.append_assoc, List.drop_left]
  rw [hdrop, takeWhile_prefix_all qIsSpace ws c rest hws hc, hpos]

/-- Scanning a numeric-annotation token: `$`, then the token characters, then
the whitespace terminator. -/
theorem scanLoop_nag_token (hm : Bool) (D0 : List Char) (c1 : Char)
    (tok' l2 : List Char) (t : Char) (hc1 : tokenChar c1)
    (hc1h : c1 ≠ ';' ∧ c1 ≠ '%' ∧ c1 ≠ '$') (htok : ∀ c ∈ tok', tokenChar c)
    (ht : qIsSpace t = true) :
    scanLoop false hm ScanState.start
      ⟨D0 ++ '$' :: (c1 :: (tok' ++ t :: l2)), D0.length, true⟩ =
    .finished ⟨PgnItem.PgnNag, '\x00', '\x00', 0, c1 :: tok'⟩
      ⟨D0 ++ '$' :: (c1 :: (tok' ++ t :: l2)),
        D0.length + 2 + tok'.length + 1, true⟩ := by
  rw [scanLoop, dif_pos rfl,
    scanIter_dollar hm D0 (c1 :: (tok' ++ t :: l2))]
  show scanLoop false hm ⟨PgnItem.PgnNag, '\x00', '\x00', 0, []⟩
    ⟨D0 ++ '$' :: (c1 :: (tok' ++ t :: l2)), D0.length + 1, true⟩ = _
  have hmain := scanLoop_plain_token hm PgnItem.PgnNag (D0 ++ ['$']) c1 tok'
    l2 t (Or.inr (Or.inr rfl)) hc1 hc1h htok (Or.inl ht)
  have hif : (if c1.isDigit = true ∧ PgnItem.PgnNag = PgnItem.PgnMove then
      PgnItem.PgnMoveNumber else PgnItem.PgnNag) = PgnItem.PgnNag := by
    rw [if_neg (by simp)]
  rw [hif] at hmain
  have hstream : (⟨D0 ++ '$' :: (c1 :: (tok' ++ t :: l2)),
      D0.length + 1, true⟩ : TextStream) =
      ⟨(D0 ++ ['$']) ++ c1 :: (tok' ++ t :: l2),
        (D0 ++ ['$']).length, true⟩ := by
    simp
  rw [hstream, hmain]
  have hstream2 : (⟨(D0 ++ ['$']) ++ c1 :: (tok' ++ t :: l2),
      (D0 ++ ['$']).length + 1 + tok'.length + 1, true⟩ : TextStream) =
      ⟨D0 ++ '$' :: (c1 :: (tok' ++ t :: l2)),
        D0.length + 2 + tok'.length + 1, true⟩ := by
    simp <;> omega
  rw [hstream2]

/-- `readItem` on a numeric-annotation token: the scan accumulates the token
after the `$` and the dispatch receives it as a `PgnNag` item. -/
theorem readItem_nag_eq {B M : Type} (bi : BoardOps B M) (g : PgnGame M)
    (b : B) (s : TextStream) (done ws : List Char) (c1 : Char)
    (tok' l2 : List Char) (t : Char) (hE : g.m_isEmpty = false)
    (hdata : s.data = done ++ ws ++ '$' :: (c1 :: (tok' ++ t :: l2)))
    (hpos : s.pos = done.length) (hok : s.ok = true)
    (hws : ∀ x ∈ ws, qIsSpace x = true) (hc1 : tokenChar c1)
    (hc1h : c1 ≠ ';' ∧ c1 ≠ '%' ∧ c1 ≠ '$') (htok : ∀ c ∈ tok', tokenChar c)
    (ht : qIsSpace t = true) :
    PgnGame.readItem bi g b s =
    readItemAfterLoop bi g b ⟨PgnItem.PgnNag, '\x00', '\x00', 0, c1 :: tok'⟩
      ⟨(done ++ ws) ++ '$' :: (c1 :: (tok' ++ t :: l2)),
        (done ++ ws).length + 2 + tok'.length + 1, true⟩ := by
  have hsw := skipWhiteSpace_block s done ws (c1 :: (tok' ++ t :: l2)) '$'
    hdata hpos hws (by decide)
  simp only [PgnGame.readItem]
  rw [hE, hsw, hdata, hok]
  have hstr : (⟨done ++ ws ++ '$' :: (c1 :: (tok' ++ t :: l2)),
      done.length + ws.length, true⟩ : TextStream) =
      ⟨(done ++ ws) ++ '$' :: (c1 :: (tok' ++ t :: l2)),
        (done ++ ws).length, true⟩ := by
    simp
  rw [hstr, scanLoop_nag_token (decide (0 < g.m_moves.length)) (done ++ ws)
    c1 tok' l2 t hc1 hc1h htok ht]

/-- Claim C9: for a numeric-annotation item, `readItem` parses the
accumulated token as an integer and returns `PgnError` exactly when the token
is unparseable or its value lies outside `[0, 255]`; in every case the record
and the board are unchanged (an in-range value is validated and then
discarded), and a non-error outcome is the `PgnNag` item. -/
theorem c9_nag_validated_and_discarded {B M : Type} (bi : BoardOps B M)
    (g : PgnGame M) (b : B) (s : TextStream) (done ws : List Char)
    (c1 : Char) (tok' l2 : List Char) (t : Char) (hE : g.m_isEmpty = false)
    (hdata : s.data = done ++ ws ++ '$' :: (c1 :: (tok' ++ t :: l2)))
    (hpos : s.pos = done.length) (hok : s.ok = true)
    (hws : ∀ x ∈ ws, qIsSpace x = true) (hc1 : tokenChar c1)
    (hc1h : c1 ≠ ';' ∧ c1 ≠ '%' ∧ c1 ≠ '$') (htok : ∀ c ∈ tok', tokenChar c)
    (ht : qIsSpace t = true) :
    (PgnGame.readItem bi g b s).game = g ∧
    (PgnGame.readItem bi g b s).board = b ∧
    ((PgnGame.readItem bi g b s).item = PgnItem.PgnError ↔
      (qtoInt (c1 :: tok') = none ∨
        ∃ n, qtoInt (c1 :: tok') = some n ∧ (n < 0 ∨ n > 255))) ∧
    ((PgnGame.readItem bi g b s).item = PgnItem.PgnError ∨
      (PgnGame.readItem bi g b s).item = PgnItem.PgnNag) := by
  rw [readItem_nag_eq bi g b s done ws c1 tok' l2 t hE hdata hpos hok hws hc1
    hc1h htok ht]
  have htrim : qtrim (c1 :: tok') = c1 :: tok' := by
    refine qtrim_eq_self _ (fun c hcm => ?_)
    rcases List.mem_cons.mp hcm with h | h
    · subst h
      exact hc1.1
    · exact (htok c h).1
  unfold readItemAfterLoop
  simp only []
  rw [htrim]
  rw [if_neg (by simp)]
  rw [if_neg (by simp)]
  rw [if_neg (by simp)]
  rw [if_neg (by simp)]
  rw [if_pos trivial]
  cases hq : qtoInt (c1 :: tok') with
  | none =>
      rw [if_pos (by simp)]
      refine ⟨rfl, rfl, ?_, Or.inl rfl⟩
      simp
  | some n =>
      by_cases hrange : n < 0 ∨ n > 255
      · rw [if_pos (by simpa using hrange)]
        refine ⟨rfl, rfl, ?_, Or.inl rfl⟩
        simp only [true_iff]
        exact Or.inr ⟨n, rfl, hrange⟩
      · rw [if_neg (by simpa using hrange)]
        refine ⟨rfl, rfl, ?_, Or.inr rfl⟩
        constructor
        · intro hh
          cases hh
        · intro hh
          rcases hh with hh | ⟨n', hn', hr'⟩
          · cases hh
          · cases hn'
            exact absurd hr' hrange

/-- Witness for C9 at a concrete annotation token. -/
theorem c9_witness :
    tokenChar '3' ∧
    (PgnGame.readItem unitBoard gameOneMoveU ()
      ⟨"$300 ".data, 0, true⟩).game = gameOneMoveU :=
  ⟨by decide,
    (c9_nag_validated_and_discarded unitBoard gameOneMoveU ()
      ⟨"$300 ".data, 0, true⟩ [] [] '3' "00".data [] ' ' rfl (by decide) rfl
      rfl (by decide) (by decide) (by decide) (by decide) (by decide)).1⟩

/-- Replaying a move list on a board by repeated `makeMove`. -/
def replayBoard {B M : Type} (bi : BoardOps B M) (b : B) (ms : List M) : B :=
  ms.foldl bi.makeMove b

/-- The ply chunk emitted by `write` for the move at zero-based index `i`
when the board before that ply is `b`. -/
def plyChunk {B M : Type} (bi : BoardOps B M) (b : B) (i : Nat) (m : M) :
    String :=
  (if i % 8 = 0 then "\n" else "") ++
  (if i % 2 = 0 then Nat.repr (i / 2 + 1) ++ ". " else "") ++
  bi.moveString b m ++ " "

/-- Folding string concatenation from a seed prepends the seed to the
join. -/
theorem string_foldl_append (l : List String) :
    ∀ a : String, List.foldl (fun r s => r ++ s) a l = a ++ String.join l := by
  induction l with
  | nil =>
      intro a
      simp [String.join, String.append_empty]
  | cons c t ih =>
      intro a
      show List.foldl (fun r s => r ++ s) (a ++ c) t = _
      rw [ih (a ++ c)]
      have : String.join (c :: t) = c ++ String.join t := by
        show List.foldl (fun r s => r ++ s) ("" ++ c) t = _
        rw [ih ("" ++ c)]
        rw [show ("" ++ c : String) = c from by
          have := String.append_empty c
          simp]
      rw [this, String.append_assoc]

/-- Joining a cons. -/
theorem string_join_cons (a : String) (l : List String) :
    String.join (a :: l) = a ++ String.join l := by
  show List.foldl (fun r s => r ++ s) ("" ++ a) l = _
  rw [string_foldl_append l ("" ++ a)]
  rw [show ("" ++ a : String) = a from by
    have := String.append_empty a
    simp]

/-- Closed form of the move-text loop: the chunk of the ply at absolute
index `p.1` uses the board obtained by replaying the preceding moves. -/
theorem writeMoveLoop_closed {B M : Type} (bi : BoardOps B M) (ms : List M) :
    ∀ (b : B) (i : Nat),
    writeMoveLoop bi b ms i = String.join ((List.enumFrom i ms).map
      (fun p => plyChunk bi (replayBoard bi b (ms.take (p.1 - i))) p.1
        p.2)) := by
  induction ms with
  | nil =>
      intro b i
      simp [writeMoveLoop, String.join]
  | cons m rest ih =>
      intro b i
      rw [List.enumFrom_cons]
      simp only [List.map_cons, string_join_cons]
      unfold writeMoveLoop
      have hhead : plyChunk bi
          (replayBoard bi b ((m :: rest).take (i - i))) i m =
          (if i % 8 = 0 then "\n" else "") ++
          (if i % 2 = 0 then Nat.repr (i / 2 + 1) ++ ". " else "") ++
          bi.moveString b m ++ " " := by
        rw [Nat.sub_self]
        rfl
      rw [hhead]
      have htail : (List.enumFrom (i + 1) rest).map
          (fun p => plyChunk bi
            (replayBoard bi b ((m :: rest).take (p.1 - i))) p.1 p.2) =
          (List.enumFrom (i + 1) rest).map
          (fun p => plyChunk bi
            (replayBoard bi (bi.makeMove b m) (rest.take (p.1 - (i + 1))))
            p.1 p.2) := by
        refine List.map_congr_left (fun p hp => ?_)
        have hle : i + 1 ≤ p.1 := List.le_fst_of_mem_enumFrom hp
        have htake : (m :: rest).take (p.1 - i) =
            m :: rest.take (p.1 - (i + 1)) := by
          have : p.1 - i = (p.1 - (i + 1)) + 1 := by omega
          rw [this]
          rfl
        rw [htake]
        rfl
      rw [htail, ih (bi.makeMove b m) (i + 1)]

/-- Claim C7: for every non-empty record, the emitted move text consists, for
each ply at zero-based index `i`, of a line break exactly when `i` is a
multiple of 8, a move-number prefix `i/2 + 1` followed by a period exactly
when `i` is even, and the standard-algebraic text of the move taken from the
collaborator on the board replayed over the preceding moves (that is, before
this move is applied); after the last ply the result token and a blank line
follow. -/
theorem c7_write_move_text_layout {B M : Type} (bi : BoardOps B M)
    (date : String) (g : PgnGame M) (h : g.m_isEmpty = false) :
    PgnGame.write bi date g =
    "[Date \"" ++ date ++ "\"]\n" ++
    "[White \"" ++ g.m_whitePlayer ++ "\"]\n" ++
    "[Black \"" ++ g.m_blackPlayer ++ "\"]\n" ++
    "[Result \"" ++ resultToString g.m_result ++ "\"]\n" ++
    (if g.variantString ≠ "" then
      "[Variant \"" ++ g.variantString ++ "\"]\n" else "") ++
    (if g.useFen = true then "[FEN \"" ++ g.m_fen ++ "\"]\n" else "") ++
    String.join ((g.m_moves.enum).map (fun p =>
      plyChunk bi
        (replayBoard bi (bi.setBoard (bi.mkBoard g.m_variant) g.m_fen).2
          (g.m_moves.take p.1)) p.1 p.2)) ++
    resultToString g.m_result ++ "\n\n" := by
  unfold PgnGame.write
  rw [if_neg (by simp [h])]
  rw [writeMoveLoop_closed bi g.m_moves
    (bi.setBoard (bi.mkBoard g.m_variant) g.m_fen).2 0]
  rw [List.enum_eq_enumFrom]
  have hmap : (List.enumFrom 0 g.m_moves).map (fun p =>
      plyChunk bi
        (replayBoard bi (bi.setBoard (bi.mkBoard g.m_variant) g.m_fen).2
          (g.m_moves.take (p.1 - 0))) p.1 p.2) =
      (List.enumFrom 0 g.m_moves).map (fun p =>
      plyChunk bi
        (replayBoard bi (bi.setBoard (bi.mkBoard g.m_variant) g.m_fen).2
          (g.m_moves.take p.1)) p.1 p.2) :=
    List.map_congr_left (fun p hp => by rw [Nat.sub_zero])
  rw [hmap]

/-- A concrete two-move record for the witnesses. -/
def gameTwoMovesU : PgnGame Unit :=
  ⟨"A", "B", Chess.Result.WhiteMates, Chess.standardFen,
    Chess.Variant.StandardChess, false, [(), ()], 0, false⟩

/-- Witness for C7 at a concrete two-move record. -/
theorem c7_witness :
    gameTwoMovesU.m_isEmpty = false ∧
    PgnGame.write unitBoard "2026.10.11" gameTwoMovesU =
    "[Date \"" ++ "2026.10.11" ++ "\"]\n" ++
    "[White \"" ++ gameTwoMovesU.m_whitePlayer ++ "\"]\n" ++
    "[Black \"" ++ gameTwoMovesU.m_blackPlayer ++ "\"]\n" ++
    "[Result \"" ++ resultToString gameTwoMovesU.m_result ++ "\"]\n" ++
    (if gameTwoMovesU.variantString ≠ "" then
      "[Variant \"" ++ gameTwoMovesU.variantString ++ "\"]\n" else "") ++
    (if gameTwoMovesU.useFen = true then
      "[FEN \"" ++ gameTwoMovesU.m_fen ++ "\"]\n" else "") ++
    String.join ((gameTwoMovesU.m_moves.enum).map (fun p =>
      plyChunk unitBoard
        (replayBoard unitBoard
          (unitBoard.setBoard (unitBoard.mkBoard gameTwoMovesU.m_variant)
            gameTwoMovesU.m_fen).2
          (gameTwoMovesU.m_moves.take p.1)) p.1 p.2)) ++
    resultToString gameTwoMovesU.m_result ++ "\n\n" :=
  ⟨rfl, c7_write_move_text_layout unitBoard "2026.10.11" gameTwoMovesU rfl⟩

/-- The canonical positions of the two variants are pairwise distinct. -/
theorem gothic_ne_capablanca : Chess.gothicFen ≠ Chess.capablancaFen := by
  decide

/-- Claim C8: a record of the alternate (Capablanca) variant whose starting
position is the canonical gothic position serializes with the tag
`Variant "Gothic"` and no `FEN` tag when the random flag is clear, and with
the variant's `Capablancarandom` tag instead (still without a `FEN` tag) when
the random flag is set. -/
theorem c8_gothic_variant_tags {B M : Type} (bi : BoardOps B M)
    (date : String) (g : PgnGame M) (hE : g.m_isEmpty = false)
    (hv : g.m_variant = Chess.Variant.CapablancaChess)
    (hf : g.m_fen = Chess.gothicFen) :
    (g.m_isRandomVariant = false →
      PgnGame.write bi date g =
      "[Date \"" ++ date ++ "\"]\n" ++
      "[White \"" ++ g.m_whitePlayer ++ "\"]\n" ++
      "[Black \"" ++ g.m_blackPlayer ++ "\"]\n" ++
      "[Result \"" ++ resultToString g.m_result ++ "\"]\n" ++
      "[Variant \"Gothic\"]\n" ++
      writeMoveLoop bi (bi.setBoard (bi.mkBoard g.m_variant) g.m_fen).2
        g.m_moves 0 ++
      resultToString g.m_result ++ "\n\n") ∧
    (g.m_isRandomVariant = true →
      PgnGame.write bi date g =
      "[Date \"" ++ date ++ "\"]\n" ++
      "[White \"" ++ g.m_whitePlayer ++ "\"]\n" ++
      "[Black \"" ++ g.m_blackPlayer ++ "\"]\n" ++
      "[Result \"" ++ resultToString g.m_result ++ "\"]\n" ++
      "[Variant \"Capablancarandom\"]\n" ++
      writeMoveLoop bi (bi.setBoard (bi.mkBoard g.m_variant) g.m_fen).2
        g.m_moves 0 ++
      resultToString g.m_result ++ "\n\n") := by
  have huf : g.useFen = false := by
    simp [PgnGame.useFen, hv, hf, gothic_ne_capablanca]
  constructor
  · intro hrand
    have hvs : g.variantString = "Gothic" := by
      simp [PgnGame.variantString, hv, hf, hrand, gothic_ne_capablanca]
    unfold PgnGame.write
    rw [if_neg (by simp [hE]), hvs, huf]
    rw [if_pos (by decide), if_neg (by simp)]
    rw [show ("[Variant \"" ++ "Gothic" ++ "\"]\n" : String) =
      "[Variant \"Gothic\"]\n" from by decide]
    rw [String.append_empty]
  · intro hrand
    have hvs : g.variantString = "Capablancarandom" := by
      simp [PgnGame.variantString, hv, hrand]
    unfold PgnGame.write
    rw [if_neg (by simp [hE]), hvs, huf]
    rw [if_pos (by decide), if_neg (by simp)]
    rw [show ("[Variant \"" ++ "Capablancarandom" ++ "\"]\n" : String) =
      "[Variant \"Capablancarandom\"]\n" from by decide]
    rw [String.append_empty]

/-- A concrete gothic-position Capablanca record. -/
def gameGothicU : PgnGame Unit :=
  ⟨"A", "B", Chess.Result.NoResult, Chess.gothicFen,
    Chess.Variant.CapablancaChess, false, [()], 0, false⟩

/-- Witness for C8 at a concrete gothic record. -/
theorem c8_witness :
    (gameGothicU.m_isEmpty = false ∧
      gameGothicU.m_variant = Chess.Variant.CapablancaChess ∧
      gameGothicU.m_fen = Chess.gothicFen ∧
      gameGothicU.m_isRandomVariant = false) ∧
    PgnGame.write unitBoard "2026.10.11" gameGothicU =
    "[Date \"" ++ "2026.10.11" ++ "\"]\n" ++
    "[White \"" ++ gameGothicU.m_whitePlayer ++ "\"]\n" ++
    "[Black \"" ++ gameGothicU.m_blackPlayer ++ "\"]\n" ++
    "[Result \"" ++ resultToString gameGothicU.m_result ++ "\"]\n" ++
    "[Variant \"Gothic\"]\n" ++
    writeMoveLoop unitBoard
      (unitBoard.setBoard (unitBoard.mkBoard gameGothicU.m_variant)
        gameGothicU.m_fen).2 gameGothicU.m_moves 0 ++
    resultToString gameGothicU.m_result ++ "\n\n" :=
  ⟨⟨rfl, rfl, rfl, rfl⟩,
    (c8_gothic_variant_tags unitBoard "2026.10.11" gameGothicU rfl rfl
      rfl).1 rfl⟩

/-- Characters that accumulate freely inside a tag: anything but the tag
brackets and line breaks. -/
def tagChar (c : Char) : Prop :=
  c ≠ '[' ∧ c ≠ ']' ∧ c ≠ '\n' ∧ c ≠ '\x0d'

instance (c : Char) : Decidable (tagChar c) := by
  unfold tagChar
  infer_instance

/-- Opening a tag from the pristine state on a record without moves: `[`
classifies the item as a tag and opens the bracket. -/
theorem scanIter_tag_open (e : Bool) (done l2 : List Char) :
    scanIter e false ScanState.start
      ⟨done ++ '[' :: l2, done.length, true⟩ =
    .cont ⟨PgnItem.PgnTag, '[', ']', 1, []⟩
      ⟨done ++ '[' :: l2, done.length + 1, true⟩ := by
  have hrc : (⟨done ++ '[' :: l2, done.length, true⟩ : TextStream).readChar =
      ('[', ⟨done ++ '[' :: l2, done.length + 1, true⟩) := by
    unfold TextStream.readChar
    rw [show (⟨done ++ '[' :: l2, done.length, true⟩ : TextStream).data[
        (⟨done ++ '[' :: l2, done.length, true⟩ : TextStream).pos]? = some '['
      from getElem_append_cons done l2 '[']
  show scanIter e false ⟨PgnItem.PgnMove, '\x00', '\x00', 0, []⟩
      ⟨done ++ '[' :: l2, done.length, true⟩ = _
  unfold scanIter
  rw [hrc]
  simp only []
  rw [if_neg (by simp)]
  rw [if_neg (by simp)]
  rw [if_neg (by simp)]
  rw [if_neg (by simp)]
  rw [if_neg (by simp)]
  rw [if_neg (by simp)]
  have hdr : digitReclass ⟨PgnItem.PgnMove, '\x00', '\x00', 0, []⟩ '[' =
      ⟨PgnItem.PgnMove, '\x00', '\x00', 0, []⟩ := by
    unfold digitReclass
    rw [if_neg (by intro hcond; exact absurd hcond.2.2.1 (by decide))]
  rw [hdr]
  rw [if_neg (by simp)]
  have hbc : bracketClassify ⟨PgnItem.PgnMove, '\x00', '\x00', 0, []⟩ '[' =
      ⟨PgnItem.PgnTag, '[', ']', 0, []⟩ := by
    unfold bracketClassify
    rw [if_pos ⟨rfl, rfl⟩]
  rw [hbc]
  unfold scanTail
  rw [if_pos rfl]
  rfl

/-- One tag character is appended and the scan continues. -/
theorem scanIter_tag_step (e hm : Bool) (acc done l2 : List Char) (c : Char)
    (hc : tagChar c) :
    scanIter e hm ⟨PgnItem.PgnTag, '[', ']', 1, acc⟩
      ⟨done ++ c :: l2, done.length, true⟩ =
    .cont ⟨PgnItem.PgnTag, '[', ']', 1, acc ++ [c]⟩
      ⟨done ++ c :: l2, done.length + 1, true⟩ := by
  obtain ⟨hob, hcb, hnl, hcr⟩ := hc
  have hrc : (⟨done ++ c :: l2, done.length, true⟩ : TextStream).readChar =
      (c, ⟨done ++ c :: l2, done.length + 1, true⟩) := by
    unfold TextStream.readChar
    rw [show (⟨done ++ c :: l2, done.length, true⟩ : TextStream).data[
        (⟨done ++ c :: l2, done.length, true⟩ : TextStream).pos]? = some c
      from getElem_append_cons done l2 c]
  unfold scanIter
  rw [hrc]
  simp only []
  rw [if_neg (by simp)]
  rw [if_neg (by simp [hnl, hcr])]
  rw [if_neg (by simp)]
  rw [if_neg (by simp)]
  rw [if_neg (by simp)]
  rw [if_neg (by simp)]
  have hdr : digitReclass ⟨PgnItem.PgnTag, '[', ']', 1, acc⟩ c =
      ⟨PgnItem.PgnTag, '[', ']', 1, acc⟩ := by
    unfold digitReclass
    rw [if_neg (by simp)]
  rw [hdr]
  rw [if_neg (by simp)]
  have hbc : bracketClassify ⟨PgnItem.PgnTag, '[', ']', 1, acc⟩ c =
      ⟨PgnItem.PgnTag, '[', ']', 1, acc⟩ := by
    unfold bracketClassify
    rw [if_neg (by simp), if_neg (by simp), if_neg (by simp),
      if_neg (by simp)]
  rw [hbc]
  unfold scanTail
  rw [if_neg (fun h => hob h)]
  rw [if_neg (fun h => hcb h)]
  rw [if_neg (by simp)]
  rw [if_neg (by simp)]
  rw [if_neg (by simp)]

/-- The closing `]` at nesting level 1 stops the loop without being
accumulated. -/
theorem scanIter_tag_close (e hm : Bool) (acc done l2 : List Char) :
    scanIter e hm ⟨PgnItem.PgnTag, '[', ']', 1, acc⟩
      ⟨done ++ ']' :: l2, done.length, true⟩ =
    .brk ⟨PgnItem.PgnTag, '[', ']', 0, acc⟩
      ⟨done ++ ']' :: l2, done.length + 1, true⟩ := by
  have hrc : (⟨done ++ ']' :: l2, done.length, true⟩ : TextStream).readChar =
      (']', ⟨done ++ ']' :: l2, done.length + 1, true⟩) := by
    unfold TextStream.readChar
    rw [show (⟨done ++ ']' :: l2, done.length, true⟩ : TextStream).data[
        (⟨done ++ ']' :: l2, done.length, true⟩ : TextStream).pos]? = some ']'
      from getElem_append_cons done l2 ']']
  unfold scanIter
  rw [hrc]
  simp only []
  rw [if_neg (by simp)]
  rw [if_neg (by simp)]
  rw [if_neg (by simp)]
  rw [if_neg (by simp)]
  rw [if_neg (by simp)]
  rw [if_neg (by simp)]
  have hdr : digitReclass ⟨PgnItem.PgnTag, '[', ']', 1, acc⟩ ']' =
      ⟨PgnItem.PgnTag, '[', ']', 1, acc⟩ := by
    unfold digitReclass
    rw [if_neg (by simp)]
  rw [hdr]
  rw [if_neg (by simp)]
  have hbc : bracketClassify ⟨PgnItem.PgnTag, '[', ']', 1, acc⟩ ']' =
      ⟨PgnItem.PgnTag, '[', ']', 1, acc⟩ := by
    unfold bracketClassify
    rw [if_neg (by simp), if_neg (by simp), if_neg (by simp),
      if_neg (by simp)]
  rw [hbc]
  unfold scanTail
  rw [if_neg (by simp)]
  rw [if_pos rfl]
  rw [if_pos (by norm_num)]
  rfl

/-- Tag characters accumulate one after the other. -/
theorem scanLoop_tag_accum (e hm : Bool) (tk : List Char)
    (htk : ∀ c ∈ tk, tagChar c) :
    ∀ (done acc l2 : List Char),
    scanLoop e hm ⟨PgnItem.PgnTag, '[', ']', 1, acc⟩
      ⟨done ++ tk ++ l2, done.length, true⟩ =
    scanLoop e hm ⟨PgnItem.PgnTag, '[', ']', 1, acc ++ tk⟩
      ⟨done ++ tk ++ l2, (done ++ tk).length, true⟩ := by
  induction tk with
  | nil =>
      intro done acc l2
      simp
  | cons c tk' ih =>
      intro done acc l2
      have hl : done ++ (c :: tk') ++ l2 = done ++ c :: (tk' ++ l2) := by
        simp
      have hstep := scanIter_tag_step e hm acc done (tk' ++ l2) c
        (htk c (by simp))
      rw [hl]
      rw [scanLoop, dif_pos rfl, hstep]
      have hih := ih (fun d hd => htk d (by simp [hd])) (done ++ [c])
        (acc ++ [c]) l2
      simp only [List.append_assoc, List.cons_append, List.nil_append,
        List.length_append, List.length_cons, List.length_nil] at hih ⊢
      convert hih using 2

/-- Scanning one full tag item `[` … `]`: the inner text is accumulated and
the brackets are consumed but not stored. -/
theorem scanLoop_tag (e : Bool) (D0 inner l2 : List Char)
    (hinner : ∀ c ∈ inner, tagChar c) :
    scanLoop e false ScanState.start
      ⟨D0 ++ '[' :: (inner ++ ']' :: l2), D0.length, true⟩ =
    .finished ⟨PgnItem.PgnTag, '[', ']', 0, inner⟩
      ⟨D0 ++ '[' :: (inner ++ ']' :: l2),
        D0.length + 1 + inner.length + 1, true⟩ := by
  rw [scanLoop, dif_pos rfl,
    scanIter_tag_open e D0 (inner ++ ']' :: l2)]
  show scanLoop e false ⟨PgnItem.PgnTag, '[', ']', 1, []⟩
    ⟨D0 ++ '[' :: (inner ++ ']' :: l2), D0.length + 1, true⟩ = _
  have hstr : (⟨D0 ++ '[' :: (inner ++ ']' :: l2), D0.length + 1, true⟩ :
      TextStream) =
      ⟨(D0 ++ ['[']) ++ inner ++ (']' :: l2), (D0 ++ ['[']).length, true⟩ := by
    simp
  rw [hstr, scanLoop_tag_accum e false inner hinner (D0 ++ ['[']) [] (']' :: l2)]
  have hstr2 : (⟨(D0 ++ ['[']) ++ inner ++ (']' :: l2),
      ((D0 ++ ['[']) ++ inner).length, true⟩ : TextStream) =
      ⟨((D0 ++ ['[']) ++ inner) ++ ']' :: l2,
        ((D0 ++ ['[']) ++ inner).length, true⟩ := by
    simp
  rw [hstr2]
  rw [scanLoop, dif_pos rfl,
    scanIter_tag_close e false ([] ++ inner) ((D0 ++ ['[']) ++ inner) l2]
  have hstr3 : (⟨((D0 ++ ['[']) ++ inner) ++ ']' :: l2,
      ((D0 ++ ['[']) ++ inner).length + 1, true⟩ : TextStream) =
      ⟨D0 ++ '[' :: (inner ++ ']' :: l2),
        D0.length + 1 + inner.length + 1, true⟩ := by
    simp <;> omega
  rw [hstr3]
  rw [show ([] ++ inner : List Char) = inner from by simp]

/-- `dropWhile` stops exactly at the first refuting character. -/
theorem dropWhile_prefix_all (p : Char → Bool) (ws : List Char) (c : Char)
    (rest : List Char) (hws : ∀ x ∈ ws, p x = true) (hc : p c = false) :
    (ws ++ c :: rest).dropWhile p = c :: rest := by
  induction ws with
  | nil =>
      simp only [List.nil_append]
      rw [List.dropWhile_cons_of_neg (by simp [hc])]
  | cons w ws' ih =>
      simp only [List.cons_append]
      rw [List.dropWhile_cons_of_pos (by simp [hws w (by simp)])]
      exact ih (fun x hx => hws x (by simp [hx]))

/-- Trimming does nothing when both ends are not whitespace. -/
theorem qtrim_eq_self_of_ends (l : List Char)
    (h1 : ∀ c, l.head? = some c → qIsSpace c = false)
    (h2 : ∀ c, l.getLast? = some c → qIsSpace c = false) : qtrim l = l := by
  unfold qtrim
  have hd : l.dropWhile qIsSpace = l := by
    cases l with
    | nil => rfl
    | cons c t => rw [List.dropWhile_cons_of_neg (by simp [h1 c rfl])]
  rw [hd]
  have hr : l.reverse.dropWhile qIsSpace = l.reverse := by
    cases hrev : l.reverse with
    | nil => rfl
    | cons c t =>
        rw [List.dropWhile_cons_of_neg]
        simp only [Bool.not_eq_true]
        refine h2 c ?_
        rw [← List.head?_reverse, hrev]
        rfl
  rw [hr, List.reverse_reverse]

/-- `readItem` on a tag line `[name "value"]` with no moves accumulated yet:
the scan yields the tag item whose text is the inner block. -/
theorem readItem_tag_eq {B M : Type} (bi : BoardOps B M) (g : PgnGame M)
    (b : B) (s : TextStream) (done ws name val l2 : List Char)
    (hmoves : g.m_moves = [])
    (hdata : s.data = done ++ ws ++
      '[' :: ((name ++ ' ' :: '"' :: (val ++ ['"'])) ++ ']' :: l2))
    (hpos : s.pos = done.length) (hok : s.ok = true)
    (hws : ∀ x ∈ ws, qIsSpace x = true)
    (hname : ∀ c ∈ name, tagChar c) (hval : ∀ c ∈ val, tagChar c) :
    PgnGame.readItem bi g b s =
    readItemAfterLoop bi g b
      ⟨PgnItem.PgnTag, '[', ']', 0, name ++ ' ' :: '"' :: (val ++ ['"'])⟩
      ⟨s.data,
        done.length + ws.length + name.length + val.length + 5,
        true⟩ := by
  have hsw := skipWhiteSpace_block s done ws
    ((name ++ ' ' :: '"' :: (val ++ ['"'])) ++ ']' :: l2) '['
    hdata hpos hws (by decide)
  have hinner : ∀ c ∈ name ++ ' ' :: '"' :: (val ++ ['"']), tagChar c := by
    intro c hc
    rcases List.mem_append.mp hc with h | h
    · exact hname c h
    · rcases List.mem_cons.mp h with h | h
      · subst h
        decide
      · rcases List.mem_cons.mp h with h | h
        · subst h
          decide
        · rcases List.mem_append.mp h with h | h
          · exact hval c h
          · rcases List.mem_cons.mp h with h | h
            · subst h
              decide
            · cases h
  have hmoves0 : decide (0 < g.m_moves.length) = false := by
    rw [hmoves]
    rfl
  simp only [PgnGame.readItem]
  rw [hsw, hdata, hok, hmoves0]
  have hstr : (⟨done ++ ws ++
      '[' :: ((name ++ ' ' :: '"' :: (val ++ ['"'])) ++ ']' :: l2),
      done.length + ws.length, true⟩ : TextStream) =
      ⟨(done ++ ws) ++
        '[' :: ((name ++ ' ' :: '"' :: (val ++ ['"'])) ++ ']' :: l2),
        (done ++ ws).length, true⟩ := by
    simp
  rw [hstr, scanLoop_tag g.m_isEmpty (done ++ ws)
    (name ++ ' ' :: '"' :: (val ++ ['"'])) l2 hinner]
  have hlen : (done ++ ws).length + 1 +
      (name ++ ' ' :: '"' :: (val ++ ['"'])).length + 1 =
      done.length + ws.length + name.length + val.length + 5 := by
    simp
    omega
  rw [hlen]

/-- What the dispatch does to a scanned tag item `[name "value"]`: the name
selects the record field, the parameter is the value with its quotes
stripped. -/
theorem readItemAfterLoop_tag_dispatch {B M : Type} (bi : BoardOps B M)
    (g : PgnGame M) (b : B) (name val : List Char) (s2 : TextStream)
    (hn1 : name ≠ []) (hn2 : ∀ c ∈ name, qIsSpace c = false)
    (hval : ∀ c ∈ val, c ≠ '"') :
    readItemAfterLoop bi g b
      ⟨PgnItem.PgnTag, '[', ']', 0, name ++ ' ' :: '"' :: (val ++ ['"'])⟩
      s2 =
    (if name = "White".data then
      ⟨PgnItem.PgnTag, { g with m_whitePlayer := String.mk val }, b, s2, []⟩
    else if name = "Black".data then
      ⟨PgnItem.PgnTag, { g with m_blackPlayer := String.mk val }, b, s2, []⟩
    else if name = "Result".data then
      ⟨PgnItem.PgnTag,
        { g with m_result := resultFromString (String.mk val) }, b, s2,
        if resultFromString (String.mk val) = Chess.Result.ResultError then
          [Diag.invalidResult] else []⟩
    else if name = "FEN".data then
      if (bi.setBoard b (String.mk val)).1 = true then
        ⟨PgnItem.PgnTag, { g with m_fen := String.mk val },
          (bi.setBoard b (String.mk val)).2, s2, []⟩
      else
        ⟨PgnItem.PgnError, { g with m_fen := String.mk val },
          (bi.setBoard b (String.mk val)).2, s2, [Diag.invalidFen]⟩
    else ⟨PgnItem.PgnTag, g, b, s2, []⟩) := by
  have hne : ∀ c ∈ name, (fun c => decide (c ≠ ' ')) c = true := by
    intro c hc
    simp only [decide_eq_true_iff]
    exact ne_of_space_mismatch (by decide) (hn2 c hc) |>.symm
  have htrim : qtrim (name ++ ' ' :: '"' :: (val ++ ['"'])) =
      name ++ ' ' :: '"' :: (val ++ ['"']) := by
    refine qtrim_eq_self_of_ends _ ?_ ?_
    · intro c hc
      cases hn : name with
      | nil => exact absurd hn hn1
      | cons n name' =>
          rw [hn] at hc
          simp at hc
          exact hc ▸ hn2 n (by rw [hn]; simp)
    · intro c hc
      rw [show name ++ ' ' :: '"' :: (val ++ ['"']) =
        (name ++ ' ' :: '"' :: val) ++ ['"'] from by simp] at hc
      rw [List.getLast?_concat] at hc
      cases hc
      decide
  have hName : tagName (name ++ ' ' :: '"' :: (val ++ ['"'])) = name := by
    unfold tagName
    exact takeWhile_prefix_all _ name ' ' ('"' :: (val ++ ['"'])) hne
      (by simp)
  have hParam : tagParam (name ++ ' ' :: '"' :: (val ++ ['"'])) = val := by
    unfold tagParam
    rw [dropWhile_prefix_all _ name ' ' ('"' :: (val ++ ['"'])) hne
      (by simp)]
    simp only [List.drop_succ_cons, List.drop_zero]
    rw [List.filter_cons_of_neg (by simp)]
    rw [List.filter_append]
    rw [List.filter_cons_of_neg (by simp)]
    rw [List.filter_eq_self.mpr (by
      intro c hc
      simp only [decide_eq_true_iff]
      exact hval c hc)]
    simp
  unfold readItemAfterLoop
  simp only []
  rw [htrim]
  rw [if_neg (by simp)]
  rw [if_neg (by simp)]
  rw [if_pos trivial]
  rw [hName, hParam]

/-- Claim C4: a `FEN` tag always sets the record's starting position to the
tag value and reinitializes the board collaborator with it.  When `setBoard`
rejects the value, `readItem` returns `PgnError` and the parse loop stops at
exactly that point, consuming nothing further; when `setBoard` accepts it,
the item is a `PgnTag` and the loop continues from the reinitialized
board. -/
theorem c4_fen_tag_validation {B M : Type} (bi : BoardOps B M)
    (g : PgnGame M) (b : B) (s : TextStream) (done ws val l2 : List Char)
    (maxMoves : Nat) (hmoves : g.m_moves = [])
    (hdata : s.data = done ++ ws ++
      '[' :: (("FEN".data ++ ' ' :: '"' :: (val ++ ['"'])) ++ ']' :: l2))
    (hpos : s.pos = done.length) (hok : s.ok = true)
    (hws : ∀ x ∈ ws, qIsSpace x = true)
    (hval : ∀ c ∈ val, tagChar c ∧ c ≠ '"')
    (hmax : g.m_moves.length < maxMoves) :
    (PgnGame.readItem bi g b s).game = { g with m_fen := String.mk val } ∧
    (PgnGame.readItem bi g b s).board = (bi.setBoard b (String.mk val)).2 ∧
    ((bi.setBoard b (String.mk val)).1 = false →
      (PgnGame.readItem bi g b s).item = PgnItem.PgnError ∧
      parseLoop bi g b s maxMoves =
        ((PgnGame.readItem bi g b s).game,
          (PgnGame.readItem bi g b s).stream)) ∧
    ((bi.setBoard b (String.mk val)).1 = true →
      (PgnGame.readItem bi g b s).item = PgnItem.PgnTag ∧
      parseLoop bi g b s maxMoves =
        parseLoop bi { (PgnGame.readItem bi g b s).game with
            m_isEmpty := false }
          (PgnGame.readItem bi g b s).board
          (PgnGame.readItem bi g b s).stream maxMoves) := by
  have hri := readItem_tag_eq bi g b s done ws "FEN".data val l2 hmoves hdata
    hpos hok hws (by decide) (fun c hc => (hval c hc).1)
  rw [readItemAfterLoop_tag_dispatch bi g b "FEN".data val _ (by decide)
    (by decide) (fun c hc => (hval c hc).2)] at hri
  rw [if_neg (by decide), if_neg (by decide), if_neg (by decide),
    if_pos rfl] at hri
  cases hsb : (bi.setBoard b (String.mk val)).1 with
  | false =>
      rw [if_neg (by rw [hsb]; simp)] at hri
      rw [hri]
      refine ⟨rfl, rfl, ?_, ?_⟩
      · intro hc2
        refine ⟨rfl, ?_⟩
        rw [parseLoop, dif_pos ⟨hok, hmoves ▸ hmax⟩, hri]
      · intro hcon
        cases hcon
  | true =>
      rw [if_pos hsb] at hri
      rw [hri]
      refine ⟨rfl, rfl, ?_, ?_⟩
      · intro hcon
        cases hcon
      · intro hc2
        refine ⟨rfl, ?_⟩
        rw [parseLoop, dif_pos ⟨hok, hmoves ▸ hmax⟩, hri]

/-- A board double whose `setBoard` rejects one particular position. -/
def pickyBoard : BoardOps Unit Unit where
  mkBoard := fun _ => ()
  setBoard := fun _ f => (decide (f ≠ "bad"), ())
  fenString := fun _ => Chess.standardFen
  moveFromString := fun _ _ => ()
  isLegalMove := fun _ _ => true
  makeMove := fun _ _ => ()
  moveString := fun _ _ => "Z"

/-- Witness for C4 at a concrete rejected `FEN` tag. -/
theorem c4_witness :
    (emptyGameU.m_moves = [] ∧
      (pickyBoard.setBoard () (String.mk "bad".data)).1 = false ∧
      (0 : Nat) < 10) ∧
    (PgnGame.readItem pickyBoard emptyGameU ()
      ⟨"[FEN \"bad\"]".data, 0, true⟩).game =
      { emptyGameU with m_fen := String.mk "bad".data } :=
  ⟨⟨rfl, by decide, by decide⟩,
    (c4_fen_tag_validation pickyBoard emptyGameU ()
      ⟨"[FEN \"bad\"]".data, 0, true⟩ [] [] "bad".data [] 10 rfl (by decide)
      rfl rfl (by decide) (by decide) (by decide)).1⟩

/-- One parse-loop step that leaves the loop on a result item. -/
theorem parseLoop_result_step {B M : Type} (bi : BoardOps B M)
    (g : PgnGame M) (b : B) (s : TextStream) (n : Nat) (g' : PgnGame M)
    (b' : B) (s' : TextStream) (d : List Diag)
    (hcond : s.ok = true ∧ g.m_moves.length < n)
    (hri : PgnGame.readItem bi g b s = ⟨.PgnResult, g', b', s', d⟩) :
    parseLoop bi g b s n = (g', s') := by
  rw [parseLoop, dif_pos hcond, hri]

/-- One parse-loop step over a tag item clears `m_isEmpty` and continues. -/
theorem parseLoop_tag_step {B M : Type} (bi : BoardOps B M) (g : PgnGame M)
    (b : B) (s : TextStream) (n : Nat) (g' : PgnGame M) (b' : B)
    (s' : TextStream) (d : List Diag)
    (hcond : s.ok = true ∧ g.m_moves.length < n)
    (hri : PgnGame.readItem bi g b s = ⟨.PgnTag, g', b', s', d⟩) :
    parseLoop bi g b s n =
      parseLoop bi { g' with m_isEmpty := false } b' s' n := by
  rw [parseLoop, dif_pos hcond, hri]

/-- One parse-loop step over a move-number item continues unchanged. -/
theorem parseLoop_moveNumber_step {B M : Type} (bi : BoardOps B M)
    (g : PgnGame M) (b : B) (s : TextStream) (n : Nat) (g' : PgnGame M)
    (b' : B) (s' : TextStream) (d : List Diag)
    (hcond : s.ok = true ∧ g.m_moves.length < n)
    (hri : PgnGame.readItem bi g b s = ⟨.PgnMoveNumber, g', b', s', d⟩) :
    parseLoop bi g b s n = parseLoop bi g' b' s' n := by
  rw [parseLoop, dif_pos hcond, hri]

/-- One parse-loop step over a move item continues with the extended
record. -/
theorem parseLoop_move_step {B M : Type} (bi : BoardOps B M) (g : PgnGame M)
    (b : B) (s : TextStream) (n : Nat) (g' : PgnGame M) (b' : B)
    (s' : TextStream) (d : List Diag)
    (hcond : s.ok = true ∧ g.m_moves.length < n)
    (hri : PgnGame.readItem bi g b s = ⟨.PgnMove, g', b', s', d⟩) :
    parseLoop bi g b s n = parseLoop bi g' b' s' n := by
  rw [parseLoop, dif_pos hcond, hri]

/-- The standard-algebraic texts of a move sequence, read off a replayed
board (each move's text is taken before the move is applied). -/
def sanList {B M : Type} (bi : BoardOps B M) (b : B) (ms : List M) :
    List String :=
  match ms with
  | [] => []
  | m :: rest => bi.moveString b m :: sanList bi (bi.makeMove b m) rest

/-- The moves the parser reconstructs from the serialized text: each emitted
move text is decoded on the same board state. -/
def decodeMoves {B M : Type} (bi : BoardOps B M) (b : B) (ms : List M) :
    List M :=
  match ms with
  | [] => []
  | m :: rest =>
      bi.moveFromString b (bi.moveString b m) ::
        decodeMoves bi (bi.makeMove b m) rest

/-- Modelled from the spec: the coherence a real chess rules engine provides
between encoding and decoding of moves (the collaborator itself lives outside
the repository sources).  Decoding an emitted standard-algebraic text on the
same position yields a legal move with the same text and the same effect;
`setBoard` depends only on the position string; reading the position back
after setting the standard start returns it verbatim; and emitted move texts
are plain tokens that cannot be confused with move numbers, annotations,
comments, tags or result markers. -/
structure RoundTripBoard {B M : Type} (bi : BoardOps B M) : Prop where
  decode_legal : ∀ b m,
    bi.isLegalMove b (bi.moveFromString b (bi.moveString b m)) = true
  decode_makeMove : ∀ b m,
    bi.makeMove b (bi.moveFromString b (bi.moveString b m)) = bi.makeMove b m
  decode_san : ∀ b m,
    bi.moveString b (bi.moveFromString b (bi.moveString b m)) =
      bi.moveString b m
  setBoard_reset : ∀ b b' f, bi.setBoard b f = bi.setBoard b' f
  fen_std : bi.fenString
    (bi.setBoard (bi.mkBoard Chess.Variant.StandardChess)
      Chess.standardFen).2 = Chess.standardFen
  san_token : ∀ b m, (bi.moveString b m).data ≠ [] ∧
    (∀ c ∈ (bi.moveString b m).data, tokenChar c) ∧
    (∀ c, (bi.moveString b m).data.head? = some c →
      c.isDigit = false ∧ c ≠ ';' ∧ c ≠ '%' ∧ c ≠ '$' ∧ c ≠ '*')

/-- Decoding the emitted texts reproduces the same standard-algebraic
text sequence. -/
theorem sanList_decodeMoves {B M : Type} (bi : BoardOps B M)
    (hb : RoundTripBoard bi) (ms : List M) :
    ∀ b : B, sanList bi b (decodeMoves bi b ms) = sanList bi b ms := by
  induction ms with
  | nil => intro b; rfl
  | cons m rest ih =>
      intro b
      show bi.moveString b (bi.moveFromString b (bi.moveString b m)) ::
          sanList bi
            (bi.makeMove b (bi.moveFromString b (bi.moveString b m)))
            (decodeMoves bi (bi.makeMove b m) rest) =
        bi.moveString b m :: sanList bi (bi.makeMove b m) rest
      rw [hb.decode_san, hb.decode_makeMove, ih (bi.makeMove b m)]

/-- Every decimal digit character of a value below ten is a digit and a
plain token character. -/
theorem digitChar_props (d : Nat) (h : d < 10) :
    (Nat.digitChar d).isDigit = true ∧ tokenChar (Nat.digitChar d) ∧
    Nat.digitChar d ≠ ';' ∧ Nat.digitChar d ≠ '%' ∧ Nat.digitChar d ≠ '$' := by
  interval_cases d <;>
    exact ⟨by decide, by decide, by decide, by decide, by decide⟩

/-- Every character the digit-spelling loop emits is either carried over or a
digit character of a value below ten. -/
theorem toDigitsCore_mem :
    ∀ (fuel n : Nat) (ds : List Char) (c : Char),
      c ∈ Nat.toDigitsCore 10 fuel n ds →
      c ∈ ds ∨ ∃ d, d < 10 ∧ c = Nat.digitChar d := by
  intro fuel
  induction fuel with
  | zero =>
      intro n ds c hc
      exact Or.inl hc
  | succ fuel ih =>
      intro n ds c hc
      simp only [Nat.toDigitsCore] at hc
      split at hc
      · rcases List.mem_cons.mp hc with h | h
        · exact Or.inr ⟨n % 10, Nat.mod_lt n (by decide), h⟩
        · exact Or.inl h
      · rcases ih (n / 10) (Nat.digitChar (n % 10) :: ds) c hc with h | h
        · rcases List.mem_cons.mp h with h2 | h2
          · exact Or.inr ⟨n % 10, Nat.mod_lt n (by decide), h2⟩
          · exact Or.inl h2
        · exact Or.inr h

/-- The digit-spelling loop never returns the empty list when given fuel. -/
theorem toDigitsCore_ne_nil :
    ∀ (fuel n : Nat) (ds : List Char), fuel ≠ 0 ∨ ds ≠ [] →
      Nat.toDigitsCore 10 fuel n ds ≠ [] := by
  intro fuel
  induction fuel with
  | zero =>
      intro n ds h
      rcases h with h | h
      · exact absurd rfl h
      · exact h
  | succ fuel ih =>
      intro n ds _
      simp only [Nat.toDigitsCore]
      split
      · exact List.cons_ne_nil _ _
      · exact ih (n / 10) (Nat.digitChar (n % 10) :: ds)
          (Or.inr (List.cons_ne_nil _ _))

/-- The decimal spelling of a natural number is its digit list. -/
theorem repr_data (n : Nat) : (Nat.repr n).data = Nat.toDigits 10 n := rfl

/-- The decimal spelling of a natural number is nonempty and consists of
decimal digit characters only, all of which are plain token characters. -/
theorem repr_props (n : Nat) :
    (Nat.repr n).data ≠ [] ∧
    ∀ c ∈ (Nat.repr n).data, c.isDigit = true ∧ tokenChar c ∧
      c ≠ ';' ∧ c ≠ '%' ∧ c ≠ '$' := by
  rw [repr_data]
  constructor
  · exact toDigitsCore_ne_nil (n + 1) n [] (Or.inl (Nat.succ_ne_zero n))
  · intro c hc
    rcases toDigitsCore_mem (n + 1) n [] c hc with h | ⟨d, hd, hcd⟩
    · cases h
    · rw [hcd]
      exact digitChar_props d hd

/-- A list of digit characters is never one of the four result tokens. -/
theorem digits_not_result (l : List Char)
    (h : ∀ c ∈ l, c.isDigit = true) :
    ¬(l = "*".data ∨ l = "1/2-1/2".data ∨ l = "1-0".data ∨
      l = "0-1".data) := by
  rintro (h1 | h1 | h1 | h1) <;> subst h1
  · exact absurd (h '*' (by decide)) (by decide)
  · exact absurd (h '/' (by decide)) (by decide)
  · exact absurd (h '-' (by decide)) (by decide)
  · exact absurd (h '-' (by decide)) (by decide)

/-- A token whose first character is neither a digit nor `*` is never one of
the four result tokens. -/
theorem head_not_result (l : List Char) (c : Char) (hh : l.head? = some c)
    (hd : c.isDigit = false) (hs : c ≠ '*') :
    ¬(l = "*".data ∨ l = "1/2-1/2".data ∨ l = "1-0".data ∨
      l = "0-1".data) := by
  rintro (h1 | h1 | h1 | h1) <;> subst h1 <;> cases hh
  · exact hs rfl
  · exact absurd hd (by decide)
  · exact absurd hd (by decide)
  · exact absurd hd (by decide)

/-- The dispatch on a scanned move-number token that is not a result token:
the item is returned as-is with no state change. -/
theorem readItemAfterLoop_moveNumber_dispatch {B M : Type} (bi : BoardOps B M)
    (g : PgnGame M) (b : B) (tok : List Char) (s2 : TextStream)
    (hne : tok ≠ []) (hnsp : ∀ c ∈ tok, qIsSpace c = false)
    (hnr : ¬(tok = "*".data ∨ tok = "1/2-1/2".data ∨ tok = "1-0".data ∨
      tok = "0-1".data)) :
    readItemAfterLoop bi g b
      ⟨PgnItem.PgnMoveNumber, '\x00', '\x00', 0, tok⟩ s2 =
    ⟨PgnItem.PgnMoveNumber, g, b, s2, []⟩ := by
  have htrim : qtrim tok = tok := qtrim_eq_self tok hnsp
  unfold readItemAfterLoop
  simp only []
  rw [htrim]
  rw [if_neg hne]
  rw [if_neg (by
    rintro ⟨-, hfour⟩
    exact hnr hfour)]
  rw [if_neg (by simp)]
  rw [if_neg (by simp)]
  rw [if_neg (by simp)]

/-- The dispatch on a scanned move token in a non-empty record that is not a
result token: the move text is decoded on the current board and, when legal,
appended to the record while the board advances. -/
theorem readItemAfterLoop_move_dispatch {B M : Type} (bi : BoardOps B M)
    (g : PgnGame M) (b : B) (tok : List Char) (s2 : TextStream)
    (hE : g.m_isEmpty = false)
    (hne : tok ≠ []) (hnsp : ∀ c ∈ tok, qIsSpace c = false)
    (hnr : ¬(tok = "*".data ∨ tok = "1/2-1/2".data ∨ tok = "1-0".data ∨
      tok = "0-1".data))
    (hleg : bi.isLegalMove b (bi.moveFromString b (String.mk tok)) = true) :
    readItemAfterLoop bi g b
      ⟨PgnItem.PgnMove, '\x00', '\x00', 0, tok⟩ s2 =
    ⟨PgnItem.PgnMove,
      { g with m_moves :=
          g.m_moves ++ [bi.moveFromString b (String.mk tok)] },
      bi.makeMove b (bi.moveFromString b (String.mk tok)), s2, []⟩ := by
  have htrim : qtrim tok = tok := qtrim_eq_self tok hnsp
  unfold readItemAfterLoop
  simp only []
  rw [htrim]
  rw [if_neg hne]
  rw [if_neg (by
    rintro ⟨-, hfour⟩
    exact hnr hfour)]
  rw [if_neg (by simp)]
  rw [if_pos trivial]
  rw [if_neg (by simp [hE])]
  rw [if_pos hleg]

/-- The dispatch on a scanned move or move-number token that is one of the
four result tokens: it is reclassified as the game's result item. -/
theorem readItemAfterLoop_result_dispatch {B M : Type} (bi : BoardOps B M)
    (g : PgnGame M) (b : B) (ty : PgnItem) (tok : List Char)
    (s2 : TextStream)
    (hty : ty = PgnItem.PgnMove ∨ ty = PgnItem.PgnMoveNumber)
    (hnsp : ∀ c ∈ tok, qIsSpace c = false)
    (hr : tok = "*".data ∨ tok = "1/2-1/2".data ∨ tok = "1-0".data ∨
      tok = "0-1".data) :
    readItemAfterLoop bi g b ⟨ty, '\x00', '\x00', 0, tok⟩ s2 =
    ⟨PgnItem.PgnResult,
      { g with m_result := resultFromString (String.mk tok) }, b, s2,
      if resultFromString (String.mk tok) ≠ g.m_result then
        [Diag.terminationMarkerDiffers] else []⟩ := by
  have htrim : qtrim tok = tok := qtrim_eq_self tok hnsp
  have hne : tok ≠ [] := by
    rcases hr with h | h | h | h <;> subst h <;> decide
  unfold readItemAfterLoop
  simp only []
  rw [htrim]
  rw [if_neg hne]
  rw [if_pos ⟨hty, hr⟩]

/-- `readItem` on a plain token: leading whitespace, a first character that
starts no special item, token characters, then a terminator (whitespace, or a
period for a numeric first character).  The scan accumulates the token and
the dispatch receives it as a move item, reclassified as a move number when
the first character is a digit. -/
theorem readItem_token_eq {B M : Type} (bi : BoardOps B M) (g : PgnGame M)
    (b : B) (s : TextStream) (done ws : List Char) (c1 : Char)
    (tok' l2 : List Char) (t : Char) (hE : g.m_isEmpty = false)
    (hdata : s.data = done ++ ws ++ c1 :: (tok' ++ t :: l2))
    (hpos : s.pos = done.length) (hok : s.ok = true)
    (hws : ∀ x ∈ ws, qIsSpace x = true)
    (hc1 : tokenChar c1) (hc1h : c1 ≠ ';' ∧ c1 ≠ '%' ∧ c1 ≠ '$')
    (htok : ∀ c ∈ tok', tokenChar c)
    (ht : qIsSpace t = true ∨ (t = '.' ∧ c1.isDigit = true)) :
    PgnGame.readItem bi g b s =
    readItemAfterLoop bi g b
      ⟨if c1.isDigit = true then PgnItem.PgnMoveNumber else PgnItem.PgnMove,
        '\x00', '\x00', 0, c1 :: tok'⟩
      ⟨(done ++ ws) ++ c1 :: (tok' ++ t :: l2),
        (done ++ ws).length + 1 + tok'.length + 1, true⟩ := by
  have hsw := skipWhiteSpace_block s done ws (tok' ++ t :: l2) c1
    hdata hpos hws hc1.1
  have ht2 : qIsSpace t = true ∨ (t = '.' ∧
      (if c1.isDigit = true ∧ PgnItem.PgnMove = PgnItem.PgnMove then
        PgnItem.PgnMoveNumber else PgnItem.PgnMove) =
        PgnItem.PgnMoveNumber) := by
    rcases ht with h | ⟨h1, h2⟩
    · exact Or.inl h
    · exact Or.inr ⟨h1, by rw [if_pos ⟨h2, rfl⟩]⟩
  have hifty : (if c1.isDigit = true ∧ PgnItem.PgnMove = PgnItem.PgnMove then
      PgnItem.PgnMoveNumber else PgnItem.PgnMove) =
      (if c1.isDigit = true then PgnItem.PgnMoveNumber else
        PgnItem.PgnMove) := by
    by_cases hd : c1.isDigit = true <;> simp [hd]
  simp only [PgnGame.readItem]
  rw [hE, hsw, hdata, hok]
  have hstr : (⟨done ++ ws ++ c1 :: (tok' ++ t :: l2),
      done.length + ws.length, true⟩ : TextStream) =
      ⟨(done ++ ws) ++ c1 :: (tok' ++ t :: l2),
        (done ++ ws).length, true⟩ := by
    simp
  rw [hstr, show ScanState.start =
      (⟨PgnItem.PgnMove, '\x00', '\x00', 0, []⟩ : ScanState) from rfl,
    scanLoop_plain_token (decide (0 < g.m_moves.length))
    PgnItem.PgnMove (done ++ ws) c1 tok' l2 t (Or.inl rfl) hc1 hc1h htok ht2,
    hifty]

/-- `readItem` on a move-number token: a nonempty run of digits terminated by
the period is consumed and returned as a bare `PgnMoveNumber` item with no
state change. -/
theorem readItem_number_eq {B M : Type} (bi : BoardOps B M) (g : PgnGame M)
    (b : B) (s : TextStream) (done ws num l2 : List Char)
    (hE : g.m_isEmpty = false)
    (hdata : s.data = done ++ ws ++ (num ++ '.' :: l2))
    (hpos : s.pos = done.length) (hok : s.ok = true)
    (hws : ∀ x ∈ ws, qIsSpace x = true) (hne : num ≠ [])
    (hd : ∀ c ∈ num, c.isDigit = true ∧ tokenChar c ∧
      c ≠ ';' ∧ c ≠ '%' ∧ c ≠ '$') :
    PgnGame.readItem bi g b s =
    ⟨PgnItem.PgnMoveNumber, g, b,
      ⟨(done ++ ws) ++ (num ++ '.' :: l2),
        (done ++ ws).length + num.length + 1, true⟩, []⟩ := by
  cases hn : num with
  | nil => exact absurd hn hne
  | cons c1 tok' =>
      subst hn
      have hc1 := hd c1 (by simp)
      have hdata2 : s.data = done ++ ws ++ c1 :: (tok' ++ '.' :: l2) := by
        rw [hdata]
        simp
      rw [readItem_token_eq bi g b s done ws c1 tok' l2 '.' hE hdata2 hpos
        hok hws hc1.2.1 hc1.2.2 (fun c hc => (hd c (by simp [hc])).2.1)
        (Or.inr ⟨rfl, hc1.1⟩)]
      rw [if_pos hc1.1]
      rw [readItemAfterLoop_moveNumber_dispatch bi g b (c1 :: tok') _
        (List.cons_ne_nil _ _)
        (fun c hc => ((hd c hc).2.1).1)
        (digits_not_result (c1 :: tok') (fun c hc => (hd c hc).1))]
      have hs : (⟨(done ++ ws) ++ c1 :: (tok' ++ '.' :: l2),
          (done ++ ws).length + 1 + tok'.length + 1, true⟩ : TextStream) =
          ⟨(done ++ ws) ++ ((c1 :: tok') ++ '.' :: l2),
            (done ++ ws).length + (c1 :: tok').length + 1, true⟩ := by
        simp
        omega
      rw [hs]

/-- `readItem` on a move token: a nonempty token whose first character is
neither a digit nor the start of a special item, terminated by whitespace, is
decoded on the current board; when legal it is appended to the record and the
board advances by it. -/
theorem readItem_move_eq {B M : Type} (bi : BoardOps B M) (g : PgnGame M)
    (b : B) (s : TextStream) (done ws sd l2 : List Char) (t : Char)
    (hE : g.m_isEmpty = false)
    (hdata : s.data = done ++ ws ++ (sd ++ t :: l2))
    (hpos : s.pos = done.length) (hok : s.ok = true)
    (hws : ∀ x ∈ ws, qIsSpace x = true) (hne : sd ≠ [])
    (htokall : ∀ c ∈ sd, tokenChar c)
    (hhead : ∀ c, sd.head? = some c → c.isDigit = false ∧
      c ≠ ';' ∧ c ≠ '%' ∧ c ≠ '$' ∧ c ≠ '*')
    (ht : qIsSpace t = true)
    (hleg : bi.isLegalMove b (bi.moveFromString b (String.mk sd)) = true) :
    PgnGame.readItem bi g b s =
    ⟨PgnItem.PgnMove,
      { g with m_moves := g.m_moves ++ [bi.moveFromString b (String.mk sd)] },
      bi.makeMove b (bi.moveFromString b (String.mk sd)),
      ⟨(done ++ ws) ++ (sd ++ t :: l2),
        (done ++ ws).length + sd.length + 1, true⟩, []⟩ := by
  cases hn : sd with
  | nil => exact absurd hn hne
  | cons c1 tok' =>
      subst hn
      have hc1 := hhead c1 rfl
      have hdata2 : s.data = done ++ ws ++ c1 :: (tok' ++ t :: l2) := by
        rw [hdata]
        simp
      rw [readItem_token_eq bi g b s done ws c1 tok' l2 t hE hdata2 hpos
        hok hws (htokall c1 (by simp)) ⟨hc1.2.1, hc1.2.2.1, hc1.2.2.2.1⟩
        (fun c hc => htokall c (by simp [hc])) (Or.inl ht)]
      rw [if_neg (by simp [hc1.1])]
      rw [readItemAfterLoop_move_dispatch bi g b (c1 :: tok') _ hE
        (List.cons_ne_nil _ _)
        (fun c hc => (htokall c hc).1)
        (head_not_result (c1 :: tok') c1 rfl hc1.1 hc1.2.2.2.2) hleg]
      have hs : (⟨(done ++ ws) ++ c1 :: (tok' ++ t :: l2),
          (done ++ ws).length + 1 + tok'.length + 1, true⟩ : TextStream) =
          ⟨(done ++ ws) ++ ((c1 :: tok') ++ t :: l2),
            (done ++ ws).length + (c1 :: tok').length + 1, true⟩ := by
        simp
        omega
      rw [hs]

/-- `readItem` on a result token terminated by a newline: the token is
reclassified as the game's result and stored through `resultFromString`. -/
theorem readItem_result_eq {B M : Type} (bi : BoardOps B M) (g : PgnGame M)
    (b : B) (s : TextStream) (done ws l2 : List Char) (R : String)
    (hE : g.m_isEmpty = false)
    (hR : R = "1-0" ∨ R = "0-1" ∨ R = "1/2-1/2" ∨ R = "*")
    (hdata : s.data = done ++ ws ++ (R.data ++ '\n' :: l2))
    (hpos : s.pos = done.length) (hok : s.ok = true)
    (hws : ∀ x ∈ ws, qIsSpace x = true) :
    PgnGame.readItem bi g b s =
    ⟨PgnItem.PgnResult, { g with m_result := resultFromString R }, b,
      ⟨(done ++ ws) ++ (R.data ++ '\n' :: l2),
        (done ++ ws).length + R.data.length + 1, true⟩,
      if resultFromString R ≠ g.m_result then
        [Diag.terminationMarkerDiffers] else []⟩ := by
  rcases hR with hR | hR | hR | hR <;> subst hR
  · rw [readItem_token_eq bi g b s done ws '1' ['-', '0'] l2 '\n' hE
      (by rw [hdata]; rfl) hpos hok hws (by decide) (by decide)
      (by decide) (Or.inl (by decide))]
    rw [if_pos (by decide)]
    rw [readItemAfterLoop_result_dispatch bi g b PgnItem.PgnMoveNumber
      ('1' :: ['-', '0']) _ (Or.inr rfl) (by decide) (by decide)]
    rfl
  · rw [readItem_token_eq bi g b s done ws '0' ['-', '1'] l2 '\n' hE
      (by rw [hdata]; rfl) hpos hok hws (by decide) (by decide)
      (by decide) (Or.inl (by decide))]
    rw [if_pos (by decide)]
    rw [readItemAfterLoop_result_dispatch bi g b PgnItem.PgnMoveNumber
      ('0' :: ['-', '1']) _ (Or.inr rfl) (by decide) (by decide)]
    rfl
  · rw [readItem_token_eq bi g b s done ws '1' ['/', '2', '-', '1', '/', '2']
      l2 '\n' hE (by rw [hdata]; rfl) hpos hok hws (by decide) (by decide)
      (by decide) (Or.inl (by decide))]
    rw [if_pos (by decide)]
    rw [readItemAfterLoop_result_dispatch bi g b PgnItem.PgnMoveNumber
      ('1' :: ['/', '2', '-', '1', '/', '2']) _ (Or.inr rfl) (by decide)
      (by decide)]
    rfl
  · rw [readItem_token_eq bi g b s done ws '*' [] l2 '\n' hE
      (by rw [hdata]; rfl) hpos hok hws (by decide) (by decide)
      (by decide) (Or.inl (by decide))]
    rw [if_neg (by decide)]
    rw [readItemAfterLoop_result_dispatch bi g b PgnItem.PgnMove
      ('*' :: []) _ (Or.inl rfl) (by decide) (by decide)]
    rfl


/-- Repacking a string's character data yields the same string. -/
theorem string_mk_data (s : String) : String.mk s.data = s := rfl

/-- Parsing the serialized move text: from any non-empty record state, the
loop consumes each emitted ply (move-number token and move token), appending
the decoded moves in order, then consumes the trailing result token and
stops, positioned right after the result token's newline. -/
theorem parse_movetext {B M : Type} (bi : BoardOps B M)
    (hb : RoundTripBoard bi) (R : String)
    (hR : R = "1-0" ∨ R = "0-1" ∨ R = "1/2-1/2" ∨ R = "*")
    (rest : List Char) (n : Nat) (ms : List M) :
    ∀ (i : Nat) (g : PgnGame M) (b : B) (D0 ws0 : List Char),
    g.m_isEmpty = false →
    (∀ x ∈ ws0, qIsSpace x = true) →
    g.m_moves.length + ms.length < n →
    parseLoop bi g b
      ⟨D0 ++ ws0 ++
        ((writeMoveLoop bi b ms i).data ++ (R.data ++ '\n' :: rest)),
        D0.length, true⟩ n =
    ({ g with
        m_moves := g.m_moves ++ decodeMoves bi b ms,
        m_result := resultFromString R },
      ⟨D0 ++ ws0 ++
        ((writeMoveLoop bi b ms i).data ++ (R.data ++ '\n' :: rest)),
        D0.length + ws0.length + (writeMoveLoop bi b ms i).data.length +
          R.data.length + 1, true⟩) := by
  induction ms with
  | nil =>
      intro i g b D0 ws0 hE hws hlen
      have hri := readItem_result_eq bi g b
        ⟨D0 ++ ws0 ++
          ((writeMoveLoop bi b [] i).data ++ (R.data ++ '\n' :: rest)),
          D0.length, true⟩ D0 ws0 rest R hE hR
        (by simp [writeMoveLoop, show ("" : String).data = [] from rfl])
        rfl rfl hws
      rw [parseLoop_result_step bi g b _ n _ _ _ _
        ⟨rfl, by simp only [List.length_nil] at hlen; omega⟩ hri]
      simp only [Prod.mk.injEq]
      constructor
      · simp [decodeMoves]
      · simp only [TextStream.mk.injEq]
        refine ⟨?_, ?_, True.intro⟩
        · simp [writeMoveLoop, show ("" : String).data = [] from rfl]
        · simp [writeMoveLoop, show ("" : String).data = [] from rfl]
  | cons m rest' ih =>
      intro i g b D0 ws0 hE hws hlen
      have hsan := hb.san_token b m
      by_cases hi2 : i % 2 = 0
      · -- even ply: a move-number token, then the move token
        have hnum := repr_props (i / 2 + 1)
        have hDeq : D0 ++ ws0 ++
            ((writeMoveLoop bi b (m :: rest') i).data ++
              (R.data ++ '\n' :: rest)) =
            D0 ++ (ws0 ++ (if i % 8 = 0 then ['\n'] else [])) ++
              ((Nat.repr (i / 2 + 1)).data ++ '.' ::
                (' ' :: ((bi.moveString b m).data ++ ' ' ::
                  ((writeMoveLoop bi (bi.makeMove b m) rest' (i + 1)).data ++
                    (R.data ++ '\n' :: rest))))) := by
          simp only [writeMoveLoop]
          rw [if_pos hi2]
          simp [List.append_assoc,
            show (". " : String).data = ['.', ' '] from rfl,
            show (" " : String).data = [' '] from rfl,
            show ("\n" : String).data = ['\n'] from rfl,
            show ("" : String).data = [] from rfl,
            apply_ite String.data]
        have hws2 : ∀ x ∈ ws0 ++ (if i % 8 = 0 then ['\n'] else []),
            qIsSpace x = true := by
          intro x hx
          rcases List.mem_append.mp hx with h | h
          · exact hws x h
          · revert h
            split <;> intro h
            · rw [List.mem_singleton] at h
              subst h
              decide
            · cases h
        have hri1 := readItem_number_eq bi g b
          ⟨D0 ++ ws0 ++
            ((writeMoveLoop bi b (m :: rest') i).data ++
              (R.data ++ '\n' :: rest)), D0.length, true⟩
          D0 (ws0 ++ (if i % 8 = 0 then ['\n'] else []))
          (Nat.repr (i / 2 + 1)).data
          (' ' :: ((bi.moveString b m).data ++ ' ' ::
            ((writeMoveLoop bi (bi.makeMove b m) rest' (i + 1)).data ++
              (R.data ++ '\n' :: rest))))
          hE hDeq rfl rfl hws2 hnum.1 hnum.2
        rw [parseLoop_moveNumber_step bi g b _ n _ _ _ _
          ⟨rfl, by simp only [List.length_cons] at hlen; omega⟩ hri1]
        have hri2 := readItem_move_eq bi g b
          ⟨(D0 ++ (ws0 ++ (if i % 8 = 0 then ['\n'] else []))) ++
            ((Nat.repr (i / 2 + 1)).data ++ '.' ::
              (' ' :: ((bi.moveString b m).data ++ ' ' ::
                ((writeMoveLoop bi (bi.makeMove b m) rest' (i + 1)).data ++
                  (R.data ++ '\n' :: rest))))),
            (D0 ++ (ws0 ++ (if i % 8 = 0 then ['\n'] else []))).length +
              (Nat.repr (i / 2 + 1)).data.length + 1, true⟩
          ((D0 ++ (ws0 ++ (if i % 8 = 0 then ['\n'] else []))) ++
            ((Nat.repr (i / 2 + 1)).data ++ ['.']))
          [' ']
          (bi.moveString b m).data
          ((writeMoveLoop bi (bi.makeMove b m) rest' (i + 1)).data ++
            (R.data ++ '\n' :: rest))
          ' ' hE
          (by simp)
          (by simp only [List.length_append, List.length_cons,
            List.length_nil]; omega)
          rfl (by decide) hsan.1 hsan.2.1 hsan.2.2
          (by decide)
          (by rw [string_mk_data]; exact hb.decode_legal b m)
        rw [string_mk_data] at hri2
        rw [hb.decode_makeMove b m] at hri2
        rw [parseLoop_move_step bi g b _ n _ _ _ _
          ⟨rfl, by simp only [List.length_cons] at hlen; omega⟩ hri2]
        have hS2 : (⟨(((D0 ++ (ws0 ++ (if i % 8 = 0 then ['\n'] else []))) ++
              ((Nat.repr (i / 2 + 1)).data ++ ['.'])) ++ [' ']) ++
              ((bi.moveString b m).data ++ ' ' ::
                ((writeMoveLoop bi (bi.makeMove b m) rest' (i + 1)).data ++
                  (R.data ++ '\n' :: rest))),
            (((D0 ++ (ws0 ++ (if i % 8 = 0 then ['\n'] else []))) ++
              ((Nat.repr (i / 2 + 1)).data ++ ['.'])) ++ [' ']).length +
              (bi.moveString b m).data.length + 1, true⟩ : TextStream) =
            ⟨((((D0 ++ (ws0 ++ (if i % 8 = 0 then ['\n'] else []))) ++
              ((Nat.repr (i / 2 + 1)).data ++ ['.'])) ++ [' ']) ++
              ((bi.moveString b m).data ++ [' '])) ++ [] ++
              ((writeMoveLoop bi (bi.makeMove b m) rest' (i + 1)).data ++
                (R.data ++ '\n' :: rest)),
            (((((D0 ++ (ws0 ++ (if i % 8 = 0 then ['\n'] else []))) ++
              ((Nat.repr (i / 2 + 1)).data ++ ['.'])) ++ [' ']) ++
              ((bi.moveString b m).data ++ [' '])) : List Char).length,
            true⟩ := by
          simp only [TextStream.mk.injEq]
          refine ⟨by simp, ?_, True.intro⟩
          simp only [List.length_append, List.length_cons, List.length_nil]
          omega
        rw [hS2, ih (i + 1)
          { g with
            m_moves := g.m_moves ++
              [bi.moveFromString b (bi.moveString b m)] }
          (bi.makeMove b m)
          ((((D0 ++ (ws0 ++ (if i % 8 = 0 then ['\n'] else []))) ++
            ((Nat.repr (i / 2 + 1)).data ++ ['.'])) ++ [' ']) ++
            ((bi.moveString b m).data ++ [' ']))
          [] hE (fun x hx => absurd hx (List.not_mem_nil x))
          (by
            show (g.m_moves ++
              [bi.moveFromString b (bi.moveString b m)]).length +
              rest'.length < n
            simp only [List.length_append, List.length_cons,
              List.length_nil] at hlen ⊢
            omega)]
        have hLen := congrArg List.length hDeq
        simp only [List.length_append, List.length_cons] at hLen
        simp only [Prod.mk.injEq]
        refine ⟨?_, ?_⟩
        · simp [decodeMoves, List.append_assoc]
        · simp only [TextStream.mk.injEq]
          refine ⟨?_, ?_, True.intro⟩
          · rw [hDeq]
            simp
          · simp only [List.length_append, List.length_cons,
              List.length_nil]
            omega
      · -- odd ply: the move token only
        have hi8 : ¬(i % 8 = 0) := by omega
        have hDeq : D0 ++ ws0 ++
            ((writeMoveLoop bi b (m :: rest') i).data ++
              (R.data ++ '\n' :: rest)) =
            D0 ++ ws0 ++ ((bi.moveString b m).data ++ ' ' ::
              ((writeMoveLoop bi (bi.makeMove b m) rest' (i + 1)).data ++
                (R.data ++ '\n' :: rest))) := by
          simp only [writeMoveLoop]
          rw [if_neg hi8, if_neg hi2]
          simp [List.append_assoc,
            show (" " : String).data = [' '] from rfl,
            show ("" : String).data = [] from rfl]
        have hri := readItem_move_eq bi g b
          ⟨D0 ++ ws0 ++
            ((writeMoveLoop bi b (m :: rest') i).data ++
              (R.data ++ '\n' :: rest)), D0.length, true⟩
          D0 ws0 (bi.moveString b m).data
          ((writeMoveLoop bi (bi.makeMove b m) rest' (i + 1)).data ++
            (R.data ++ '\n' :: rest))
          ' ' hE hDeq rfl rfl hws hsan.1 hsan.2.1 hsan.2.2
          (by decide)
          (by rw [string_mk_data]; exact hb.decode_legal b m)
        rw [string_mk_data] at hri
        rw [hb.decode_makeMove b m] at hri
        rw [parseLoop_move_step bi g b _ n _ _ _ _
          ⟨rfl, by simp only [List.length_cons] at hlen; omega⟩ hri]
        have hS2 : (⟨(D0 ++ ws0) ++ ((bi.moveString b m).data ++ ' ' ::
              ((writeMoveLoop bi (bi.makeMove b m) rest' (i + 1)).data ++
                (R.data ++ '\n' :: rest))),
            (D0 ++ ws0).length + (bi.moveString b m).data.length + 1,
            true⟩ : TextStream) =
            ⟨((D0 ++ ws0) ++ ((bi.moveString b m).data ++ [' '])) ++ [] ++
              ((writeMoveLoop bi (bi.makeMove b m) rest' (i + 1)).data ++
                (R.data ++ '\n' :: rest)),
            (((D0 ++ ws0) ++ ((bi.moveString b m).data ++ [' '])) :
              List Char).length, true⟩ := by
          simp only [TextStream.mk.injEq]
          refine ⟨by simp, ?_, True.intro⟩
          simp only [List.length_append, List.length_cons, List.length_nil]
          omega
        rw [hS2, ih (i + 1)
          { g with
            m_moves := g.m_moves ++
              [bi.moveFromString b (bi.moveString b m)] }
          (bi.makeMove b m)
          ((D0 ++ ws0) ++ ((bi.moveString b m).data ++ [' ']))
          [] hE (fun x hx => absurd hx (List.not_mem_nil x))
          (by
            show (g.m_moves ++
              [bi.moveFromString b (bi.moveString b m)]).length +
              rest'.length < n
            simp only [List.length_append, List.length_cons,
              List.length_nil] at hlen ⊢
            omega)]
        have hLen := congrArg List.length hDeq
        simp only [List.length_append, List.length_cons] at hLen
        simp only [Prod.mk.injEq]
        refine ⟨?_, ?_⟩
        · simp [decodeMoves, List.append_assoc]
        · simp only [TextStream.mk.injEq]
          refine ⟨?_, ?_, True.intro⟩
          · rw [hDeq]
            simp
          · simp only [List.length_append, List.length_cons,
              List.length_nil]
            omega

/-- The four canonical strings `resultToString` can produce. -/
theorem resultToString_four (r : Chess.Result) :
    resultToString r = "1-0" ∨ resultToString r = "0-1" ∨
    resultToString r = "1/2-1/2" ∨ resultToString r = "*" := by
  cases r <;> first
    | exact Or.inl rfl
    | exact Or.inr (Or.inl rfl)
    | exact Or.inr (Or.inr (Or.inl rfl))
    | exact Or.inr (Or.inr (Or.inr rfl))

/-- Re-reading a canonical result string yields a result with the same
canonical string. -/
theorem resultToString_round (r : Chess.Result) :
    resultToString (resultFromString (resultToString r)) =
      resultToString r := by
  cases r <;> rfl

/-- Every character of a canonical result string may appear in a tag value. -/
theorem resultToString_tagOk (r : Chess.Result) :
    ∀ c ∈ (resultToString r).data, tagChar c ∧ c ≠ '"' := by
  cases r <;> decide

/-- One parse-loop step over a header tag other than `FEN`: the named record
field is updated, the record is marked non-empty, the board is untouched, and
the loop resumes right after the closing bracket. -/
theorem parseLoop_tag_generic {B M : Type} (bi : BoardOps B M)
    (g : PgnGame M) (b : B) (D : List Char) (p : Nat)
    (done ws name val l2 : List Char) (n : Nat)
    (hmoves : g.m_moves = []) (hn : 0 < n)
    (hdata : D = done ++ ws ++
      '[' :: ((name ++ ' ' :: '"' :: (val ++ ['"'])) ++ ']' :: l2))
    (hpos : p = done.length)
    (hws : ∀ x ∈ ws, qIsSpace x = true)
    (hname1 : name ≠ []) (hname : ∀ c ∈ name, tagChar c)
    (hnames : ∀ c ∈ name, qIsSpace c = false)
    (hnf : name ≠ "FEN".data)
    (hval : ∀ c ∈ val, tagChar c ∧ c ≠ '"') :
    parseLoop bi g b ⟨D, p, true⟩ n =
    parseLoop bi
      (if name = "White".data then
        { g with
          m_whitePlayer := String.mk val
          m_isEmpty := false }
      else if name = "Black".data then
        { g with
          m_blackPlayer := String.mk val
          m_isEmpty := false }
      else if name = "Result".data then
        { g with
          m_result := resultFromString (String.mk val)
          m_isEmpty := false }
      else { g with m_isEmpty := false })
      b ⟨D, done.length + ws.length + name.length + val.length + 5, true⟩
      n := by
  have hri := readItem_tag_eq bi g b ⟨D, p, true⟩ done ws name val l2 hmoves
    hdata hpos rfl hws hname (fun c hc => (hval c hc).1)
  rw [readItemAfterLoop_tag_dispatch bi g b name val _ hname1 hnames
    (fun c hc => (hval c hc).2)] at hri
  have hcond : (⟨D, p, true⟩ : TextStream).ok = true ∧
      g.m_moves.length < n := ⟨rfl, by rw [hmoves]; exact hn⟩
  by_cases h1 : name = "White".data
  · rw [if_pos h1] at hri ⊢
    rw [parseLoop_tag_step bi g b _ n _ _ _ _ hcond hri]
  · rw [if_neg h1] at hri ⊢
    by_cases h2 : name = "Black".data
    · rw [if_pos h2] at hri ⊢
      rw [parseLoop_tag_step bi g b _ n _ _ _ _ hcond hri]
    · rw [if_neg h2] at hri ⊢
      by_cases h3 : name = "Result".data
      · rw [if_pos h3] at hri ⊢
        rw [parseLoop_tag_step bi g b _ n _ _ _ _ hcond hri]
      · rw [if_neg h3] at hri ⊢
        rw [if_neg hnf] at hri
        rw [parseLoop_tag_step bi g b _ n _ _ _ _ hcond hri]

/-- One parse-loop step over a `FEN` header tag whose value the board
accepts: the starting position is stored, the board is reinitialized to it,
the record is marked non-empty, and the loop resumes after the bracket. -/
theorem parseLoop_tag_fen {B M : Type} (bi : BoardOps B M)
    (g : PgnGame M) (b : B) (D : List Char) (p : Nat)
    (done ws val l2 : List Char) (n : Nat)
    (hmoves : g.m_moves = []) (hn : 0 < n)
    (hdata : D = done ++ ws ++
      '[' :: (("FEN".data ++ ' ' :: '"' :: (val ++ ['"'])) ++ ']' :: l2))
    (hpos : p = done.length)
    (hws : ∀ x ∈ ws, qIsSpace x = true)
    (hval : ∀ c ∈ val, tagChar c ∧ c ≠ '"')
    (hOk : (bi.setBoard b (String.mk val)).1 = true) :
    parseLoop bi g b ⟨D, p, true⟩ n =
    parseLoop bi
      { g with
        m_fen := String.mk val
        m_isEmpty := false }
      (bi.setBoard b (String.mk val)).2
      ⟨D, done.length + ws.length + 3 + val.length + 5, true⟩ n := by
  have hri := readItem_tag_eq bi g b ⟨D, p, true⟩ done ws "FEN".data val l2
    hmoves hdata hpos rfl hws (by decide) (fun c hc => (hval c hc).1)
  rw [readItemAfterLoop_tag_dispatch bi g b "FEN".data val _ (by decide)
    (by decide) (fun c hc => (hval c hc).2)] at hri
  rw [if_neg (by decide), if_neg (by decide), if_neg (by decide),
    if_pos rfl, if_pos hOk] at hri
  have hcond : (⟨D, p, true⟩ : TextStream).ok = true ∧
      g.m_moves.length < n := ⟨rfl, by rw [hmoves]; exact hn⟩
  rw [parseLoop_tag_step bi g b _ n _ _ _ _ hcond hri]
  rfl

/-- The characters of one header tag without its newline. -/
def tagOpen (name val : List Char) : List Char :=
  '[' :: ((name ++ ' ' :: '"' :: (val ++ ['"'])) ++ [']'])

/-- The characters of one header tag line as `write` emits it. -/
def tagLine (name val : List Char) : List Char :=
  tagOpen name val ++ ['\n']

/-- Parsing the full output of `write` for a standard-variant, non-random,
non-empty record over a coherent board: every header field is recovered, the
position round-trips, and the moves are re-decoded in order on the same
replayed board. -/
theorem parse_write_std {B M : Type} (bi : BoardOps B M)
    (hb : RoundTripBoard bi) (date : String) (g : PgnGame M)
    (maxMoves : Nat)
    (hE : g.m_isEmpty = false)
    (hvar : g.m_variant = Chess.Variant.StandardChess)
    (hrand : g.m_isRandomVariant = false)
    (hdate : ∀ c ∈ date.data, tagChar c ∧ c ≠ '"')
    (hwp : ∀ c ∈ g.m_whitePlayer.data, tagChar c ∧ c ≠ '"')
    (hbp : ∀ c ∈ g.m_blackPlayer.data, tagChar c ∧ c ≠ '"')
    (hfen : ∀ c ∈ g.m_fen.data, tagChar c ∧ c ≠ '"')
    (hfenOk : (bi.setBoard (bi.mkBoard Chess.Variant.StandardChess)
      g.m_fen).1 = true)
    (hmax : g.m_moves.length < maxMoves) :
    PgnGame.parse bi ⟨(PgnGame.write bi date g).data, 0, true⟩ maxMoves =
    ⟨g.m_whitePlayer, g.m_blackPlayer,
      resultFromString (resultToString g.m_result), g.m_fen,
      Chess.Variant.StandardChess, false,
      decodeMoves bi
        (bi.setBoard (bi.mkBoard Chess.Variant.StandardChess) g.m_fen).2
        g.m_moves,
      0, false⟩ := by
  have hvs : g.variantString = "" := by
    unfold PgnGame.variantString
    rw [hvar]
    show (if g.m_isRandomVariant = true then "Fischerandom" else "") = ""
    rw [hrand]
    rfl
  unfold PgnGame.parse
  by_cases hsf : g.m_fen = Chess.standardFen
  · -- the canonical starting position: no FEN tag is emitted
    have huf : g.useFen = false := by
      unfold PgnGame.useFen
      rw [hvar]
      show decide (g.m_fen ≠ Chess.standardFen) = false
      rw [hsf]
      simp
    have hbw : (bi.setBoard (bi.mkBoard g.m_variant) g.m_fen).2 =
        parseInitBoard bi := by
      rw [hvar, hsf]
      rfl
    have hwA : PgnGame.write bi date g =
        "[Date \"" ++ date ++ "\"]\n" ++
        "[White \"" ++ g.m_whitePlayer ++ "\"]\n" ++
        "[Black \"" ++ g.m_blackPlayer ++ "\"]\n" ++
        "[Result \"" ++ resultToString g.m_result ++ "\"]\n" ++
        "" ++ "" ++
        writeMoveLoop bi (parseInitBoard bi) g.m_moves 0 ++
        resultToString g.m_result ++ "\n\n" := by
      unfold PgnGame.write
      rw [if_neg (by simp [hE]), if_neg (by rw [hvs]; simp),
        if_neg (by rw [huf]; simp), hbw]
    have hDA : (PgnGame.write bi date g).data =
        tagLine "Date".data date.data ++
        (tagLine "White".data g.m_whitePlayer.data ++
        (tagLine "Black".data g.m_blackPlayer.data ++
        (tagLine "Result".data (resultToString g.m_result).data ++
        ((writeMoveLoop bi (parseInitBoard bi) g.m_moves 0).data ++
          ((resultToString g.m_result).data ++ '\n' :: ['\n']))))) := by
      rw [hwA]
      simp [tagLine, tagOpen, List.append_assoc,
        show ("[Date \"" : String).data =
          '[' :: ("Date".data ++ [' ', '"']) from rfl,
        show ("[White \"" : String).data =
          '[' :: ("White".data ++ [' ', '"']) from rfl,
        show ("[Black \"" : String).data =
          '[' :: ("Black".data ++ [' ', '"']) from rfl,
        show ("[Result \"" : String).data =
          '[' :: ("Result".data ++ [' ', '"']) from rfl,
        show ("\"]\n" : String).data = ['"', ']', '\n'] from rfl,
        show ("\n\n" : String).data = ['\n', '\n'] from rfl,
        show ("" : String).data = [] from rfl]
    rw [parseLoop_tag_generic bi (parseInitGame bi) (parseInitBoard bi)
      (PgnGame.write bi date g).data 0 [] [] "Date".data date.data
      ('\n' :: (tagLine "White".data g.m_whitePlayer.data ++
        (tagLine "Black".data g.m_blackPlayer.data ++
        (tagLine "Result".data (resultToString g.m_result).data ++
        ((writeMoveLoop bi (parseInitBoard bi) g.m_moves 0).data ++
          ((resultToString g.m_result).data ++ '\n' :: ['\n']))))))
      maxMoves rfl (by omega)
      (by rw [hDA]; simp [tagLine, tagOpen, List.append_assoc]) rfl
      (fun x hx => absurd hx (List.not_mem_nil x)) (by decide) (by decide)
      (by decide) (by decide) hdate,
      if_neg (by decide), if_neg (by decide), if_neg (by decide)]
    rw [parseLoop_tag_generic bi _ (parseInitBoard bi)
      (PgnGame.write bi date g).data _ (tagOpen "Date".data date.data)
      ['\n'] "White".data g.m_whitePlayer.data
      ('\n' :: (tagLine "Black".data g.m_blackPlayer.data ++
        (tagLine "Result".data (resultToString g.m_result).data ++
        ((writeMoveLoop bi (parseInitBoard bi) g.m_moves 0).data ++
          ((resultToString g.m_result).data ++ '\n' :: ['\n'])))))
      maxMoves rfl (by omega)
      (by rw [hDA]; simp [tagLine, tagOpen, List.append_assoc])
      (by simp only [tagOpen, List.length_nil, List.length_append,
        List.length_cons]; omega)
      (by decide) (by decide) (by decide) (by decide) (by decide) hwp,
      if_pos rfl]
    rw [parseLoop_tag_generic bi _ (parseInitBoard bi)
      (PgnGame.write bi date g).data _
      (tagLine "Date".data date.data ++
        tagOpen "White".data g.m_whitePlayer.data)
      ['\n'] "Black".data g.m_blackPlayer.data
      ('\n' :: (tagLine "Result".data (resultToString g.m_result).data ++
        ((writeMoveLoop bi (parseInitBoard bi) g.m_moves 0).data ++
          ((resultToString g.m_result).data ++ '\n' :: ['\n']))))
      maxMoves rfl (by omega)
      (by rw [hDA]; simp [tagLine, tagOpen, List.append_assoc])
      (by simp only [tagLine, tagOpen, List.length_append,
        List.length_cons, List.length_nil]; omega)
      (by decide) (by decide) (by decide) (by decide) (by decide) hbp,
      if_neg (by decide), if_pos rfl]
    rw [parseLoop_tag_generic bi _ (parseInitBoard bi)
      (PgnGame.write bi date g).data _
      (tagLine "Date".data date.data ++
        (tagLine "White".data g.m_whitePlayer.data ++
          tagOpen "Black".data g.m_blackPlayer.data))
      ['\n'] "Result".data (resultToString g.m_result).data
      ('\n' :: ((writeMoveLoop bi (parseInitBoard bi) g.m_moves 0).data ++
        ((resultToString g.m_result).data ++ '\n' :: ['\n'])))
      maxMoves rfl (by omega)
      (by rw [hDA]; simp [tagLine, tagOpen, List.append_assoc])
      (by simp only [tagLine, tagOpen, List.length_append,
        List.length_cons, List.length_nil]; omega)
      (by decide) (by decide) (by decide) (by decide) (by decide)
      (resultToString_tagOk g.m_result),
      if_neg (by decide), if_neg (by decide), if_pos rfl]
    have hSm : (⟨(PgnGame.write bi date g).data,
        (tagLine "Date".data date.data ++
          (tagLine "White".data g.m_whitePlayer.data ++
            tagOpen "Black".data g.m_blackPlayer.data)).length +
          (['\n'] : List Char).length + ("Result".data).length +
          ((resultToString g.m_result).data).length + 5, true⟩ :
          TextStream) =
        ⟨(tagLine "Date".data date.data ++
          (tagLine "White".data g.m_whitePlayer.data ++
          (tagLine "Black".data g.m_blackPlayer.data ++
          tagOpen "Result".data (resultToString g.m_result).data))) ++
          ['\n'] ++
          ((writeMoveLoop bi (parseInitBoard bi) g.m_moves 0).data ++
            ((resultToString g.m_result).data ++ '\n' :: ['\n'])),
        (tagLine "Date".data date.data ++
          (tagLine "White".data g.m_whitePlayer.data ++
          (tagLine "Black".data g.m_blackPlayer.data ++
          tagOpen "Result".data
            (resultToString g.m_result).data))).length, true⟩ := by
      simp only [TextStream.mk.injEq]
      refine ⟨?_, ?_, True.intro⟩
      · rw [hDA]
        simp [tagLine, tagOpen, List.append_assoc]
      · simp only [tagLine, tagOpen, List.length_append, List.length_cons,
          List.length_nil]
        omega
    rw [hSm]
    show (parseLoop bi
      (⟨g.m_whitePlayer, g.m_blackPlayer,
        resultFromString (resultToString g.m_result),
        bi.fenString (parseInitBoard bi), Chess.Variant.StandardChess,
        false, [], 0, false⟩ : PgnGame M)
      (parseInitBoard bi)
      ⟨(tagLine "Date".data date.data ++
          (tagLine "White".data g.m_whitePlayer.data ++
          (tagLine "Black".data g.m_blackPlayer.data ++
          tagOpen "Result".data (resultToString g.m_result).data))) ++
          ['\n'] ++
          ((writeMoveLoop bi (parseInitBoard bi) g.m_moves 0).data ++
            ((resultToString g.m_result).data ++ '\n' :: ['\n'])),
        (tagLine "Date".data date.data ++
          (tagLine "White".data g.m_whitePlayer.data ++
          (tagLine "Black".data g.m_blackPlayer.data ++
          tagOpen "Result".data
            (resultToString g.m_result).data))).length, true⟩
      maxMoves).1 = _
    rw [parse_movetext bi hb (resultToString g.m_result)
      (resultToString_four g.m_result) ['\n'] maxMoves g.m_moves 0
      (⟨g.m_whitePlayer, g.m_blackPlayer,
        resultFromString (resultToString g.m_result),
        bi.fenString (parseInitBoard bi), Chess.Variant.StandardChess,
        false, [], 0, false⟩ : PgnGame M)
      (parseInitBoard bi)
      (tagLine "Date".data date.data ++
        (tagLine "White".data g.m_whitePlayer.data ++
        (tagLine "Black".data g.m_blackPlayer.data ++
        tagOpen "Result".data (resultToString g.m_result).data)))
      ['\n'] rfl (by decide) (by simpa using hmax)]
    simp [parseInitBoard, hsf, hb.fen_std]
  · -- a non-canonical starting position: a FEN tag is emitted and replayed
    have huf : g.useFen = true := by
      unfold PgnGame.useFen
      rw [hvar]
      show decide (g.m_fen ≠ Chess.standardFen) = true
      simp [hsf]
    have hbw : (bi.setBoard (bi.mkBoard g.m_variant) g.m_fen).2 =
        (bi.setBoard (parseInitBoard bi) g.m_fen).2 := by
      rw [hvar, hb.setBoard_reset (bi.mkBoard Chess.Variant.StandardChess)
        (parseInitBoard bi) g.m_fen]
    have hwB : PgnGame.write bi date g =
        "[Date \"" ++ date ++ "\"]\n" ++
        "[White \"" ++ g.m_whitePlayer ++ "\"]\n" ++
        "[Black \"" ++ g.m_blackPlayer ++ "\"]\n" ++
        "[Result \"" ++ resultToString g.m_result ++ "\"]\n" ++
        "" ++ ("[FEN \"" ++ g.m_fen ++ "\"]\n") ++
        writeMoveLoop bi (bi.setBoard (parseInitBoard bi) g.m_fen).2
          g.m_moves 0 ++
        resultToString g.m_result ++ "\n\n" := by
      unfold PgnGame.write
      rw [if_neg (by simp [hE]), if_neg (by rw [hvs]; simp),
        if_pos huf, hbw]
    have hDB : (PgnGame.write bi date g).data =
        tagLine "Date".data date.data ++
        (tagLine "White".data g.m_whitePlayer.data ++
        (tagLine "Black".data g.m_blackPlayer.data ++
        (tagLine "Result".data (resultToString g.m_result).data ++
        (tagLine "FEN".data g.m_fen.data ++
        ((writeMoveLoop bi (bi.setBoard (parseInitBoard bi) g.m_fen).2
            g.m_moves 0).data ++
          ((resultToString g.m_result).data ++ '\n' :: ['\n'])))))) := by
      rw [hwB]
      simp [tagLine, tagOpen, List.append_assoc,
        show ("[Date \"" : String).data =
          '[' :: ("Date".data ++ [' ', '"']) from rfl,
        show ("[White \"" : String).data =
          '[' :: ("White".data ++ [' ', '"']) from rfl,
        show ("[Black \"" : String).data =
          '[' :: ("Black".data ++ [' ', '"']) from rfl,
        show ("[Result \"" : String).data =
          '[' :: ("Result".data ++ [' ', '"']) from rfl,
        show ("[FEN \"" : String).data =
          '[' :: ("FEN".data ++ [' ', '"']) from rfl,
        show ("\"]\n" : String).data = ['"', ']', '\n'] from rfl,
        show ("\n\n" : String).data = ['\n', '\n'] from rfl,
        show ("" : String).data = [] from rfl]
    rw [parseLoop_tag_generic bi (parseInitGame bi) (parseInitBoard bi)
      (PgnGame.write bi date g).data 0 [] [] "Date".data date.data
      ('\n' :: (tagLine "White".data g.m_whitePlayer.data ++
        (tagLine "Black".data g.m_blackPlayer.data ++
        (tagLine "Result".data (resultToString g.m_result).data ++
        (tagLine "FEN".data g.m_fen.data ++
        ((writeMoveLoop bi (bi.setBoard (parseInitBoard bi) g.m_fen).2
            g.m_moves 0).data ++
          ((resultToString g.m_result).data ++ '\n' :: ['\n'])))))))
      maxMoves rfl (by omega)
      (by rw [hDB]; simp [tagLine, tagOpen, List.append_assoc]) rfl
      (fun x hx => absurd hx (List.not_mem_nil x)) (by decide) (by decide)
      (by decide) (by decide) hdate,
      if_neg (by decide), if_neg (by decide), if_neg (by decide)]
    rw [parseLoop_tag_generic bi _ (parseInitBoard bi)
      (PgnGame.write bi date g).data _ (tagOpen "Date".data date.data)
      ['\n'] "White".data g.m_whitePlayer.data
      ('\n' :: (tagLine "Black".data g.m_blackPlayer.data ++
        (tagLine "Result".data (resultToString g.m_result).data ++
        (tagLine "FEN".data g.m_fen.data ++
        ((writeMoveLoop bi (bi.setBoard (parseInitBoard bi) g.m_fen).2
            g.m_moves 0).data ++
          ((resultToString g.m_result).data ++ '\n' :: ['\n']))))))
      maxMoves rfl (by omega)
      (by rw [hDB]; simp [tagLine, tagOpen, List.append_assoc])
      (by simp only [tagOpen, List.length_nil, List.length_append,
        List.length_cons]; omega)
      (by decide) (by decide) (by decide) (by decide) (by decide) hwp,
      if_pos rfl]
    rw [parseLoop_tag_generic bi _ (parseInitBoard bi)
      (PgnGame.write bi date g).data _
      (tagLine "Date".data date.data ++
        tagOpen "White".data g.m_whitePlayer.data)
      ['\n'] "Black".data g.m_blackPlayer.data
      ('\n' :: (tagLine "Result".data (resultToString g.m_result).data ++
        (tagLine "FEN".data g.m_fen.data ++
        ((writeMoveLoop bi (bi.setBoard (parseInitBoard bi) g.m_fen).2
            g.m_moves 0).data ++
          ((resultToString g.m_result).data ++ '\n' :: ['\n'])))))
      maxMoves rfl (by omega)
      (by rw [hDB]; simp [tagLine, tagOpen, List.append_assoc])
      (by simp only [tagLine, tagOpen, List.length_append,
        List.length_cons, List.length_nil]; omega)
      (by decide) (by decide) (by decide) (by decide) (by decide) hbp,
      if_neg (by decide), if_pos rfl]
    rw [parseLoop_tag_generic bi _ (parseInitBoard bi)
      (PgnGame.write bi date g).data _
      (tagLine "Date".data date.data ++
        (tagLine "White".data g.m_whitePlayer.data ++
          tagOpen "Black".data g.m_blackPlayer.data))
      ['\n'] "Result".data (resultToString g.m_result).data
      ('\n' :: (tagLine "FEN".data g.m_fen.data ++
        ((writeMoveLoop bi (bi.setBoard (parseInitBoard bi) g.m_fen).2
            g.m_moves 0).data ++
          ((resultToString g.m_result).data ++ '\n' :: ['\n']))))
      maxMoves rfl (by omega)
      (by rw [hDB]; simp [tagLine, tagOpen, List.append_assoc])
      (by simp only [tagLine, tagOpen, List.length_append,
        List.length_cons, List.length_nil]; omega)
      (by decide) (by decide) (by decide) (by decide) (by decide)
      (resultToString_tagOk g.m_result),
      if_neg (by decide), if_neg (by decide), if_pos rfl]
    rw [parseLoop_tag_fen bi _ (parseInitBoard bi)
      (PgnGame.write bi date g).data _
      (tagLine "Date".data date.data ++
        (tagLine "White".data g.m_whitePlayer.data ++
        (tagLine "Black".data g.m_blackPlayer.data ++
          tagOpen "Result".data (resultToString g.m_result).data)))
      ['\n'] g.m_fen.data
      ('\n' :: ((writeMoveLoop bi
          (bi.setBoard (parseInitBoard bi) g.m_fen).2 g.m_moves 0).data ++
        ((resultToString g.m_result).data ++ '\n' :: ['\n'])))
      maxMoves rfl (by omega)
      (by rw [hDB]; simp [tagLine, tagOpen, List.append_assoc])
      (by simp only [tagLine, tagOpen, List.length_append,
        List.length_cons, List.length_nil]; omega)
      (by decide) hfen
      (by
        rw [string_mk_data,
          hb.setBoard_reset (parseInitBoard bi)
            (bi.mkBoard Chess.Variant.StandardChess) g.m_fen]
        exact hfenOk)]
    have hSm : (⟨(PgnGame.write bi date g).data,
        (tagLine "Date".data date.data ++
          (tagLine "White".data g.m_whitePlayer.data ++
          (tagLine "Black".data g.m_blackPlayer.data ++
            tagOpen "Result".data
              (resultToString g.m_result).data))).length +
          (['\n'] : List Char).length + 3 + (g.m_fen.data).length + 5,
        true⟩ : TextStream) =
        ⟨(tagLine "Date".data date.data ++
          (tagLine "White".data g.m_whitePlayer.data ++
          (tagLine "Black".data g.m_blackPlayer.data ++
          (tagLine "Result".data (resultToString g.m_result).data ++
          tagOpen "FEN".data g.m_fen.data)))) ++ ['\n'] ++
          ((writeMoveLoop bi (bi.setBoard (parseInitBoard bi) g.m_fen).2
              g.m_moves 0).data ++
            ((resultToString g.m_result).data ++ '\n' :: ['\n'])),
        (tagLine "Date".data date.data ++
          (tagLine "White".data g.m_whitePlayer.data ++
          (tagLine "Black".data g.m_blackPlayer.data ++
          (tagLine "Result".data (resultToString g.m_result).data ++
          tagOpen "FEN".data g.m_fen.data)))).length, true⟩ := by
      simp only [TextStream.mk.injEq]
      refine ⟨?_, ?_, True.intro⟩
      · rw [hDB]
        simp [tagLine, tagOpen, List.append_assoc]
      · simp only [tagLine, tagOpen, List.length_append, List.length_cons,
          List.length_nil,
          show ("FEN".data).length = 3 from rfl]
        omega
    rw [hSm]
    show (parseLoop bi
      (⟨g.m_whitePlayer, g.m_blackPlayer,
        resultFromString (resultToString g.m_result), g.m_fen,
        Chess.Variant.StandardChess, false, [], 0, false⟩ : PgnGame M)
      (bi.setBoard (parseInitBoard bi) g.m_fen).2
      ⟨(tagLine "Date".data date.data ++
          (tagLine "White".data g.m_whitePlayer.data ++
          (tagLine "Black".data g.m_blackPlayer.data ++
          (tagLine "Result".data (resultToString g.m_result).data ++
          tagOpen "FEN".data g.m_fen.data)))) ++ ['\n'] ++
          ((writeMoveLoop bi (bi.setBoard (parseInitBoard bi) g.m_fen).2
              g.m_moves 0).data ++
            ((resultToString g.m_result).data ++ '\n' :: ['\n'])),
        (tagLine "Date".data date.data ++
          (tagLine "White".data g.m_whitePlayer.data ++
          (tagLine "Black".data g.m_blackPlayer.data ++
          (tagLine "Result".data (resultToString g.m_result).data ++
          tagOpen "FEN".data g.m_fen.data)))).length, true⟩
      maxMoves).1 = _
    rw [parse_movetext bi hb (resultToString g.m_result)
      (resultToString_four g.m_result) ['\n'] maxMoves g.m_moves 0
      (⟨g.m_whitePlayer, g.m_blackPlayer,
        resultFromString (resultToString g.m_result), g.m_fen,
        Chess.Variant.StandardChess, false, [], 0, false⟩ : PgnGame M)
      (bi.setBoard (parseInitBoard bi) g.m_fen).2
      (tagLine "Date".data date.data ++
        (tagLine "White".data g.m_whitePlayer.data ++
        (tagLine "Black".data g.m_blackPlayer.data ++
        (tagLine "Result".data (resultToString g.m_result).data ++
        tagOpen "FEN".data g.m_fen.data))))
      ['\n'] rfl (by decide) (by simpa using hmax)]
    simp [hb.setBoard_reset (parseInitBoard bi)
      (bi.mkBoard Chess.Variant.StandardChess) g.m_fen]

/-- The trivial board double satisfies the round-trip coherence
assumptions. -/
theorem unitBoard_roundTrip : RoundTripBoard unitBoard := by
  refine ⟨fun _ _ => rfl, fun _ _ => rfl, fun _ _ => rfl, fun _ _ _ => rfl,
    rfl, fun b m => ⟨?_, ?_, ?_⟩⟩
  · show ("Z" : String).data ≠ []
    decide
  · show ∀ c ∈ ("Z" : String).data, tokenChar c
    decide
  · show ∀ c : Char, ("Z" : String).data.head? = some c →
      c.isDigit = false ∧ c ≠ ';' ∧ c ≠ '%' ∧ c ≠ '$' ∧ c ≠ '*'
    decide

/-- Modelled from the claim's wording: parsing (with the given `maxMoves`)
the text produced by `write` for a record yields a record with the same white
and black player names, the same result, the same starting position and
variant, and a move sequence decoding to the same canonical move notation on
the record's own starting board. -/
def c1ClaimedRoundTrip {B M : Type} (bi : BoardOps B M) (date : String)
    (g : PgnGame M) (maxMoves : Nat) : Prop :=
  (PgnGame.parse bi ⟨(PgnGame.write bi date g).data, 0, true⟩
    maxMoves).m_whitePlayer = g.m_whitePlayer ∧
  (PgnGame.parse bi ⟨(PgnGame.write bi date g).data, 0, true⟩
    maxMoves).m_blackPlayer = g.m_blackPlayer ∧
  (PgnGame.parse bi ⟨(PgnGame.write bi date g).data, 0, true⟩
    maxMoves).m_result = g.m_result ∧
  (PgnGame.parse bi ⟨(PgnGame.write bi date g).data, 0, true⟩
    maxMoves).m_fen = g.m_fen ∧
  (PgnGame.parse bi ⟨(PgnGame.write bi date g).data, 0, true⟩
    maxMoves).m_variant = g.m_variant ∧
  sanList bi (bi.setBoard (bi.mkBoard g.m_variant) g.m_fen).2
    (PgnGame.parse bi ⟨(PgnGame.write bi date g).data, 0, true⟩
      maxMoves).m_moves =
  sanList bi (bi.setBoard (bi.mkBoard g.m_variant) g.m_fen).2 g.m_moves

/-- A concrete non-empty Capablanca-variant record with the canonical gothic
starting position and no moves. -/
def gameCapaU : PgnGame Unit :=
  ⟨"w", "b", Chess.Result.NoResult, Chess.gothicFen,
    Chess.Variant.CapablancaChess, false, [], 0, false⟩

/-- Counterexample to claim C1 as stated: on a fully coherent board double
and a non-empty record of the alternate variant, the round trip fails — the
parsing constructor fixes the variant to standard chess and never assigns
`m_variant` (no `Variant` tag is recognized), so the variant of the parsed
record differs from the written one. -/
theorem c1_counterexample :
    RoundTripBoard unitBoard ∧ gameCapaU.m_isEmpty = false ∧
    ¬ c1ClaimedRoundTrip unitBoard "2026.10.12" gameCapaU 100 :=
  ⟨unitBoard_roundTrip, rfl, by
    intro h
    have hv := h.2.2.2.2.1
    rw [parse_variant_standard] at hv
    exact absurd hv (by decide)⟩

/-- Claim C1 (amended): for every non-empty record of the standard variant
with the random-start flag clear, over a rules engine that is coherent for
round trips (`RoundTripBoard`), with tag-safe date, player-name and position
texts, a starting position the engine accepts, and `maxMoves` larger than
the record's move count: parsing the text produced by `write` yields a
record with the same white and black player names, a result with the same
canonical result token, the same starting position and variant, and a move
sequence decoding to the same canonical move notation (the stored result is
the canonical re-reading of the emitted token, not necessarily the original
constructor). -/
theorem c1_round_trip {B M : Type} (bi : BoardOps B M)
    (hb : RoundTripBoard bi) (date : String) (g : PgnGame M)
    (maxMoves : Nat)
    (hE : g.m_isEmpty = false)
    (hvar : g.m_variant = Chess.Variant.StandardChess)
    (hrand : g.m_isRandomVariant = false)
    (hdate : ∀ c ∈ date.data, tagChar c ∧ c ≠ '"')
    (hwp : ∀ c ∈ g.m_whitePlayer.data, tagChar c ∧ c ≠ '"')
    (hbp : ∀ c ∈ g.m_blackPlayer.data, tagChar c ∧ c ≠ '"')
    (hfen : ∀ c ∈ g.m_fen.data, tagChar c ∧ c ≠ '"')
    (hfenOk : (bi.setBoard (bi.mkBoard Chess.Variant.StandardChess)
      g.m_fen).1 = true)
    (hmax : g.m_moves.length < maxMoves) :
    (PgnGame.parse bi ⟨(PgnGame.write bi date g).data, 0, true⟩
      maxMoves).m_whitePlayer = g.m_whitePlayer ∧
    (PgnGame.parse bi ⟨(PgnGame.write bi date g).data, 0, true⟩
      maxMoves).m_blackPlayer = g.m_blackPlayer ∧
    resultToString (PgnGame.parse bi
      ⟨(PgnGame.write bi date g).data, 0, true⟩ maxMoves).m_result =
      resultToString g.m_result ∧
    (PgnGame.parse bi ⟨(PgnGame.write bi date g).data, 0, true⟩
      maxMoves).m_fen = g.m_fen ∧
    (PgnGame.parse bi ⟨(PgnGame.write bi date g).data, 0, true⟩
      maxMoves).m_variant = g.m_variant ∧
    (PgnGame.parse bi ⟨(PgnGame.write bi date g).data, 0, true⟩
      maxMoves).m_isEmpty = false ∧
    sanList bi (bi.setBoard (bi.mkBoard g.m_variant) g.m_fen).2
      (PgnGame.parse bi ⟨(PgnGame.write bi date g).data, 0, true⟩
        maxMoves).m_moves =
    sanList bi (bi.setBoard (bi.mkBoard g.m_variant) g.m_fen).2
      g.m_moves := by
  rw [parse_write_std bi hb date g maxMoves hE hvar hrand hdate hwp hbp hfen
    hfenOk hmax]
  refine ⟨rfl, rfl, resultToString_round g.m_result, rfl, hvar.symm, rfl,
    ?_⟩
  rw [hvar]
  exact sanList_decodeMoves bi hb g.m_moves
    (bi.setBoard (bi.mkBoard Chess.Variant.StandardChess) g.m_fen).2

/-- Witness for the amended C1 at a concrete one-move record over the
trivial board double. -/
theorem c1_witness :
    gameOneMoveU.m_isEmpty = false ∧
    (PgnGame.parse unitBoard
      ⟨(PgnGame.write unitBoard "2026.10.12" gameOneMoveU).data, 0, true⟩
      5).m_whitePlayer = gameOneMoveU.m_whitePlayer :=
  ⟨rfl, (c1_round_trip unitBoard unitBoard_roundTrip "2026.10.12"
    gameOneMoveU 5 rfl rfl rfl (by decide) (by decide) (by decide)
    (by decide) rfl (by decide)).1⟩
